import Mathlib

/-! VirtualArray: a direct-mapped page cache over a device buffer

Shallow embedding of `VirtualArray<T>` (src/VirtualArray.h).  The engine keeps the
authoritative copy of an array of `sz` elements in device memory (`gpu`) and mirrors
pages of `szp` elements into `nump` host slots (`cpu`).

Modelling conventions.

* Memories are total maps from an element position to a value: `gpu a` is the device
  element `a` (the buffer holds the positions `a < sz`), `arr o` is the host buffer
  element `o` of a slot (the buffer holds the positions `o < szp`).
* `size_t` values are naturals below `2 ^ 64`; the two `size_t` operations of the
  address translation that could wrap (`selectedPage * szp` and the subtraction from
  `index`) are embedded with an explicit `% 2 ^ 64`.
* The `int` fields `szp` and `nump` hold positive values, for which the conversion to
  `size_t` is the identity, so they are naturals.
* Device transfers are addressed in bytes, as in the source: the byte offset
  `sizeof(T) * p * szp` and the byte length `sizeof(T) * szp` are computed in `size_t`
  arithmetic, so they wrap modulo `2 ^ 64`.  `sizeof(T)` and the bytes of an object come
  from `ElemLayout T`.  The byte size of the device buffer, `sizeof(T) * sz`, is a
  `size_t` as well.  A transfer whose byte range is not inside the device buffer is
  rejected by the runtime and moves no data.  When the byte size of the array does not
  wrap and the page lies among the `sz` elements, the offset does not wrap either and
  the transfer moves the elements `[p * szp, p * szp + szp)`.
* The command queue is in-order (spec section 6): the write-back and the read-in of a
  miss take effect in the order in which they are enqueued, and both have taken effect
  when `clFinish` returns.  What `clFinish` returns is not looked at by the source.
* Text written to `std::cout` is returned as a list of lines.
* `Page<T>` (Page.h) is not among the sources; the slot and its operations are modelled
  from sections 3 and 4.2 of the specification, under the names the engine calls them by.
-/

namespace VirtualMultiArray

/-! ## Unsigned 64-bit arithmetic -/

/-- Product of two `size_t` values. -/
def mulU64 (a b : Nat) : Nat := (a * b) % 2 ^ 64

/-- Difference of two `size_t` values. -/
def subU64 (a b : Nat) : Nat := (a + 2 ^ 64 - b % 2 ^ 64) % 2 ^ 64

/-! ## Page slot -/

/-- Modelled from the spec: the page slot class `Page<T>` of Page.h, which is not among
the sources.  Spec section 3: a slot has a buffer of one page, a resident page id "or a
sentinel meaning none yet before first use" (here `none`), and a dirty flag. -/
structure Page (T : Type) where
  /-- The host buffer, by offset. -/
  arr : Nat → T
  /-- The dirty flag. -/
  edited : Bool
  /-- The resident page id. -/
  targetGpuPage : Option Nat

namespace Page

variable {T : Type}

/-- Modelled from the spec: a slot as the engine's constructor builds it, "all slots
start with no resident page"; the buffer is freshly allocated memory `host0`. -/
def fresh (host0 : Nat → T) : Page T :=
  { arr := host0, edited := false, targetGpuPage := none }

/-- Modelled from the spec: `residentPageId()`. -/
def getTargetGpuPage (p : Page T) : Option Nat := p.targetGpuPage

/-- Modelled from the spec: `setResidentPageId(id)`. -/
def setTargetGpuPage (p : Page T) (g : Nat) : Page T := { p with targetGpuPage := some g }

/-- Modelled from the spec: `isDirty()`. -/
def isEdited (p : Page T) : Bool := p.edited

/-- Modelled from the spec: `markDirty()`. -/
def markAsEdited (p : Page T) : Page T := { p with edited := true }

/-- Modelled from the spec: `clearDirtyOnReset()`. -/
def reset (p : Page T) : Page T := { p with edited := false }

/-- Modelled from the spec: the raw pointer to the slot buffer handed to the transfers. -/
def ptr (p : Page T) : Nat → T := p.arr

/-- Modelled from the spec: `get(o)`, "single-element read against the resident buffer". -/
def get (p : Page T) (i : Nat) : T := p.arr i

/-- Modelled from the spec: `set(o, v)`, "single-element write against the resident
buffer"; it "does not itself flip the dirty flag". -/
def edit (p : Page T) (i : Nat) (val : T) : Page T :=
  { p with arr := fun o => if o = i then val else p.arr o }

/-- Modelled from the spec: `getRange(o, n)`, "bulk element access bounded to [o, o+n)". -/
def getN (p : Page T) (i n : Nat) : List T := (List.range n).map (fun j => p.arr (i + j))

/-- Modelled from the spec: `setRange(o, v, vOffset, n)`, "bulk element access bounded to
[o, o+n)": element `o + j` receives `v[vOffset + j]` for `j < n`. -/
def editN [Inhabited T] (p : Page T) (i : Nat) (val : List T) (valIndex n : Nat) : Page T :=
  { p with arr := fun o => if i ≤ o ∧ o < i + n then val.getD (valIndex + (o - i)) default
                           else p.arr o }

/-- Modelled from the spec: `readInto(dst, o, n)`, "raw bulk transfer directly against
caller-supplied memory"; the result is what `dst[0 .. n)` holds afterwards. -/
def readN (p : Page T) (i n : Nat) : List T := (List.range n).map (fun j => p.arr (i + j))

/-- Modelled from the spec: `writeFrom(src, o, n)`, "raw bulk transfer directly against
caller-supplied memory": element `o + j` receives `src[j]` for `j < n`. -/
def writeN [Inhabited T] (p : Page T) (src : List T) (i n : Nat) : Page T :=
  { p with arr := fun o => if i ≤ o ∧ o < i + n then src.getD (o - i) default else p.arr o }

end Page

/-! ## Device transfers -/

/-- Outcome of the three OpenCL calls of one miss, as decided by the runtime: `true`
means the call reports an error for a reason of its own (device lost, out of
resources, ...). -/
structure ClFaults where
  /-- Whether `clEnqueueWriteBuffer` fails. -/
  write : Bool
  /-- Whether `clEnqueueReadBuffer` fails. -/
  read : Bool
  /-- Whether `clFinish` fails. -/
  finish : Bool
deriving DecidableEq

/-- The runtime in which no call fails for a reason of its own. -/
def ClFaults.ok : ClFaults := { write := false, read := false, finish := false }

/-- The object representation of `T`: `sizeof(T)` and the bytes of an object. -/
class ElemLayout (T : Type) where
  /-- The value of `sizeof(T)`. -/
  bytes : Nat
  /-- An object has at least one byte. -/
  bytes_pos : 0 < bytes
  /-- Byte `t` of an object, for `t < bytes`. -/
  getByte : T → Nat → Nat
  /-- The object whose byte `t` is `f t`, for `t < bytes`. -/
  ofBytes : (Nat → Nat) → T

/-- A `Nat` element stands for a `size_t`: eight bytes, least significant first. -/
instance : ElemLayout Nat where
  bytes := 8
  bytes_pos := by decide
  getByte x t := x / 256 ^ t % 256
  ofBytes f := (List.range 8).foldr (fun t acc => f t * 256 ^ t + acc) 0

/-- Whether the whole page `page` lies among the `sz` elements of the array. -/
def pageInBuffer (sz szp page : Nat) : Bool := decide (page * szp + szp ≤ sz)

/-- Modelled from the spec: the byte size of the device buffer `ClArray<T>(sz, ctx)` of
ClArray.h, which is not among the sources: "a read/write buffer of `size * sizeof(T)`
bytes", the product being a `size_t`. -/
def bufferBytes (bytes sz : Nat) : Nat := mulU64 bytes sz

/-- The byte offset `sizeof(T) * page * szp` of a transfer, in `size_t` arithmetic. -/
def byteOffset (bytes page szp : Nat) : Nat := mulU64 (mulU64 bytes page) szp

/-- The byte length `sizeof(T) * szp` of a transfer, in `size_t` arithmetic. -/
def byteCount (bytes szp : Nat) : Nat := mulU64 bytes szp

/-- Whether the runtime accepts a transfer of the bytes `[o, o + cb)` of the device
buffer: it does not fail for a reason of its own and the range lies inside the buffer
(otherwise OpenCL answers `CL_INVALID_VALUE`). -/
def transferAccepted (fault : Bool) (bytes sz o cb : Nat) : Bool :=
  !fault && decide (o + cb ≤ bufferBytes bytes sz)

/-- The device contents after the first `cb` bytes of the host buffer are copied over the
device bytes `[o, o + cb)`.  When offset and length are whole elements this copies
elements; otherwise the objects that the range cuts are put together from their bytes. -/
def writeBytes {T : Type} [ElemLayout T] (gpu host : Nat → T) (o cb : Nat) : Nat → T :=
  if o % ElemLayout.bytes T = 0 ∧ cb % ElemLayout.bytes T = 0 then
    fun a =>
      if o / ElemLayout.bytes T ≤ a ∧ a < o / ElemLayout.bytes T + cb / ElemLayout.bytes T then
        host (a - o / ElemLayout.bytes T)
      else gpu a
  else
    fun a => ElemLayout.ofBytes (fun t =>
      if o ≤ ElemLayout.bytes T * a + t ∧ ElemLayout.bytes T * a + t < o + cb then
        ElemLayout.getByte (host ((ElemLayout.bytes T * a + t - o) / ElemLayout.bytes T))
          ((ElemLayout.bytes T * a + t - o) % ElemLayout.bytes T)
      else ElemLayout.getByte (gpu a) t)

/-- The host buffer contents after the device bytes `[o, o + cb)` are copied over its
first `cb` bytes. -/
def readBytes {T : Type} [ElemLayout T] (gpu host : Nat → T) (o cb : Nat) : Nat → T :=
  if o % ElemLayout.bytes T = 0 ∧ cb % ElemLayout.bytes T = 0 then
    fun a => if a < cb / ElemLayout.bytes T then gpu (o / ElemLayout.bytes T + a) else host a
  else
    fun a => ElemLayout.ofBytes (fun t =>
      if ElemLayout.bytes T * a + t < cb then
        ElemLayout.getByte (gpu ((o + ElemLayout.bytes T * a + t) / ElemLayout.bytes T))
          ((o + ElemLayout.bytes T * a + t) % ElemLayout.bytes T)
      else ElemLayout.getByte (host a) t)

/-- Call `clEnqueueWriteBuffer(q, gpu, CL_FALSE, sizeof(T)*target*szp, sizeof(T)*szp, host)`:
copies one page of bytes from the host buffer over the device bytes at the computed
offset.  Returns the success flag (`err == CL_SUCCESS`) and the device contents.  A slot
without a resident page denotes no device region. -/
def clEnqueueWriteBuffer {T : Type} [ElemLayout T] (fault : Bool) (sz szp : Nat)
    (gpu : Nat → T) (target : Option Nat) (host : Nat → T) : Bool × (Nat → T) :=
  match target with
  | none => (false, gpu)
  | some q =>
    if transferAccepted fault (ElemLayout.bytes T) sz
        (byteOffset (ElemLayout.bytes T) q szp) (byteCount (ElemLayout.bytes T) szp) then
      (true, writeBytes gpu host (byteOffset (ElemLayout.bytes T) q szp)
        (byteCount (ElemLayout.bytes T) szp))
    else (false, gpu)

/-- Call `clEnqueueReadBuffer(q, gpu, CL_FALSE, sizeof(T)*page*szp, sizeof(T)*szp, host)`:
copies one page of device bytes at the computed offset over the host buffer.  Returns
the success flag and the host buffer contents. -/
def clEnqueueReadBuffer {T : Type} [ElemLayout T] (fault : Bool) (sz szp : Nat)
    (gpu : Nat → T) (page : Nat) (host : Nat → T) : Bool × (Nat → T) :=
  if transferAccepted fault (ElemLayout.bytes T) sz
      (byteOffset (ElemLayout.bytes T) page szp) (byteCount (ElemLayout.bytes T) szp) then
    (true, readBytes gpu host (byteOffset (ElemLayout.bytes T) page szp)
      (byteCount (ElemLayout.bytes T) szp))
  else (false, host)

/-! ## The engine -/

/-- State of a `VirtualArray<T>`: the fields `sz`, `szp`, `nump`, the device buffer
`gpu` and the slot array `cpu` (slots `0 .. nump - 1`). -/
structure VirtualArray (T : Type) where
  /-- Logical size, in elements. -/
  sz : Nat
  /-- Page size, in elements. -/
  szp : Nat
  /-- Number of active slots. -/
  nump : Nat
  /-- Device backing store, by element. -/
  gpu : Nat → T
  /-- Slot array. -/
  cpu : Nat → Page T

/-- Result of one access: the returned value, the engine afterwards and the lines
written to `std::cout`. -/
structure Res (T α : Type) where
  /-- The returned value. -/
  val : α
  /-- The engine after the call. -/
  va : VirtualArray T
  /-- The error reports of the call. -/
  log : List String

/-- The three error reports of a miss-handling block. -/
structure Msgs where
  /-- Report of a failed write-back. -/
  editedWrite : Nat → String
  /-- Report of a failed read-in after a write-back. -/
  editedRead : Nat → String
  /-- Report of a failed read-in without write-back. -/
  cleanRead : Nat → String

/-- Reports of `get`. -/
def getMsgs : Msgs :=
  { editedWrite := fun p => "error: (edited)write buffer: " ++ toString p
    editedRead := fun p => "error: (edited)read buffer: " ++ toString p
    cleanRead := fun p => "error: (non-edited)read buffer: " ++ toString p }

/-- Reports of `set`. -/
def setMsgs : Msgs :=
  { editedWrite := fun p => "set-error: (edited)write buffer: " ++ toString p
    editedRead := fun p => "set-error: (edited)read buffer: " ++ toString p
    cleanRead := fun p => "set-error: (non-edited)read buffer: " ++ toString p }

/-- Reports of `getN`. -/
def getNMsgs : Msgs :=
  { editedWrite := fun p => "get-error: write buffer: " ++ toString p
    editedRead := fun p => "get-error: read buffer: " ++ toString p
    cleanRead := fun p => "get-error: read buffer: " ++ toString p }

/-- Reports of `setN`. -/
def setNMsgs : Msgs :=
  { editedWrite := fun _ => "error: write buffer"
    editedRead := fun p => "error: read buffer: " ++ toString p
    cleanRead := fun p => "error: read buffer: " ++ toString p }

/-- Reports of `copyToBuffer` and of `copyFromBuffer` (the same text in both); the
error code, byte index and pointer that follow the page in the third report are left
out. -/
def copyMsgs : Msgs :=
  { editedWrite := fun p => "error: (edited)write buffer (copyToBuffer): " ++ toString p
    editedRead := fun p => "error: (edited)read buffer (copyToBuffer): " ++ toString p
    cleanRead := fun p => "error: (non-edited)read buffer (copyToBuffer): " ++ toString p }

namespace VirtualArray

variable {T : Type}

/-- Constructor `VirtualArray(sizeP, device, sizePageP, numActivePageP, ...)`: the device
buffer of `sizeP` elements holds `dev0`, slot `i` is a fresh page over the memory
`host0 i`. -/
def init (sizeP sizePageP numActivePageP : Nat) (dev0 : Nat → T) (host0 : Nat → Nat → T) :
    VirtualArray T :=
  { sz := sizeP, szp := sizePageP, nump := numActivePageP, gpu := dev0,
    cpu := fun i => Page.fresh (host0 i) }

/-- The miss-handling block `if(sel.isEdited()) ... else ...` that each of the six access
functions repeats (lines 91-122, 143-173, 197-229, 252-282, 309-340, 365-396): write the
slot back if it is edited, retarget it, read the requested page in, wait.  The result of
`clFinish` is not looked at. -/
def miss [ElemLayout T] (m : Msgs) (f : ClFaults) (va : VirtualArray T) (selectedPage : Nat) :
    VirtualArray T × List String :=
  let selectedActivePage := selectedPage % va.nump
  let sel := va.cpu selectedActivePage
  if sel.isEdited then
    let w := clEnqueueWriteBuffer f.write va.sz va.szp va.gpu sel.getTargetGpuPage sel.ptr
    let sel1 := sel.setTargetGpuPage selectedPage
    let r := clEnqueueReadBuffer f.read va.sz va.szp w.2 selectedPage sel1.ptr
    ({ va with gpu := w.2
               cpu := Function.update va.cpu selectedActivePage { sel1 with arr := r.2 } },
     (if w.1 then [] else [m.editedWrite selectedPage]) ++
       (if r.1 then [] else [m.editedRead selectedPage]))
  else
    let sel1 := sel.setTargetGpuPage selectedPage
    let r := clEnqueueReadBuffer f.read va.sz va.szp va.gpu selectedPage sel1.ptr
    ({ va with cpu := Function.update va.cpu selectedActivePage { sel1 with arr := r.2 } },
     if r.1 then [] else [m.cleanRead selectedPage])

/-- Replace slot `s` of the slot array. -/
def setSlot (va : VirtualArray T) (s : Nat) (p : Page T) : VirtualArray T :=
  { va with cpu := Function.update va.cpu s p }

/-- Member `T get(const size_t & index)`. -/
def get [ElemLayout T] (f : ClFaults) (va : VirtualArray T) (index : Nat) : Res T T :=
  let selectedPage := index / va.szp
  let selectedActivePage := selectedPage % va.nump
  let sel := va.cpu selectedActivePage
  if sel.getTargetGpuPage = some selectedPage then
    { val := sel.get (subU64 index (mulU64 selectedPage va.szp)), va := va, log := [] }
  else
    let r := va.miss getMsgs f selectedPage
    let sel1 := (r.1.cpu selectedActivePage).reset
    { val := sel1.get (subU64 index (mulU64 selectedPage va.szp))
      va := r.1.setSlot selectedActivePage sel1
      log := r.2 }

/-- Member `void set(const size_t & index, const T & val)`. -/
def set [ElemLayout T] (f : ClFaults) (va : VirtualArray T) (index : Nat) (val : T) : Res T Unit :=
  let selectedPage := index / va.szp
  let selectedActivePage := selectedPage % va.nump
  let sel := va.cpu selectedActivePage
  if sel.getTargetGpuPage = some selectedPage then
    { val := ()
      va := va.setSlot selectedActivePage
        (sel.edit (subU64 index (mulU64 selectedPage va.szp)) val).markAsEdited
      log := [] }
  else
    let r := va.miss setMsgs f selectedPage
    let sel1 := r.1.cpu selectedActivePage
    { val := ()
      va := r.1.setSlot selectedActivePage
        (sel1.edit (subU64 index (mulU64 selectedPage va.szp)) val).markAsEdited
      log := r.2 }

/-- Member `std::vector<T> getN(const size_t & index, int n)`. -/
def getN [ElemLayout T] (f : ClFaults) (va : VirtualArray T) (index n : Nat) : Res T (List T) :=
  let selectedPage := index / va.szp
  let selectedActivePage := selectedPage % va.nump
  let sel := va.cpu selectedActivePage
  if sel.getTargetGpuPage = some selectedPage then
    { val := sel.getN (subU64 index (mulU64 selectedPage va.szp)) n, va := va, log := [] }
  else
    let r := va.miss getNMsgs f selectedPage
    let sel1 := (r.1.cpu selectedActivePage).reset
    { val := sel1.getN (subU64 index (mulU64 selectedPage va.szp)) n
      va := r.1.setSlot selectedActivePage sel1
      log := r.2 }

/-- Member `void setN(const size_t & index, const std::vector<T> & val,
const size_t & valIndex, const size_t n)`. -/
def setN [Inhabited T] [ElemLayout T] (f : ClFaults) (va : VirtualArray T) (index : Nat)
    (val : List T)
    (valIndex n : Nat) : Res T Unit :=
  let selectedPage := index / va.szp
  let selectedActivePage := selectedPage % va.nump
  let sel := va.cpu selectedActivePage
  if sel.getTargetGpuPage = some selectedPage then
    { val := ()
      va := va.setSlot selectedActivePage
        (sel.editN (subU64 index (mulU64 selectedPage va.szp)) val valIndex n).markAsEdited
      log := [] }
  else
    let r := va.miss setNMsgs f selectedPage
    let sel1 := r.1.cpu selectedActivePage
    { val := ()
      va := r.1.setSlot selectedActivePage
        (sel1.editN (subU64 index (mulU64 selectedPage va.szp)) val valIndex n).markAsEdited
      log := r.2 }

/-- Member `void copyToBuffer(const size_t & index, const size_t & range, T * const out)`;
the value is what `out[0 .. range)` holds afterwards. -/
def copyToBuffer [ElemLayout T] (f : ClFaults) (va : VirtualArray T) (index range : Nat) :
    Res T (List T) :=
  let selectedPage := index / va.szp
  let selectedActivePage := selectedPage % va.nump
  let sel := va.cpu selectedActivePage
  if sel.getTargetGpuPage = some selectedPage then
    { val := sel.readN (subU64 index (mulU64 selectedPage va.szp)) range, va := va, log := [] }
  else
    let r := va.miss copyMsgs f selectedPage
    let sel1 := (r.1.cpu selectedActivePage).reset
    { val := sel1.readN (subU64 index (mulU64 selectedPage va.szp)) range
      va := r.1.setSlot selectedActivePage sel1
      log := r.2 }

/-- Member `void copyFromBuffer(const size_t & index, const size_t & range, T * const in)`;
`src` is what `in[0 .. range)` holds. -/
def copyFromBuffer [Inhabited T] [ElemLayout T] (f : ClFaults) (va : VirtualArray T)
    (index range : Nat)
    (src : List T) : Res T Unit :=
  let selectedPage := index / va.szp
  let selectedActivePage := selectedPage % va.nump
  let sel := va.cpu selectedActivePage
  if sel.getTargetGpuPage = some selectedPage then
    { val := ()
      va := va.setSlot selectedActivePage
        (sel.writeN src (subU64 index (mulU64 selectedPage va.szp)) range).markAsEdited
      log := [] }
  else
    let r := va.miss copyMsgs f selectedPage
    let sel1 := r.1.cpu selectedActivePage
    { val := ()
      va := r.1.setSlot selectedActivePage
        (sel1.writeN src (subU64 index (mulU64 selectedPage va.szp)) range).markAsEdited
      log := r.2 }

end VirtualArray

/-! ## Calls, runs and reachable states -/

/-- One call of an access function, with its arguments. -/
inductive Op (T : Type) where
  | get (index : Nat)
  | set (index : Nat) (val : T)
  | getN (index n : Nat)
  | setN (index : Nat) (val : List T) (valIndex n : Nat)
  | copyToBuffer (index range : Nat)
  | copyFromBuffer (index range : Nat) (src : List T)

namespace Op

variable {T : Type}

/-- The index argument of a call. -/
def index : Op T → Nat
  | .get i => i
  | .set i _ => i
  | .getN i _ => i
  | .setN i _ _ _ => i
  | .copyToBuffer i _ => i
  | .copyFromBuffer i _ _ => i

/-- The number of elements a call addresses. -/
def count : Op T → Nat
  | .get _ => 1
  | .set _ _ => 1
  | .getN _ n => n
  | .setN _ _ _ n => n
  | .copyToBuffer _ r => r
  | .copyFromBuffer _ r _ => r

/-- Whether the call is one of the three write operations. -/
def isWrite : Op T → Bool
  | .set _ _ => true
  | .setN _ _ _ _ => true
  | .copyFromBuffer _ _ _ => true
  | _ => false

/-- The value a call writes to the logical index `j`, if it writes there. -/
def written [Inhabited T] : Op T → Nat → Option T
  | .set i v, j => if j = i then some v else none
  | .setN i val valIndex n, j =>
      if i ≤ j ∧ j < i + n then some (val.getD (valIndex + (j - i)) default) else none
  | .copyFromBuffer i r src, j =>
      if i ≤ j ∧ j < i + r then some (src.getD (j - i) default) else none
  | _, _ => none

/-- The caller contract of a call on an engine with pages of `szp` elements: the index is
a `size_t` and the addressed range does not leave the page of the index. -/
def WellFormed (szp : Nat) (op : Op T) : Prop :=
  op.index < 2 ^ 64 ∧ op.index % szp + op.count ≤ szp

instance (szp : Nat) (op : Op T) : Decidable (op.WellFormed szp) := by
  unfold WellFormed; infer_instance

end Op

namespace VirtualArray

variable {T : Type}

/-- The engine after one call. -/
def step [Inhabited T] [ElemLayout T] (f : ClFaults) (va : VirtualArray T) :
    Op T → VirtualArray T
  | .get i => (va.get f i).va
  | .set i v => (va.set f i v).va
  | .getN i n => (va.getN f i n).va
  | .setN i val k n => (va.setN f i val k n).va
  | .copyToBuffer i r => (va.copyToBuffer f i r).va
  | .copyFromBuffer i r src => (va.copyFromBuffer f i r src).va

/-- The engine after a sequence of calls, each with the behaviour of the runtime
during it. -/
def run [Inhabited T] [ElemLayout T] (va : VirtualArray T) :
    List (ClFaults × Op T) → VirtualArray T
  | [] => va
  | c :: cs => run (step c.1 va c.2) cs

/-- Whether the slot of page `page` holds that page. -/
def hit (va : VirtualArray T) (page : Nat) : Bool :=
  decide ((va.cpu (page % va.nump)).getTargetGpuPage = some page)

/-- Whether every transfer of the miss-handling block for `selectedPage` succeeds and
moves the page it is issued for: the write-back if the slot is edited, the read-in, and
the synchronisation succeed, and no byte offset wraps: the byte size of the array is a
`size_t` and the pages lie among the `sz` elements. -/
def missOk [ElemLayout T] (f : ClFaults) (va : VirtualArray T) (selectedPage : Nat) : Bool :=
  let sel := va.cpu (selectedPage % va.nump)
  let w := clEnqueueWriteBuffer f.write va.sz va.szp va.gpu sel.getTargetGpuPage sel.ptr
  decide (ElemLayout.bytes T * va.sz < 2 ^ 64) &&
    (!sel.isEdited || (w.1 && sel.getTargetGpuPage.all (pageInBuffer va.sz va.szp))) &&
    ((clEnqueueReadBuffer f.read va.sz va.szp va.gpu selectedPage sel.ptr).1 &&
      pageInBuffer va.sz va.szp selectedPage) && !f.finish

/-- Whether every transfer made by an access to `index` succeeds (a hit makes none). -/
def transfersOk [ElemLayout T] (f : ClFaults) (va : VirtualArray T) (index : Nat) : Bool :=
  va.hit (index / va.szp) || va.missOk f (index / va.szp)

/-- Whether every call of a run is within the caller contract and has all its transfers
succeed.  For an array whose size is a multiple of the page size and whose byte size is
a `size_t` this is so for calls with in-range indices under a runtime without faults
(`init_runOk_of_inRange`). -/
def runOk [Inhabited T] [ElemLayout T] (va : VirtualArray T) :
    List (ClFaults × Op T) → Prop
  | [] => True
  | c :: cs => c.2.WellFormed va.szp ∧ va.transfersOk c.1 c.2.index = true ∧
      runOk (step c.1 va c.2) cs

/-- States reachable from construction by the six access functions, whatever the
transfers do. -/
inductive Reachable [Inhabited T] [ElemLayout T] : VirtualArray T → Prop where
  | init (sizeP sizePageP numActivePageP : Nat) (dev0 : Nat → T) (host0 : Nat → Nat → T) :
      0 < sizePageP → 0 < numActivePageP →
      Reachable (init sizeP sizePageP numActivePageP dev0 host0)
  | step (f : ClFaults) (va : VirtualArray T) (op : Op T) :
      Reachable va → Reachable (va.step f op)

/-- States reachable from construction by calls within the caller contract all of whose
transfers succeed. -/
inductive ReachableOk [Inhabited T] [ElemLayout T] : VirtualArray T → Prop where
  | init (sizeP sizePageP numActivePageP : Nat) (dev0 : Nat → T) (host0 : Nat → Nat → T) :
      0 < sizePageP → 0 < numActivePageP →
      ReachableOk (init sizeP sizePageP numActivePageP dev0 host0)
  | step (f : ClFaults) (va : VirtualArray T) (op : Op T) :
      ReachableOk va → op.WellFormed va.szp → va.transfersOk f op.index = true →
      ReachableOk (va.step f op)

/-- The value the engine holds for the logical index `j`: the slot buffer element at the
offset of `j` when the page of `j` is resident, the device element `j` otherwise. -/
def logical (va : VirtualArray T) (j : Nat) : T :=
  let sel := va.cpu ((j / va.szp) % va.nump)
  if sel.getTargetGpuPage = some (j / va.szp) then sel.arr (j % va.szp) else va.gpu j

/-- Placement: a slot holds only pages that map to it. -/
def Placed (va : VirtualArray T) : Prop :=
  ∀ s p, s < va.nump → (va.cpu s).targetGpuPage = some p → p % va.nump = s

/-- Coherence: a slot that holds a page and is not edited mirrors the device elements of
that page. -/
def Coherent (va : VirtualArray T) : Prop :=
  ∀ s p, s < va.nump → (va.cpu s).targetGpuPage = some p → (va.cpu s).edited = false →
    ∀ o, o < va.szp → (va.cpu s).arr o = va.gpu (p * va.szp + o)

/-- Coherence at one logical index. -/
def CoherentAt (va : VirtualArray T) (j : Nat) : Prop :=
  (va.cpu ((j / va.szp) % va.nump)).targetGpuPage = some (j / va.szp) →
    (va.cpu ((j / va.szp) % va.nump)).edited = false →
      (va.cpu ((j / va.szp) % va.nump)).arr (j % va.szp) = va.gpu j

/-- The engine after a read access to `page`: untouched on a hit, after the miss block
and `reset` otherwise. -/
def afterRead [ElemLayout T] (f : ClFaults) (va : VirtualArray T) (page : Nat) : VirtualArray T :=
  if va.hit page then va
  else
    let r := (va.miss getMsgs f page).1
    r.setSlot (page % va.nump) (r.cpu (page % va.nump)).reset

end VirtualArray

/-- Overwrite the buffer elements for which `w` gives a value. -/
def Page.patch {T : Type} (p : Page T) (w : Nat → Option T) : Page T :=
  { p with arr := fun o => (w o).getD (p.arr o) }

/-- The engine after a write access to `page` that stores `w` into the slot: the miss
block on a miss, then the store and `markAsEdited`. -/
def VirtualArray.afterWrite {T : Type} [ElemLayout T] (f : ClFaults) (va : VirtualArray T)
    (page : Nat)
    (w : Nat → Option T) : VirtualArray T :=
  let r := if va.hit page then va else (va.miss getMsgs f page).1
  r.setSlot (page % va.nump) ((r.cpu (page % va.nump)).patch w).markAsEdited

/-- The slot offsets a call stores to, with the values, as the call computes them: the
offset is `index - selectedPage * szp` in `size_t` arithmetic. -/
def Op.patchOf {T : Type} [Inhabited T] (szp : Nat) : Op T → Nat → Option T
  | .set i v => fun o => if o = subU64 i (mulU64 (i / szp) szp) then some v else none
  | .setN i val valIndex n => fun o =>
      if subU64 i (mulU64 (i / szp) szp) ≤ o ∧ o < subU64 i (mulU64 (i / szp) szp) + n then
        some (val.getD (valIndex + (o - subU64 i (mulU64 (i / szp) szp))) default)
      else none
  | .copyFromBuffer i r src => fun o =>
      if subU64 i (mulU64 (i / szp) szp) ≤ o ∧ o < subU64 i (mulU64 (i / szp) szp) + r then
        some (src.getD (o - subU64 i (mulU64 (i / szp) szp)) default)
      else none
  | _ => fun _ => none

/-- The device contents once slot `s` has been written back, if it is edited. -/
def VirtualArray.flushed {T : Type} (va : VirtualArray T) (s : Nat) : Nat → T :=
  fun a =>
    if (va.cpu s).edited = true ∧ (va.cpu s).targetGpuPage = some (a / va.szp) then
      (va.cpu s).arr (a % va.szp)
    else va.gpu a

/-- The engine after a successful miss-handling block for `page`. -/
def VirtualArray.loaded {T : Type} (va : VirtualArray T) (page : Nat) : VirtualArray T :=
  { va with
    gpu := va.flushed (page % va.nump)
    cpu := Function.update va.cpu (page % va.nump)
      { arr := fun o => if o < va.szp then va.flushed (page % va.nump) (page * va.szp + o)
                        else (va.cpu (page % va.nump)).arr o
        edited := (va.cpu (page % va.nump)).edited
        targetGpuPage := some page } }

/-- A plain array under a sequence of calls: a write call stores its values, a read call
changes nothing. -/
def replay {T : Type} [Inhabited T] (a : Nat → T) : List (Op T) → Nat → T
  | [] => a
  | op :: ops => replay (fun j => (op.written j).getD (a j)) ops

/-- The calls `get(i)`, `get(i+1)`, ... one for each entry of the list, which gives the
behaviour of the runtime during each call: the values returned and the engine
afterwards. -/
def VirtualArray.getEach {T : Type} [ElemLayout T] (va : VirtualArray T) (i : Nat) :
    List ClFaults → List T × VirtualArray T
  | [] => ([], va)
  | f :: fs =>
    let g := va.get f i
    let r := getEach g.va (i + 1) fs
    (g.val :: r.1, r.2)

/-- The calls `set(i, val[valIndex])`, `set(i+1, val[valIndex+1])`, ... one for each entry
of the list, which gives the behaviour of the runtime during each call. -/
def VirtualArray.setEach {T : Type} [Inhabited T] [ElemLayout T] (va : VirtualArray T)
    (i : Nat)
    (val : List T) (valIndex : Nat) : List ClFaults → VirtualArray T
  | [] => va
  | f :: fs => setEach (va.set f i (val.getD valIndex default)).va (i + 1) val (valIndex + 1) fs

/-- Every resident page lies among the `sz` elements of the array. -/
def VirtualArray.Fits {T : Type} (va : VirtualArray T) : Prop :=
  ∀ s q, (va.cpu s).targetGpuPage = some q → q * va.szp + va.szp ≤ va.sz

/-- An edited slot holds a page. -/
def VirtualArray.EditedResident {T : Type} (va : VirtualArray T) : Prop :=
  ∀ s, (va.cpu s).edited = true → (va.cpu s).targetGpuPage ≠ none

/-- Scenario A of the specification: `size = 10000`, `pageElementCount = 100`,
`numActiveSlots = 4`, over zeroed memory. -/
def scenarioA : VirtualArray Nat := VirtualArray.init 10000 100 4 (fun _ => 0) (fun _ _ => 0)

/-- An engine whose last page is partially used: `size = 250`, `pageElementCount = 100`,
`numActiveSlots = 2`, over zeroed memory; page 2 holds the indices 200 to 249 and shares
slot 0 with page 0. -/
def partialLast : VirtualArray Nat := VirtualArray.init 250 100 2 (fun _ => 0) (fun _ _ => 0)

/-- An engine of 12800 elements of 8 bytes in pages of 128 over 4 slots, over zeroed
memory.  The index `2 ^ 61` lies beyond its end, on page `2 ^ 54`, which maps to slot 0;
the byte offset of that page, `8 * 2 ^ 54 * 128 = 2 ^ 64`, wraps to 0. -/
def wrapDemo : VirtualArray Nat := VirtualArray.init 12800 128 4 (fun _ => 0) (fun _ _ => 0)

/-! ## Reports, histories and returned values -/

/-- The error reports one call writes to `std::cout`. -/
def VirtualArray.report {T : Type} [Inhabited T] [ElemLayout T] (f : ClFaults)
    (va : VirtualArray T) :
    Op T → List String
  | .get i => (va.get f i).log
  | .set i v => (va.set f i v).log
  | .getN i n => (va.getN f i n).log
  | .setN i val k n => (va.setN f i val k n).log
  | .copyToBuffer i r => (va.copyToBuffer f i r).log
  | .copyFromBuffer i r src => (va.copyFromBuffer f i r src).log

/-- The values one call hands back to the caller: the element of `get`, the vector of
`getN`, the filled part of `out` of `copyToBuffer`; nothing for a write. -/
def VirtualArray.returned {T : Type} [Inhabited T] [ElemLayout T] (f : ClFaults)
    (va : VirtualArray T) :
    Op T → List T
  | .get i => [(va.get f i).val]
  | .getN i n => (va.getN f i n).val
  | .copyToBuffer i r => (va.copyToBuffer f i r).val
  | _ => []

/-- The values handed back by the calls of a run, call by call. -/
def VirtualArray.runReturned {T : Type} [Inhabited T] [ElemLayout T] (va : VirtualArray T) :
    List (ClFaults × Op T) → List (List T)
  | [] => []
  | c :: cs => va.returned c.1 c.2 :: runReturned (va.step c.1 c.2) cs

/-- The values a call hands back when it is made on a plain array `a`. -/
def plainReturned {T : Type} (a : Nat → T) : Op T → List T
  | .get i => [a i]
  | .getN i n => (List.range n).map (fun k => a (i + k))
  | .copyToBuffer i r => (List.range r).map (fun k => a (i + k))
  | _ => []

/-- The values handed back by a sequence of calls on a plain array that starts as `a`. -/
def plainRunReturned {T : Type} [Inhabited T] (a : Nat → T) : List (Op T) → List (List T)
  | [] => []
  | op :: ops =>
    plainReturned a op :: plainRunReturned (fun j => (op.written j).getD (a j)) ops

/-- Whether the write-back of the slot of `page` is enqueued with success. -/
def VirtualArray.writeBackOk {T : Type} [ElemLayout T] (f : ClFaults) (va : VirtualArray T)
    (page : Nat) :
    Bool :=
  (clEnqueueWriteBuffer f.write va.sz va.szp va.gpu
    (va.cpu (page % va.nump)).getTargetGpuPage (va.cpu (page % va.nump)).ptr).1

/-- Whether the read-in of `page` is enqueued with success. -/
def VirtualArray.readInOk {T : Type} [ElemLayout T] (f : ClFaults) (va : VirtualArray T)
    (page : Nat) :
    Bool :=
  (clEnqueueReadBuffer f.read va.sz va.szp va.gpu page (va.cpu (page % va.nump)).ptr).1

/-- What a history records of one call: the page it requests, whether it is one of the
write operations, and whether it misses (and so loads the page into the slot). -/
structure Event where
  /-- The requested page. -/
  page : Nat
  /-- Whether the call is a write operation. -/
  isWrite : Bool
  /-- Whether the call misses. -/
  miss : Bool

/-- The record of a call made in state `va`. -/
def VirtualArray.eventOf {T : Type} (va : VirtualArray T) (op : Op T) : Event :=
  { page := op.index / va.szp, isWrite := op.isWrite, miss := !va.hit (op.index / va.szp) }

/-- States reachable from construction by the six access functions, whatever the
transfers do, together with the record of the calls made, the most recent first. -/
inductive VirtualArray.History {T : Type} [Inhabited T] [ElemLayout T] :
    VirtualArray T → List Event → Prop where
  | init (sizeP sizePageP numActivePageP : Nat) (dev0 : Nat → T) (host0 : Nat → Nat → T) :
      0 < sizePageP → 0 < numActivePageP →
      History (VirtualArray.init sizeP sizePageP numActivePageP dev0 host0) []
  | step (f : ClFaults) (va : VirtualArray T) (op : Op T) (evs : List Event) :
      History va evs → History (va.step f op) (va.eventOf op :: evs)

/-- A history (most recent call first) in which a write operation occurs at or after
the most recent page load: some call is a write and no call after it misses. -/
def WrittenSinceLoad (evs : List Event) : Prop :=
  ∃ newer w older, evs = newer ++ w :: older ∧ w.isWrite = true ∧
    ∀ e ∈ newer, e.miss = false

/-! ## The host buffer

Shallow embedding of `AlignedCpuArray<T>` (src/AlignedCpuArray.h).  Handles and pointers
are naturals, `none` is the null handle or pointer.  The calls into OpenCL and the C
library are recorded in the order in which they are made. -/

/-- A call that `AlignedCpuArray` makes into OpenCL or the C library; `aligned_alloc`
with its alignment and its size in elements. -/
inductive HostCall where
  | clCreateBuffer
  | clEnqueueMapBuffer
  | aligned_alloc (alignment size : Nat)
  | clEnqueueUnmapMemObject
  | clReleaseMemObject
  | free
deriving DecidableEq

/-- What the runtime answers during one constructor call. -/
structure HostEnv where
  /-- The handle `clCreateBuffer` returns; `none` when it fails (`err != CL_SUCCESS`). -/
  createBuffer : Option Nat
  /-- The pointer `clEnqueueMapBuffer` returns; `none` when it fails. -/
  mapBuffer : Option Nat
  /-- The pointer `aligned_alloc` returns; `none` is the null pointer. -/
  alignedAlloc : Option Nat
  /-- The value an uninitialised `cl_mem` field happens to hold. -/
  uninit : Option Nat

/-- State of an `AlignedCpuArray<T>`: its fields. -/
structure AlignedCpuArray where
  /-- Number of elements. -/
  size : Nat
  /-- Whether the memory is pinned through OpenCL. -/
  pinned : Bool
  /-- The context handle. -/
  ctx : Nat
  /-- The command queue handle. -/
  cq : Nat
  /-- The device allocation of a pinned buffer. -/
  mem : Option Nat
  /-- The pointer to the elements. -/
  arr : Option Nat

/-- Result of a constructor or destructor call of the host buffer. -/
structure HostRes (α : Type) where
  /-- The object, for a constructor. -/
  obj : α
  /-- The calls made, in order. -/
  calls : List HostCall
  /-- The error reports written to `std::cout`. -/
  log : List String

namespace AlignedCpuArray

/-- Constructor `AlignedCpuArray(ctxP, cqP, sizeP, alignment, pinArray)`. -/
def init (env : HostEnv) (ctxP cqP sizeP alignment : Nat) (pinArray : Bool) :
    HostRes AlignedCpuArray :=
  if pinArray then
    let mem := env.createBuffer
    let log1 := if mem.isSome then [] else ["error: mem alloc host ptr"]
    let arr := env.mapBuffer
    let log2 := if arr.isSome then [] else ["error: map"]
    { obj := { size := sizeP, pinned := pinArray, ctx := ctxP, cq := cqP, mem := mem,
               arr := arr }
      calls := [HostCall.clCreateBuffer, HostCall.clEnqueueMapBuffer]
      log := log1 ++ log2 }
  else
    { obj := { size := sizeP, pinned := pinArray, ctx := ctxP, cq := cqP, mem := env.uninit,
               arr := env.alignedAlloc }
      calls := [HostCall.aligned_alloc alignment sizeP]
      log := [] }

/-- Member `T * const getArray()`. -/
def getArray (a : AlignedCpuArray) : Option Nat := a.arr

/-- Destructor `~AlignedCpuArray()`; `unmapFails` and `releaseFails` say whether
`clEnqueueUnmapMemObject` and `clReleaseMemObject` return an error. -/
def destroy (unmapFails releaseFails : Bool) (a : AlignedCpuArray) : HostRes Unit :=
  if a.pinned then
    let log1 := if unmapFails then ["error: unmap"] else []
    let log2 := if releaseFails then ["error: release mem"] else []
    { obj := ()
      calls := [HostCall.clEnqueueUnmapMemObject, HostCall.clReleaseMemObject]
      log := log1 ++ log2 }
  else if a.arr ≠ none then
    { obj := (), calls := [HostCall.free], log := [] }
  else
    { obj := (), calls := [], log := [] }

end AlignedCpuArray

/-! ## Basic facts -/

theorem subU64_mulU64_div (index szp : Nat) (h : index < 2 ^ 64) :
    subU64 index (mulU64 (index / szp) szp) = index % szp := by
  have h1 : index / szp * szp ≤ index := Nat.div_mul_le_self index szp
  have h2 : index / szp * szp + index % szp = index := by
    rw [Nat.mul_comm]; exact Nat.div_add_mod index szp
  unfold subU64 mulU64
  have h3 : index / szp * szp % 2 ^ 64 = index / szp * szp := Nat.mod_eq_of_lt (by omega)
  rw [Nat.mod_mod, h3]
  have h4 : index + 2 ^ 64 - index / szp * szp = index % szp + 2 ^ 64 := by omega
  rw [h4, Nat.add_mod_right]
  exact Nat.mod_eq_of_lt (by omega)

namespace VirtualArray

variable {T : Type}

theorem miss_fst [ElemLayout T] (m : Msgs) (f : ClFaults) (va : VirtualArray T) (page : Nat) :
    (va.miss m f page).1 = (va.miss getMsgs f page).1 := by
  unfold miss
  dsimp only
  split <;> rfl

theorem get_va [ElemLayout T] (f : ClFaults) (va : VirtualArray T) (index : Nat) :
    (va.get f index).va = va.afterRead f (index / va.szp) := by
  unfold get afterRead hit
  by_cases h : (va.cpu (index / va.szp % va.nump)).getTargetGpuPage = some (index / va.szp)
  · simp [h]
  · simp [h]

theorem getN_va [ElemLayout T] (f : ClFaults) (va : VirtualArray T) (index n : Nat) :
    (va.getN f index n).va = va.afterRead f (index / va.szp) := by
  unfold getN afterRead hit
  by_cases h : (va.cpu (index / va.szp % va.nump)).getTargetGpuPage = some (index / va.szp)
  · simp [h]
  · simp [h, miss_fst getNMsgs]

theorem copyToBuffer_va [ElemLayout T] (f : ClFaults) (va : VirtualArray T) (index range : Nat) :
    (va.copyToBuffer f index range).va = va.afterRead f (index / va.szp) := by
  unfold copyToBuffer afterRead hit
  by_cases h : (va.cpu (index / va.szp % va.nump)).getTargetGpuPage = some (index / va.szp)
  · simp [h]
  · simp [h, miss_fst copyMsgs]

theorem region_iff (szp q a : Nat) (h : 0 < szp) :
    (q * szp ≤ a ∧ a < q * szp + szp) ↔ a / szp = q := by
  constructor
  · rintro ⟨h1, h2⟩
    apply Nat.div_eq_of_lt_le
    · exact h1
    · rw [Nat.succ_mul]; exact h2
  · rintro rfl
    have h1 : a / szp * szp ≤ a := Nat.div_mul_le_self a szp
    have h2 : a < (a / szp + 1) * szp := by
      have := Nat.lt_succ_self (a / szp)
      exact (Nat.div_lt_iff_lt_mul h).mp this
    rw [Nat.succ_mul] at h2
    exact ⟨h1, h2⟩

theorem sub_page_eq_mod (szp a : Nat) : a - a / szp * szp = a % szp := by
  have := Nat.div_add_mod a szp
  rw [Nat.mul_comm] at this
  omega

theorem mulU64_mulU64 (a b c : Nat) : mulU64 (mulU64 a b) c = a * b * c % 2 ^ 64 := by
  unfold mulU64
  rw [Nat.mul_mod (a * b % 2 ^ 64) c, Nat.mod_mod, ← Nat.mul_mod]

/-- Inside the device buffer the byte offset and the byte length of a page do not wrap. -/
theorem page_bytes (E sz szp q : Nat) (hB : E * sz < 2 ^ 64) (hq : q * szp + szp ≤ sz) :
    byteOffset E q szp = E * (q * szp) ∧ byteCount E szp = E * szp ∧
      E * (q * szp) + E * szp ≤ E * sz := by
  have h1 : E * (q * szp) + E * szp ≤ E * sz := by
    rw [← Nat.mul_add]; exact Nat.mul_le_mul_left E hq
  refine ⟨?_, ?_, h1⟩
  · unfold byteOffset
    rw [mulU64_mulU64, Nat.mul_assoc]
    exact Nat.mod_eq_of_lt (by omega)
  · unfold byteCount mulU64
    exact Nat.mod_eq_of_lt (by omega)

theorem transferAccepted_iff (fault : Bool) (E sz o cb : Nat) :
    transferAccepted fault E sz o cb = true ↔
      fault = false ∧ o + cb ≤ bufferBytes E sz := by
  unfold transferAccepted
  simp only [Bool.and_eq_true, Bool.not_eq_true', decide_eq_true_eq]

theorem bufferBytes_eq (E sz : Nat) (hB : E * sz < 2 ^ 64) : bufferBytes E sz = E * sz := by
  unfold bufferBytes mulU64
  exact Nat.mod_eq_of_lt hB

theorem writeBytes_aligned {T : Type} [ElemLayout T] (gpu host : Nat → T) (k n : Nat) :
    writeBytes gpu host (ElemLayout.bytes T * k) (ElemLayout.bytes T * n) =
      fun a => if k ≤ a ∧ a < k + n then host (a - k) else gpu a := by
  unfold writeBytes
  rw [if_pos ⟨Nat.mul_mod_right _ _, Nat.mul_mod_right _ _⟩]
  simp only [Nat.mul_div_cancel_left _ (ElemLayout.bytes_pos (T := T))]

theorem readBytes_aligned {T : Type} [ElemLayout T] (gpu host : Nat → T) (k n : Nat) :
    readBytes gpu host (ElemLayout.bytes T * k) (ElemLayout.bytes T * n) =
      fun a => if a < n then gpu (k + a) else host a := by
  unfold readBytes
  rw [if_pos ⟨Nat.mul_mod_right _ _, Nat.mul_mod_right _ _⟩]
  simp only [Nat.mul_div_cancel_left _ (ElemLayout.bytes_pos (T := T))]

theorem writeBuffer_fst {T : Type} [ElemLayout T] (fl : Bool) (sz szp q : Nat)
    (g h : Nat → T) :
    (clEnqueueWriteBuffer fl sz szp g (some q) h).1 =
      transferAccepted fl (ElemLayout.bytes T) sz (byteOffset (ElemLayout.bytes T) q szp)
        (byteCount (ElemLayout.bytes T) szp) := by
  unfold clEnqueueWriteBuffer
  dsimp only
  split
  · rename_i hc; rw [hc]
  · rename_i hc; simp only [Bool.not_eq_true] at hc; rw [hc]

theorem readBuffer_fst {T : Type} [ElemLayout T] (fl : Bool) (sz szp P : Nat)
    (g h : Nat → T) :
    (clEnqueueReadBuffer fl sz szp g P h).1 =
      transferAccepted fl (ElemLayout.bytes T) sz (byteOffset (ElemLayout.bytes T) P szp)
        (byteCount (ElemLayout.bytes T) szp) := by
  unfold clEnqueueReadBuffer
  split
  · rename_i hc; rw [hc]
  · rename_i hc; simp only [Bool.not_eq_true] at hc; rw [hc]

/-- The write-back of a page among the elements of an array whose byte size is a `size_t`
is accepted by a runtime without faults and moves the elements of the page. -/
theorem writeBuffer_ok {T : Type} [ElemLayout T] (sz szp q : Nat) (gpu host : Nat → T)
    (h : 0 < szp) (hB : ElemLayout.bytes T * sz < 2 ^ 64) (hq : q * szp + szp ≤ sz) :
    clEnqueueWriteBuffer false sz szp gpu (some q) host =
      (true, fun a => if a / szp = q then host (a % szp) else gpu a) := by
  obtain ⟨e1, e2, e3⟩ := page_bytes (ElemLayout.bytes T) sz szp q hB hq
  have hacc : transferAccepted false (ElemLayout.bytes T) sz
      (byteOffset (ElemLayout.bytes T) q szp) (byteCount (ElemLayout.bytes T) szp) = true := by
    rw [transferAccepted_iff, e1, e2, bufferBytes_eq _ _ hB]; exact ⟨rfl, e3⟩
  unfold clEnqueueWriteBuffer
  simp only [hacc, if_true]
  rw [e1, e2, writeBytes_aligned]
  congr 1
  funext a
  by_cases ha : a / szp = q
  · rw [if_pos ((region_iff szp q a h).mpr ha), if_pos ha, ← ha, sub_page_eq_mod]
  · rw [if_neg (fun hc => ha ((region_iff szp q a h).mp hc)), if_neg ha]

/-- The read-in of a page among the elements of an array whose byte size is a `size_t`
is accepted by a runtime without faults and moves the elements of the page. -/
theorem readBuffer_ok {T : Type} [ElemLayout T] (sz szp P : Nat) (gpu host : Nat → T)
    (hB : ElemLayout.bytes T * sz < 2 ^ 64) (hP : P * szp + szp ≤ sz) :
    clEnqueueReadBuffer false sz szp gpu P host =
      (true, fun o => if o < szp then gpu (P * szp + o) else host o) := by
  obtain ⟨e1, e2, e3⟩ := page_bytes (ElemLayout.bytes T) sz szp P hB hP
  have hacc : transferAccepted false (ElemLayout.bytes T) sz
      (byteOffset (ElemLayout.bytes T) P szp) (byteCount (ElemLayout.bytes T) szp) = true := by
    rw [transferAccepted_iff, e1, e2, bufferBytes_eq _ _ hB]; exact ⟨rfl, e3⟩
  unfold clEnqueueReadBuffer
  simp only [hacc, if_true]
  rw [e1, e2, readBytes_aligned]

theorem miss_ok_eq [ElemLayout T] (f : ClFaults) (va : VirtualArray T) (page : Nat)
    (hszp : 0 < va.szp)
    (hok : va.missOk f page = true) :
    (va.miss getMsgs f page).1 = va.loaded page := by
  unfold missOk at hok
  simp only [Bool.and_eq_true, Bool.or_eq_true, Bool.not_eq_true', Page.isEdited,
    Page.getTargetGpuPage, Page.ptr] at hok
  obtain ⟨⟨⟨hB, hw⟩, hr, hrfit⟩, _⟩ := hok
  rw [readBuffer_fst, transferAccepted_iff] at hr
  obtain ⟨hfr, _⟩ := hr
  replace hB : ElemLayout.bytes T * va.sz < 2 ^ 64 := of_decide_eq_true hB
  have hPfit : page * va.szp + va.szp ≤ va.sz := by
    simpa [pageInBuffer] using hrfit
  unfold miss loaded flushed
  simp only [Page.isEdited, Page.getTargetGpuPage, Page.ptr, Page.setTargetGpuPage]
  by_cases he : (va.cpu (page % va.nump)).edited = true
  · rw [if_pos he]
    replace hw := hw.resolve_left (by simp [he])
    by_cases hnone : (va.cpu (page % va.nump)).targetGpuPage = none
    · rw [hnone] at hw; simp [clEnqueueWriteBuffer] at hw
    · obtain ⟨q, ht⟩ := Option.ne_none_iff_exists'.mp hnone
      rw [ht] at hw
      obtain ⟨hw1, hw2⟩ := hw
      rw [writeBuffer_fst, transferAccepted_iff] at hw1
      have hqfit : q * va.szp + va.szp ≤ va.sz := by
        simpa [pageInBuffer] using hw2
      simp only [ht, hw1.1, writeBuffer_ok va.sz va.szp q va.gpu _ hszp hB hqfit, hfr,
        readBuffer_ok va.sz va.szp page _ _ hB hPfit]
      simp only [he, true_and, Option.some.injEq]
      simp only [eq_comm]
  · rw [if_neg he]
    simp only [hfr, readBuffer_ok va.sz va.szp page _ _ hB hPfit, he, false_and, if_false,
      Bool.false_eq_true]

theorem page_add_div (szp P o : Nat) (ho : o < szp) : (P * szp + o) / szp = P := by
  have h : 0 < szp := by omega
  rw [Nat.mul_comm, Nat.mul_add_div h, Nat.div_eq_of_lt ho, Nat.add_zero]

theorem page_add_mod (szp P o : Nat) (ho : o < szp) : (P * szp + o) % szp = o := by
  rw [Nat.mul_comm, Nat.mul_add_mod, Nat.mod_eq_of_lt ho]

theorem div_mul_add_mod (j szp : Nat) : j / szp * szp + j % szp = j := by
  rw [Nat.mul_comm]; exact Nat.div_add_mod j szp

theorem flushed_of_ne (va : VirtualArray T) (s a : Nat)
    (h : (va.cpu s).targetGpuPage ≠ some (a / va.szp)) : va.flushed s a = va.gpu a := by
  unfold flushed
  rw [if_neg (fun hc => h hc.2)]

theorem flushed_of_clean (va : VirtualArray T) (s a : Nat)
    (h : (va.cpu s).edited = false) : va.flushed s a = va.gpu a := by
  unfold flushed
  rw [if_neg (fun hc => by rw [h] at hc; exact Bool.false_ne_true hc.1)]

theorem flushed_of_edited (va : VirtualArray T) (s a : Nat)
    (h : (va.cpu s).edited = true) (ht : (va.cpu s).targetGpuPage = some (a / va.szp)) :
    va.flushed s a = (va.cpu s).arr (a % va.szp) := by
  unfold flushed
  rw [if_pos ⟨h, ht⟩]

theorem logical_def (va : VirtualArray T) (j : Nat) :
    va.logical j =
      if (va.cpu (j / va.szp % va.nump)).targetGpuPage = some (j / va.szp) then
        (va.cpu (j / va.szp % va.nump)).arr (j % va.szp)
      else va.gpu j := rfl

theorem loaded_szp (va : VirtualArray T) (P : Nat) : (va.loaded P).szp = va.szp := rfl

theorem loaded_nump (va : VirtualArray T) (P : Nat) : (va.loaded P).nump = va.nump := rfl

theorem loaded_sz (va : VirtualArray T) (P : Nat) : (va.loaded P).sz = va.sz := rfl

theorem loaded_gpu (va : VirtualArray T) (P : Nat) :
    (va.loaded P).gpu = va.flushed (P % va.nump) := rfl

theorem loaded_cpu_same (va : VirtualArray T) (P : Nat) :
    (va.loaded P).cpu (P % va.nump) =
      { arr := fun o => if o < va.szp then va.flushed (P % va.nump) (P * va.szp + o)
                        else (va.cpu (P % va.nump)).arr o
        edited := (va.cpu (P % va.nump)).edited
        targetGpuPage := some P } := by
  simp only [loaded, Function.update_same]

theorem loaded_cpu_other (va : VirtualArray T) (P s : Nat) (h : s ≠ P % va.nump) :
    (va.loaded P).cpu s = va.cpu s := by
  simp only [loaded, Function.update_noteq h]

/-- A successful miss leaves the logical contents as they are. -/
theorem loaded_logical (va : VirtualArray T) (P j : Nat) (hszp : 0 < va.szp)
    (hn : 0 < va.nump) (hpl : va.Placed)
    (hmiss : (va.cpu (P % va.nump)).targetGpuPage ≠ some P) (hco : va.CoherentAt j) :
    (va.loaded P).logical j = va.logical j := by
  have hS : P % va.nump < va.nump := Nat.mod_lt _ hn
  have hjm := div_mul_add_mod j va.szp
  have hjo : j % va.szp < va.szp := Nat.mod_lt _ hszp
  unfold CoherentAt at hco
  rw [logical_def, logical_def, loaded_szp, loaded_nump, loaded_gpu]
  by_cases hs : j / va.szp % va.nump = P % va.nump
  · rw [hs] at hco
    rw [hs, loaded_cpu_same]
    simp only [Option.some.injEq]
    by_cases hp : P = j / va.szp
    · subst hp
      rw [if_pos rfl, if_pos hjo, if_neg hmiss, hjm, flushed_of_ne _ _ _ hmiss]
    · rw [if_neg hp]
      by_cases ht : (va.cpu (P % va.nump)).targetGpuPage = some (j / va.szp)
      · rw [if_pos ht]
        by_cases he : (va.cpu (P % va.nump)).edited = true
        · rw [flushed_of_edited _ _ _ he ht]
        · have he' : (va.cpu (P % va.nump)).edited = false := by simpa using he
          rw [flushed_of_clean _ _ _ he', hco ht he']
      · rw [if_neg ht, flushed_of_ne _ _ _ ht]
  · have hne : (va.cpu (P % va.nump)).targetGpuPage ≠ some (j / va.szp) := by
      intro hc
      exact hs (hpl _ _ hS hc)
    rw [loaded_cpu_other _ _ _ hs, flushed_of_ne _ _ _ hne]

/-- A successful miss keeps the device copy of every clean resident element current. -/
theorem loaded_coherentAt (va : VirtualArray T) (P j : Nat) (hszp : 0 < va.szp)
    (hn : 0 < va.nump) (hpl : va.Placed)
    (hmiss : (va.cpu (P % va.nump)).targetGpuPage ≠ some P) (hco : va.CoherentAt j) :
    ∀ e, (va.loaded P).setSlot (P % va.nump)
        { (va.loaded P).cpu (P % va.nump) with edited := e } |>.CoherentAt j := by
  intro e
  have hS : P % va.nump < va.nump := Nat.mod_lt _ hn
  have hjm := div_mul_add_mod j va.szp
  have hjo : j % va.szp < va.szp := Nat.mod_lt _ hszp
  unfold CoherentAt at hco ⊢
  simp only [setSlot, loaded_szp, loaded_nump, loaded_gpu]
  by_cases hs : j / va.szp % va.nump = P % va.nump
  · rw [hs, Function.update_same, loaded_cpu_same]
    simp only [Option.some.injEq]
    intro hp _
    subst hp
    rw [if_pos hjo, hjm]
  · have hne : (va.cpu (P % va.nump)).targetGpuPage ≠ some (j / va.szp) := by
      intro hc
      exact hs (hpl _ _ hS hc)
    rw [Function.update_noteq hs, loaded_cpu_other _ _ _ hs, flushed_of_ne _ _ _ hne]
    exact hco

/-! ### The miss block under arbitrary transfer outcomes -/

theorem miss_szp [ElemLayout T] (m : Msgs) (f : ClFaults) (va : VirtualArray T) (P : Nat) :
    (va.miss m f P).1.szp = va.szp := by
  unfold miss; dsimp only; split <;> rfl

theorem miss_nump [ElemLayout T] (m : Msgs) (f : ClFaults) (va : VirtualArray T) (P : Nat) :
    (va.miss m f P).1.nump = va.nump := by
  unfold miss; dsimp only; split <;> rfl

theorem miss_sz [ElemLayout T] (m : Msgs) (f : ClFaults) (va : VirtualArray T) (P : Nat) :
    (va.miss m f P).1.sz = va.sz := by
  unfold miss; dsimp only; split <;> rfl

theorem miss_cpu_other [ElemLayout T] (m : Msgs) (f : ClFaults) (va : VirtualArray T) (P s : Nat)
    (h : s ≠ P % va.nump) : (va.miss m f P).1.cpu s = va.cpu s := by
  unfold miss; dsimp only; split <;> simp only [Function.update_noteq h]

theorem miss_target [ElemLayout T] (m : Msgs) (f : ClFaults) (va : VirtualArray T) (P : Nat) :
    ((va.miss m f P).1.cpu (P % va.nump)).targetGpuPage = some P := by
  unfold miss; dsimp only; split <;> simp only [Function.update_same, Page.setTargetGpuPage]

theorem miss_edited [ElemLayout T] (m : Msgs) (f : ClFaults) (va : VirtualArray T) (P : Nat) :
    ((va.miss m f P).1.cpu (P % va.nump)).edited = (va.cpu (P % va.nump)).edited := by
  unfold miss; dsimp only; split <;> simp only [Function.update_same, Page.setTargetGpuPage]

/-! ### Normal forms of the write functions -/

theorem set_va [ElemLayout T] (f : ClFaults) (va : VirtualArray T) (index : Nat) (val : T) :
    (va.set f index val).va = va.afterWrite f (index / va.szp)
      (fun o => if o = subU64 index (mulU64 (index / va.szp) va.szp) then some val else none) := by
  unfold set afterWrite hit
  by_cases h : (va.cpu (index / va.szp % va.nump)).getTargetGpuPage = some (index / va.szp)
  · simp only [h, if_true, decide_True]
    congr 2
    simp only [Page.edit, Page.patch]
    congr 1
    funext o
    split <;> rfl
  · simp only [h, if_false, decide_False, miss_fst setMsgs, Bool.false_eq_true]
    congr 2
    simp only [Page.edit, Page.patch]
    congr 1
    funext o
    split <;> rfl

theorem setN_va [Inhabited T] [ElemLayout T] (f : ClFaults) (va : VirtualArray T) (index : Nat)
    (val : List T) (valIndex n : Nat) :
    (va.setN f index val valIndex n).va = va.afterWrite f (index / va.szp)
      (Op.patchOf va.szp (Op.setN index val valIndex n)) := by
  unfold setN afterWrite hit Op.patchOf
  by_cases h : (va.cpu (index / va.szp % va.nump)).getTargetGpuPage = some (index / va.szp)
  · simp only [h, if_true, decide_True]
    congr 2
    simp only [Page.editN, Page.patch]
    congr 1
    funext o
    split <;> rfl
  · simp only [h, if_false, decide_False, miss_fst setNMsgs, Bool.false_eq_true]
    congr 2
    simp only [Page.editN, Page.patch]
    congr 1
    funext o
    split <;> rfl

theorem copyFromBuffer_va [Inhabited T] [ElemLayout T] (f : ClFaults) (va : VirtualArray T)
    (index range : Nat) (src : List T) :
    (va.copyFromBuffer f index range src).va = va.afterWrite f (index / va.szp)
      (Op.patchOf va.szp (Op.copyFromBuffer index range src)) := by
  unfold copyFromBuffer afterWrite hit Op.patchOf
  by_cases h : (va.cpu (index / va.szp % va.nump)).getTargetGpuPage = some (index / va.szp)
  · simp only [h, if_true, decide_True]
    congr 2
    simp only [Page.writeN, Page.patch]
    congr 1
    funext o
    split <;> rfl
  · simp only [h, if_false, decide_False, miss_fst copyMsgs, Bool.false_eq_true]
    congr 2
    simp only [Page.writeN, Page.patch]
    congr 1
    funext o
    split <;> rfl

theorem step_read [Inhabited T] [ElemLayout T] (f : ClFaults) (va : VirtualArray T) (op : Op T)
    (h : op.isWrite = false) : va.step f op = va.afterRead f (op.index / va.szp) := by
  cases op with
  | get i => exact get_va f va i
  | getN i n => exact getN_va f va i n
  | copyToBuffer i r => exact copyToBuffer_va f va i r
  | set i v => simp [Op.isWrite] at h
  | setN i val k n => simp [Op.isWrite] at h
  | copyFromBuffer i r src => simp [Op.isWrite] at h

theorem step_write [Inhabited T] [ElemLayout T] (f : ClFaults) (va : VirtualArray T) (op : Op T)
    (h : op.isWrite = true) :
    va.step f op = va.afterWrite f (op.index / va.szp) (op.patchOf va.szp) := by
  cases op with
  | get i => simp [Op.isWrite] at h
  | getN i n => simp [Op.isWrite] at h
  | copyToBuffer i r => simp [Op.isWrite] at h
  | set i v => exact set_va f va i v
  | setN i val k n => exact setN_va f va i val k n
  | copyFromBuffer i r src => exact copyFromBuffer_va f va i r src

/-! ### Bookkeeping of an access, whatever the transfers do -/

theorem hit_iff (va : VirtualArray T) (P : Nat) :
    va.hit P = true ↔ (va.cpu (P % va.nump)).targetGpuPage = some P := by
  unfold hit Page.getTargetGpuPage
  exact decide_eq_true_iff

theorem afterRead_szp [ElemLayout T] (f : ClFaults) (va : VirtualArray T) (P : Nat) :
    (va.afterRead f P).szp = va.szp := by
  unfold afterRead; split
  · rfl
  · exact miss_szp _ _ _ _

theorem afterRead_nump [ElemLayout T] (f : ClFaults) (va : VirtualArray T) (P : Nat) :
    (va.afterRead f P).nump = va.nump := by
  unfold afterRead; split
  · rfl
  · exact miss_nump _ _ _ _

theorem afterRead_sz [ElemLayout T] (f : ClFaults) (va : VirtualArray T) (P : Nat) :
    (va.afterRead f P).sz = va.sz := by
  unfold afterRead; split
  · rfl
  · exact miss_sz _ _ _ _

theorem afterRead_cpu_other [ElemLayout T] (f : ClFaults) (va : VirtualArray T) (P s : Nat)
    (h : s ≠ P % va.nump) : (va.afterRead f P).cpu s = va.cpu s := by
  unfold afterRead; split
  · rfl
  · simp only [setSlot, Function.update_noteq h]
    exact miss_cpu_other _ _ _ _ _ h

theorem afterRead_target [ElemLayout T] (f : ClFaults) (va : VirtualArray T) (P : Nat) :
    ((va.afterRead f P).cpu (P % va.nump)).targetGpuPage = some P := by
  unfold afterRead; split
  · rename_i h; exact (hit_iff va P).mp h
  · simp only [setSlot, Function.update_same, Page.reset]
    exact miss_target _ _ _ _

theorem afterWrite_szp [ElemLayout T] (f : ClFaults) (va : VirtualArray T) (P : Nat)
    (w : Nat → Option T) :
    (va.afterWrite f P w).szp = va.szp := by
  unfold afterWrite; dsimp only [setSlot]; split
  · rfl
  · exact miss_szp _ _ _ _

theorem afterWrite_nump [ElemLayout T] (f : ClFaults) (va : VirtualArray T) (P : Nat)
    (w : Nat → Option T) :
    (va.afterWrite f P w).nump = va.nump := by
  unfold afterWrite; dsimp only [setSlot]; split
  · rfl
  · exact miss_nump _ _ _ _

theorem afterWrite_sz [ElemLayout T] (f : ClFaults) (va : VirtualArray T) (P : Nat)
    (w : Nat → Option T) :
    (va.afterWrite f P w).sz = va.sz := by
  unfold afterWrite; dsimp only [setSlot]; split
  · rfl
  · exact miss_sz _ _ _ _

theorem afterWrite_cpu_other [ElemLayout T] (f : ClFaults) (va : VirtualArray T) (P : Nat)
    (w : Nat → Option T) (s : Nat) (h : s ≠ P % va.nump) :
    (va.afterWrite f P w).cpu s = va.cpu s := by
  unfold afterWrite
  simp only [setSlot, Function.update_noteq h]
  split
  · rfl
  · exact miss_cpu_other _ _ _ _ _ h

theorem afterWrite_target [ElemLayout T] (f : ClFaults) (va : VirtualArray T) (P : Nat)
    (w : Nat → Option T) :
    ((va.afterWrite f P w).cpu (P % va.nump)).targetGpuPage = some P := by
  unfold afterWrite
  simp only [setSlot, Function.update_same, Page.markAsEdited, Page.patch]
  split
  · rename_i h; exact (hit_iff va P).mp h
  · exact miss_target _ _ _ _

theorem afterWrite_edited [ElemLayout T] (f : ClFaults) (va : VirtualArray T) (P : Nat)
    (w : Nat → Option T) :
    ((va.afterWrite f P w).cpu (P % va.nump)).edited = true := by
  unfold afterWrite
  simp only [setSlot, Function.update_same, Page.markAsEdited]

theorem step_szp [Inhabited T] [ElemLayout T] (f : ClFaults) (va : VirtualArray T) (op : Op T) :
    (va.step f op).szp = va.szp := by
  cases h : op.isWrite
  · rw [step_read f va op h]; exact afterRead_szp _ _ _
  · rw [step_write f va op h]; exact afterWrite_szp _ _ _ _

theorem step_nump [Inhabited T] [ElemLayout T] (f : ClFaults) (va : VirtualArray T) (op : Op T) :
    (va.step f op).nump = va.nump := by
  cases h : op.isWrite
  · rw [step_read f va op h]; exact afterRead_nump _ _ _
  · rw [step_write f va op h]; exact afterWrite_nump _ _ _ _

theorem step_sz [Inhabited T] [ElemLayout T] (f : ClFaults) (va : VirtualArray T) (op : Op T) :
    (va.step f op).sz = va.sz := by
  cases h : op.isWrite
  · rw [step_read f va op h]; exact afterRead_sz _ _ _
  · rw [step_write f va op h]; exact afterWrite_sz _ _ _ _

theorem step_cpu_other [Inhabited T] [ElemLayout T] (f : ClFaults) (va : VirtualArray T) (op : Op T)
    (s : Nat) (hs : s ≠ op.index / va.szp % va.nump) : (va.step f op).cpu s = va.cpu s := by
  cases h : op.isWrite
  · rw [step_read f va op h]; exact afterRead_cpu_other _ _ _ _ hs
  · rw [step_write f va op h]; exact afterWrite_cpu_other _ _ _ _ _ hs

theorem step_target [Inhabited T] [ElemLayout T] (f : ClFaults) (va : VirtualArray T) (op : Op T) :
    ((va.step f op).cpu (op.index / va.szp % va.nump)).targetGpuPage =
      some (op.index / va.szp) := by
  cases h : op.isWrite
  · rw [step_read f va op h]; exact afterRead_target _ _ _
  · rw [step_write f va op h]; exact afterWrite_target _ _ _ _

theorem step_placed [Inhabited T] [ElemLayout T] (f : ClFaults) (va : VirtualArray T) (op : Op T)
    (h : va.Placed) : (va.step f op).Placed := by
  intro s p hs hp
  rw [step_nump] at hs ⊢
  by_cases hS : s = op.index / va.szp % va.nump
  · subst hS
    rw [step_target] at hp
    injection hp with hp
    rw [← hp]
  · rw [step_cpu_other f va op s hS] at hp
    exact h s p hs hp

theorem init_placed (sizeP sizePageP numActivePageP : Nat) (dev0 : Nat → T)
    (host0 : Nat → Nat → T) : (init sizeP sizePageP numActivePageP dev0 host0).Placed := by
  intro s p _ hp
  simp [init, Page.fresh] at hp

theorem Reachable.placed [Inhabited T] [ElemLayout T] {va : VirtualArray T} (h : va.Reachable) :
    va.Placed := by
  induction h with
  | init sizeP sizePageP numActivePageP dev0 host0 _ _ => exact init_placed _ _ _ _ _
  | step f va op _ ih => exact step_placed f va op ih

theorem Reachable.pos [Inhabited T] [ElemLayout T] {va : VirtualArray T} (h : va.Reachable) :
    0 < va.szp ∧ 0 < va.nump := by
  induction h with
  | init sizeP sizePageP numActivePageP dev0 host0 h1 h2 => exact ⟨h1, h2⟩
  | step f va op _ ih => rw [step_szp, step_nump]; exact ih

/-! ### An access whose transfers succeed -/

theorem afterRead_eq [ElemLayout T] (f : ClFaults) (va : VirtualArray T) (P : Nat)
    (hszp : 0 < va.szp)
    (hok : (va.hit P || va.missOk f P) = true) :
    va.afterRead f P =
      if va.hit P then va
      else (va.loaded P).setSlot (P % va.nump)
        { (va.loaded P).cpu (P % va.nump) with edited := false } := by
  unfold afterRead
  by_cases hh : va.hit P = true
  · rw [if_pos hh, if_pos hh]
  · rw [if_neg hh, if_neg hh]
    have hm : va.missOk f P = true := by
      rcases Bool.or_eq_true _ _ |>.mp hok with h | h
      · exact absurd h hh
      · exact h
    simp only [miss_ok_eq f va P hszp hm, loaded_nump, Page.reset]

theorem afterWrite_eq [ElemLayout T] (f : ClFaults) (va : VirtualArray T) (P : Nat)
    (w : Nat → Option T)
    (hszp : 0 < va.szp) (hok : (va.hit P || va.missOk f P) = true) :
    va.afterWrite f P w =
      (if va.hit P then va else va.loaded P).setSlot (P % va.nump)
        (((if va.hit P then va else va.loaded P).cpu (P % va.nump)).patch w).markAsEdited := by
  unfold afterWrite
  by_cases hh : va.hit P = true
  · simp only [if_pos hh]
  · have hm : va.missOk f P = true := by
      rcases Bool.or_eq_true _ _ |>.mp hok with h | h
      · exact absurd h hh
      · exact h
    simp only [if_neg hh, miss_ok_eq f va P hszp hm]

theorem logical_setSlot_edited (va : VirtualArray T) (s j : Nat) (e : Bool) :
    (va.setSlot s { va.cpu s with edited := e }).logical j = va.logical j := by
  rw [logical_def, logical_def]
  simp only [setSlot]
  by_cases hs : j / va.szp % va.nump = s
  · subst hs
    simp only [Function.update_same]
  · simp only [Function.update_noteq hs]

theorem logical_setSlot_patch (va : VirtualArray T) (s j : Nat) (w : Nat → Option T) :
    (va.setSlot s ((va.cpu s).patch w).markAsEdited).logical j =
      if j / va.szp % va.nump = s ∧ (va.cpu s).targetGpuPage = some (j / va.szp) then
        (w (j % va.szp)).getD (va.logical j)
      else va.logical j := by
  rw [logical_def, logical_def]
  simp only [setSlot]
  by_cases hs : j / va.szp % va.nump = s
  · subst hs
    simp only [Function.update_same, Page.markAsEdited, Page.patch, true_and]
    split <;> rfl
  · simp only [Function.update_noteq hs, hs, false_and, if_false]

theorem afterRead_logical [ElemLayout T] (f : ClFaults) (va : VirtualArray T) (P j : Nat)
    (hszp : 0 < va.szp) (hn : 0 < va.nump) (hpl : va.Placed) (hco : va.CoherentAt j)
    (hok : (va.hit P || va.missOk f P) = true) :
    (va.afterRead f P).logical j = va.logical j := by
  rw [afterRead_eq f va P hszp hok]
  by_cases hh : va.hit P = true
  · rw [if_pos hh]
  · rw [if_neg hh]
    have hmiss : (va.cpu (P % va.nump)).targetGpuPage ≠ some P :=
      fun hc => hh ((hit_iff va P).mpr hc)
    have h1 := logical_setSlot_edited (va.loaded P) (P % va.nump) j false
    rw [h1]
    exact loaded_logical va P j hszp hn hpl hmiss hco

theorem afterRead_coherentAt [ElemLayout T] (f : ClFaults) (va : VirtualArray T) (P j : Nat)
    (hszp : 0 < va.szp) (hn : 0 < va.nump) (hpl : va.Placed) (hco : va.CoherentAt j)
    (hok : (va.hit P || va.missOk f P) = true) :
    (va.afterRead f P).CoherentAt j := by
  rw [afterRead_eq f va P hszp hok]
  by_cases hh : va.hit P = true
  · rw [if_pos hh]; exact hco
  · rw [if_neg hh]
    have hmiss : (va.cpu (P % va.nump)).targetGpuPage ≠ some P :=
      fun hc => hh ((hit_iff va P).mpr hc)
    exact loaded_coherentAt va P j hszp hn hpl hmiss hco false

theorem afterWrite_logical [ElemLayout T] (f : ClFaults) (va : VirtualArray T) (P j : Nat)
    (w : Nat → Option T) (hszp : 0 < va.szp) (hn : 0 < va.nump) (hpl : va.Placed)
    (hco : va.CoherentAt j) (hok : (va.hit P || va.missOk f P) = true) :
    (va.afterWrite f P w).logical j =
      if j / va.szp = P then (w (j % va.szp)).getD (va.logical j) else va.logical j := by
  rw [afterWrite_eq f va P w hszp hok]
  by_cases hh : va.hit P = true
  · simp only [if_pos hh]
    rw [logical_setSlot_patch]
    have ht := (hit_iff va P).mp hh
    by_cases hp : j / va.szp = P
    · subst hp
      rw [if_pos ⟨rfl, ht⟩, if_pos rfl]
    · rw [if_neg hp, if_neg]
      rintro ⟨_, h2⟩
      rw [ht] at h2
      injection h2 with h2
      exact hp h2.symm
  · simp only [if_neg hh]
    have hmiss : (va.cpu (P % va.nump)).targetGpuPage ≠ some P :=
      fun hc => hh ((hit_iff va P).mpr hc)
    have h1 := logical_setSlot_patch (va.loaded P) (P % va.nump) j w
    simp only [loaded_szp, loaded_nump] at h1
    rw [h1, loaded_logical va P j hszp hn hpl hmiss hco, loaded_cpu_same]
    by_cases hp : j / va.szp = P
    · subst hp
      rw [if_pos ⟨rfl, rfl⟩, if_pos rfl]
    · rw [if_neg hp, if_neg]
      rintro ⟨_, h2⟩
      injection h2 with h2
      exact hp h2.symm

theorem afterWrite_coherentAt [ElemLayout T] (f : ClFaults) (va : VirtualArray T) (P j : Nat)
    (w : Nat → Option T) (hszp : 0 < va.szp) (hn : 0 < va.nump) (hpl : va.Placed)
    (hco : va.CoherentAt j) (hok : (va.hit P || va.missOk f P) = true) :
    (va.afterWrite f P w).CoherentAt j := by
  have hS : P % va.nump < va.nump := Nat.mod_lt _ hn
  by_cases hs : j / va.szp % va.nump = P % va.nump
  · unfold CoherentAt
    rw [afterWrite_szp, afterWrite_nump, hs, afterWrite_edited]
    intro _ h
    exact absurd h (by simp)
  · rw [afterWrite_eq f va P w hszp hok]
    unfold CoherentAt at hco ⊢
    by_cases hh : va.hit P = true
    · simp only [if_pos hh, setSlot, Function.update_noteq hs]
      exact hco
    · simp only [if_neg hh, setSlot, loaded_szp, loaded_nump, loaded_gpu,
        Function.update_noteq hs, loaded_cpu_other _ _ _ hs]
      have hne : (va.cpu (P % va.nump)).targetGpuPage ≠ some (j / va.szp) := by
        intro hc
        exact hs (hpl _ _ hS hc)
      rw [flushed_of_ne _ _ _ hne]
      exact hco

/-! ### Calls -/

theorem patchOf_eq_written [Inhabited T] (szp : Nat) (op : Op T) (o : Nat)
    (h : op.index < 2 ^ 64) :
    op.patchOf szp o = op.written (op.index / szp * szp + o) := by
  have hm := div_mul_add_mod op.index szp
  cases op with
  | get i => rfl
  | getN i n => rfl
  | copyToBuffer i r => rfl
  | set i v =>
    simp only [Op.index] at h hm
    simp only [Op.patchOf, Op.written, Op.index, subU64_mulU64_div i szp h]
    by_cases ho : o = i % szp
    · rw [if_pos ho, if_pos (by omega)]
    · rw [if_neg ho, if_neg (by omega)]
  | setN i val k n =>
    simp only [Op.index] at h hm
    simp only [Op.patchOf, Op.written, Op.index, subU64_mulU64_div i szp h]
    by_cases ho : i % szp ≤ o ∧ o < i % szp + n
    · rw [if_pos ho, if_pos (by omega)]
      congr 2
      omega
    · rw [if_neg ho, if_neg (by omega)]
  | copyFromBuffer i r src =>
    simp only [Op.index] at h hm
    simp only [Op.patchOf, Op.written, Op.index, subU64_mulU64_div i szp h]
    by_cases ho : i % szp ≤ o ∧ o < i % szp + r
    · rw [if_pos ho, if_pos (by omega)]
      congr 2
      omega
    · rw [if_neg ho, if_neg (by omega)]

theorem written_isWrite [Inhabited T] (op : Op T) (j : Nat) (h : op.isWrite = false) :
    op.written j = none := by
  cases op <;> first | rfl | simp [Op.isWrite] at h

theorem written_page [Inhabited T] (szp : Nat) (op : Op T) (j : Nat) (v : T)
    (hszp : 0 < szp) (hwf : op.WellFormed szp) (hw : op.written j = some v) :
    j / szp = op.index / szp := by
  have hm := div_mul_add_mod op.index szp
  obtain ⟨_, hr⟩ := hwf
  have key : op.index ≤ j ∧ j < op.index + op.count := by
    cases op with
    | get i => simp [Op.written] at hw
    | getN i n => simp [Op.written] at hw
    | copyToBuffer i r => simp [Op.written] at hw
    | set i v0 =>
      simp only [Op.written] at hw
      simp only [Op.index, Op.count]
      split at hw
      · omega
      · exact absurd hw (by simp)
    | setN i val k n =>
      simp only [Op.written] at hw
      simp only [Op.index, Op.count]
      split at hw
      · assumption
      · exact absurd hw (by simp)
    | copyFromBuffer i r src =>
      simp only [Op.written] at hw
      simp only [Op.index, Op.count]
      split at hw
      · assumption
      · exact absurd hw (by simp)
  apply (region_iff szp (op.index / szp) j hszp).mp
  constructor <;> omega

theorem step_logical [Inhabited T] [ElemLayout T] (f : ClFaults) (va : VirtualArray T) (op : Op T)
    (j : Nat)
    (hszp : 0 < va.szp) (hn : 0 < va.nump) (hpl : va.Placed) (hco : va.CoherentAt j)
    (hwf : op.WellFormed va.szp) (hok : va.transfersOk f op.index = true) :
    (va.step f op).logical j = (op.written j).getD (va.logical j) := by
  unfold transfersOk at hok
  cases hw : op.isWrite
  · rw [step_read f va op hw, afterRead_logical f va _ j hszp hn hpl hco hok,
      written_isWrite op j hw]
    rfl
  · rw [step_write f va op hw, afterWrite_logical f va _ j _ hszp hn hpl hco hok]
    by_cases hp : j / va.szp = op.index / va.szp
    · rw [if_pos hp, patchOf_eq_written va.szp op _ hwf.1, ← hp, div_mul_add_mod]
    · rw [if_neg hp]
      cases hv : op.written j with
      | none => rfl
      | some v => exact absurd (written_page va.szp op j v hszp hwf hv) hp

theorem step_coherentAt [Inhabited T] [ElemLayout T] (f : ClFaults) (va : VirtualArray T)
    (op : Op T)
    (j : Nat) (hszp : 0 < va.szp) (hn : 0 < va.nump) (hpl : va.Placed)
    (hco : va.CoherentAt j) (hok : va.transfersOk f op.index = true) :
    (va.step f op).CoherentAt j := by
  unfold transfersOk at hok
  cases hw : op.isWrite
  · rw [step_read f va op hw]
    exact afterRead_coherentAt f va _ j hszp hn hpl hco hok
  · rw [step_write f va op hw]
    exact afterWrite_coherentAt f va _ j _ hszp hn hpl hco hok

/-- What a read returns is the logical content of the engine after the call. -/
theorem get_val [ElemLayout T] (f : ClFaults) (va : VirtualArray T) (index : Nat)
    (h : index < 2 ^ 64) :
    (va.get f index).val = (va.get f index).va.logical index := by
  rw [logical_def, get_va, afterRead_szp, afterRead_nump, afterRead_target, if_pos rfl,
    ← subU64_mulU64_div index va.szp h]
  unfold get afterRead hit
  by_cases hh : (va.cpu (index / va.szp % va.nump)).getTargetGpuPage = some (index / va.szp)
  · simp only [hh, if_true, decide_True, Page.get]
  · simp only [hh, if_false, decide_False, Page.get, setSlot, Function.update_same,
      Bool.false_eq_true]

/-! ### What the six functions do at the computed offset -/

theorem get_val_slot [ElemLayout T] (f : ClFaults) (va : VirtualArray T) (index : Nat) :
    (va.get f index).val =
      ((va.get f index).va.cpu (index / va.szp % va.nump)).arr
        (subU64 index (mulU64 (index / va.szp) va.szp)) := by
  by_cases h : (va.cpu (index / va.szp % va.nump)).getTargetGpuPage = some (index / va.szp)
  · simp only [VirtualArray.get, h, if_true, Page.get]
  · simp only [VirtualArray.get, h, if_false, Page.get, setSlot, Function.update_same]

theorem getN_val_slot [ElemLayout T] (f : ClFaults) (va : VirtualArray T) (index n : Nat) :
    (va.getN f index n).val = (List.range n).map (fun k =>
      ((va.getN f index n).va.cpu (index / va.szp % va.nump)).arr
        (subU64 index (mulU64 (index / va.szp) va.szp) + k)) := by
  by_cases h : (va.cpu (index / va.szp % va.nump)).getTargetGpuPage = some (index / va.szp)
  · simp only [VirtualArray.getN, h, if_true, Page.getN]
  · simp only [VirtualArray.getN, h, if_false, Page.getN, setSlot, Function.update_same]

theorem copyToBuffer_val_slot [ElemLayout T] (f : ClFaults) (va : VirtualArray T) (index r : Nat) :
    (va.copyToBuffer f index r).val = (List.range r).map (fun k =>
      ((va.copyToBuffer f index r).va.cpu (index / va.szp % va.nump)).arr
        (subU64 index (mulU64 (index / va.szp) va.szp) + k)) := by
  by_cases h : (va.cpu (index / va.szp % va.nump)).getTargetGpuPage = some (index / va.szp)
  · simp only [VirtualArray.copyToBuffer, h, if_true, Page.readN]
  · simp only [VirtualArray.copyToBuffer, h, if_false, Page.readN, setSlot,
      Function.update_same]

theorem afterWrite_arr [ElemLayout T] (f : ClFaults) (va : VirtualArray T) (P : Nat)
    (w : Nat → Option T)
    (o : Nat) (v : T) (h : w o = some v) :
    ((va.afterWrite f P w).cpu (P % va.nump)).arr o = v := by
  unfold afterWrite
  simp only [setSlot, Function.update_same, Page.markAsEdited, Page.patch, h,
    Option.getD_some]

/-! ### Runs whose transfers succeed -/

theorem init_coherentAt (sizeP sizePageP numActivePageP : Nat) (dev0 : Nat → T)
    (host0 : Nat → Nat → T) (j : Nat) :
    (init sizeP sizePageP numActivePageP dev0 host0).CoherentAt j := by
  intro h
  simp [init, Page.fresh] at h

theorem init_logical (sizeP sizePageP numActivePageP : Nat) (dev0 : Nat → T)
    (host0 : Nat → Nat → T) (j : Nat) :
    (init sizeP sizePageP numActivePageP dev0 host0).logical j = dev0 j := by
  rw [logical_def]
  simp [init, Page.fresh]

/-- The facts that hold in every state reached with successful transfers. -/
theorem ReachableOk.sound [Inhabited T] [ElemLayout T] {va : VirtualArray T} (h : va.ReachableOk) :
    0 < va.szp ∧ 0 < va.nump ∧ va.Placed ∧ ∀ j, va.CoherentAt j := by
  induction h with
  | init sizeP sizePageP numActivePageP dev0 host0 h1 h2 =>
    exact ⟨h1, h2, init_placed _ _ _ _ _, init_coherentAt _ _ _ _ _⟩
  | step f va op _ _ hok ih =>
    obtain ⟨h1, h2, h3, h4⟩ := ih
    refine ⟨?_, ?_, step_placed f va op h3, fun j => ?_⟩
    · rw [step_szp]; exact h1
    · rw [step_nump]; exact h2
    · exact step_coherentAt f va op j h1 h2 h3 (h4 j) hok

theorem ReachableOk.run [Inhabited T] [ElemLayout T] {va : VirtualArray T} (h : va.ReachableOk)
    (cs : List (ClFaults × Op T)) (hok : va.runOk cs) : (va.run cs).ReachableOk := by
  induction cs generalizing va with
  | nil => exact h
  | cons c cs ih =>
    obtain ⟨hwf, ht, hrest⟩ := hok
    exact ih (ReachableOk.step c.1 va c.2 h hwf ht) hrest

theorem replay_congr [Inhabited T] (a b : Nat → T) (ops : List (Op T)) (j : Nat)
    (h : a j = b j) : replay a ops j = replay b ops j := by
  induction ops generalizing a b with
  | nil => exact h
  | cons op ops ih =>
    apply ih
    simp only [h]

theorem replay_of_not_written [Inhabited T] (a : Nat → T) (ops : List (Op T)) (j : Nat)
    (h : ∀ op ∈ ops, op.written j = none) : replay a ops j = a j := by
  induction ops generalizing a with
  | nil => rfl
  | cons op ops ih =>
    have h1 : op.written j = none := h op (List.mem_cons_self _ _)
    have h2 := ih (fun j => (op.written j).getD (a j))
      (fun o ho => h o (List.mem_cons_of_mem _ ho))
    show replay (fun j => (op.written j).getD (a j)) ops j = a j
    rw [h2]
    show (op.written j).getD (a j) = a j
    rw [h1]
    rfl

/-- A run with successful transfers behaves on the logical contents as the same calls
on a plain array. -/
theorem run_logical [Inhabited T] [ElemLayout T] {va : VirtualArray T} (h : va.ReachableOk)
    (cs : List (ClFaults × Op T)) (hok : va.runOk cs) (j : Nat) :
    (va.run cs).logical j = replay va.logical (cs.map Prod.snd) j := by
  induction cs generalizing va with
  | nil => rfl
  | cons c cs ih =>
    obtain ⟨hwf, ht, hrest⟩ := hok
    obtain ⟨h1, h2, h3, h4⟩ := h.sound
    have hstep := ReachableOk.step c.1 va c.2 h hwf ht
    show ((va.step c.1 c.2).run cs).logical j =
      replay (fun j => (c.2.written j).getD (va.logical j)) (cs.map Prod.snd) j
    rw [ih hstep hrest]
    apply replay_congr
    exact step_logical c.1 va c.2 j h1 h2 h3 (h4 j) hwf ht

theorem get_logical [Inhabited T] [ElemLayout T] {va : VirtualArray T} (h : va.ReachableOk)
    (f : ClFaults)
    (i : Nat) (hi : i < 2 ^ 64) (hok : va.transfersOk f i = true) :
    (va.get f i).val = va.logical i := by
  obtain ⟨h1, h2, h3, h4⟩ := h.sound
  rw [get_val f va i hi]
  have hwf : (Op.get i : Op T).WellFormed va.szp := by
    refine ⟨hi, ?_⟩
    have := Nat.mod_lt i h1
    simp only [Op.index, Op.count]
    omega
  have := step_logical f va (Op.get i) i h1 h2 h3 (h4 i) hwf hok
  simpa [step, Op.written] using this

theorem coherent_of_coherentAt (va : VirtualArray T) (hpl : va.Placed)
    (h : ∀ j, va.CoherentAt j) : va.Coherent := by
  intro s p hs ht he o ho
  have hc := h (p * va.szp + o)
  unfold CoherentAt at hc
  rw [page_add_div va.szp p o ho, page_add_mod va.szp p o ho, hpl s p hs ht] at hc
  exact hc ht he

theorem runOk_reads_logical [Inhabited T] [ElemLayout T] {va : VirtualArray T} (h : va.ReachableOk)
    (reads : List (ClFaults × Op T)) (hreads : ∀ c ∈ reads, c.2.isWrite = false)
    (hok : va.runOk reads) (j : Nat) : (va.run reads).logical j = va.logical j := by
  rw [run_logical h reads hok j]
  apply replay_of_not_written
  intro op hop
  obtain ⟨c, hc, rfl⟩ := List.mem_map.mp hop
  exact written_isWrite c.2 j (hreads c hc)

/-! ### Bulk calls and element-wise calls -/

theorem same_page (szp i k : Nat) (h : i % szp + k < szp) :
    (i + k) / szp = i / szp ∧ (i + k) % szp = i % szp + k := by
  have hm := div_mul_add_mod i szp
  have e : i + k = i / szp * szp + (i % szp + k) := by omega
  rw [e]
  exact ⟨page_add_div szp _ _ h, page_add_mod szp _ _ h⟩

theorem get_hit [ElemLayout T] (f : ClFaults) (va : VirtualArray T) (i : Nat)
    (h : (va.cpu (i / va.szp % va.nump)).targetGpuPage = some (i / va.szp)) :
    va.get f i =
      { val := (va.cpu (i / va.szp % va.nump)).arr (subU64 i (mulU64 (i / va.szp) va.szp))
        va := va, log := [] } := by
  simp only [VirtualArray.get, Page.getTargetGpuPage, h, if_true, Page.get]

theorem getEach_resident [ElemLayout T] (fs : List ClFaults) :
    ∀ (va : VirtualArray T) (P i : Nat),
      (va.cpu (P % va.nump)).targetGpuPage = some P →
      (∀ k, k < fs.length → (i + k) / va.szp = P) → i + fs.length ≤ 2 ^ 64 →
      va.getEach i fs =
        ((List.range fs.length).map
          (fun k => (va.cpu (P % va.nump)).arr ((i + k) % va.szp)), va) := by
  induction fs with
  | nil => intro va P i _ _ _; rfl
  | cons f fs ih =>
    intro va P i ht hk hb
    simp only [List.length_cons] at hk hb
    have h0 : i / va.szp = P := by simpa using hk 0 (Nat.succ_pos _)
    have hg := get_hit f va i (by rw [h0]; exact ht)
    have hrec := ih va P (i + 1) ht
      (fun k hk' => by rw [Nat.add_assoc, Nat.add_comm 1 k]; exact hk (k + 1) (by omega))
      (by omega)
    subst h0
    simp only [getEach, hg, hrec, List.length_cons, List.range_succ_eq_map, List.map_cons,
      List.map_map, subU64_mulU64_div i va.szp (by omega), Nat.add_zero]
    congr 2
    apply List.map_congr_left
    intro k _
    simp only [Function.comp, Nat.succ_eq_add_one]
    congr 2
    omega

theorem setSlot_setSlot (va : VirtualArray T) (s : Nat) (p q : Page T) :
    (va.setSlot s p).setSlot s q = va.setSlot s q := by
  simp only [setSlot, Function.update_idem]

theorem patch_markAsEdited_patch (p : Page T) (w1 w2 : Nat → Option T) :
    ((p.patch w1).markAsEdited.patch w2).markAsEdited =
      (p.patch (fun o => (w2 o).orElse (fun _ => w1 o))).markAsEdited := by
  simp only [Page.patch, Page.markAsEdited]
  congr 1
  funext o
  cases w2 o <;> rfl

theorem afterWrite_hit [ElemLayout T] (f : ClFaults) (va : VirtualArray T) (P : Nat)
    (w : Nat → Option T)
    (h : (va.cpu (P % va.nump)).targetGpuPage = some P) :
    va.afterWrite f P w =
      va.setSlot (P % va.nump) ((va.cpu (P % va.nump)).patch w).markAsEdited := by
  unfold afterWrite
  simp only [(hit_iff va P).mpr h, if_true]

theorem afterWrite_form [ElemLayout T] (f : ClFaults) (va : VirtualArray T) (P : Nat) :
    ∃ r : VirtualArray T, r.szp = va.szp ∧ r.nump = va.nump ∧
      (r.cpu (P % r.nump)).targetGpuPage = some P ∧
      ∀ w, va.afterWrite f P w =
        r.setSlot (P % r.nump) ((r.cpu (P % r.nump)).patch w).markAsEdited := by
  by_cases hh : va.hit P = true
  · exact ⟨va, rfl, rfl, (hit_iff va P).mp hh, fun w => afterWrite_hit f va P w
      ((hit_iff va P).mp hh)⟩
  · refine ⟨(va.miss getMsgs f P).1, miss_szp _ _ _ _, miss_nump _ _ _ _, ?_, ?_⟩
    · rw [miss_nump]; exact miss_target _ _ _ _
    · intro w
      unfold afterWrite
      simp only [if_neg hh, miss_nump]

theorem written_setN_step [Inhabited T] (val : List T) (i vi n a : Nat) (v : T)
    (hv : v = val.getD vi default) :
    ((Op.setN (i + 1) val (vi + 1) n).written a).orElse
        (fun _ => if a = i then some v else none) =
      (Op.setN i val vi (n + 1)).written a := by
  subst hv
  simp only [Op.written]
  by_cases h1 : i + 1 ≤ a ∧ a < i + 1 + n
  · have h2 : i ≤ a ∧ a < i + (n + 1) := by omega
    rw [if_pos h1, if_pos h2]
    simp only [Option.orElse]
    congr 2
    omega
  · rw [if_neg h1]
    simp only [Option.orElse]
    by_cases h2 : a = i
    · subst h2
      have h3 : a ≤ a ∧ a < a + (n + 1) := by omega
      rw [if_pos rfl, if_pos h3, Nat.sub_self, Nat.add_zero]
    · have h3 : ¬ (i ≤ a ∧ a < i + (n + 1)) := by omega
      rw [if_neg h2, if_neg h3]

theorem setEach_resident [Inhabited T] [ElemLayout T] (val : List T) (fs : List ClFaults) :
    ∀ (r : VirtualArray T) (P i vi : Nat) (w : Nat → Option T),
      (r.cpu (P % r.nump)).targetGpuPage = some P →
      (∀ k, k < fs.length → (i + k) / r.szp = P) → i + fs.length ≤ 2 ^ 64 →
      (r.setSlot (P % r.nump) ((r.cpu (P % r.nump)).patch w).markAsEdited).setEach
          i val vi fs =
        r.setSlot (P % r.nump) ((r.cpu (P % r.nump)).patch (fun o =>
          ((Op.setN i val vi fs.length).written (P * r.szp + o)).orElse
            (fun _ => w o))).markAsEdited := by
  induction fs with
  | nil =>
    intro r P i vi w _ _ _
    simp only [setEach, List.length_nil, Op.written]
    congr 3
    funext o
    rw [if_neg (by omega)]
    rfl
  | cons f fs ih =>
    intro r P i vi w ht hk hb
    simp only [List.length_cons] at hk hb
    have h0 : i / r.szp = P := by simpa using hk 0 (Nat.succ_pos _)
    have hm := div_mul_add_mod i r.szp
    rw [h0] at hm
    have hx : ((r.setSlot (P % r.nump) ((r.cpu (P % r.nump)).patch w).markAsEdited).set f i
        (val.getD vi default)).va =
        r.setSlot (P % r.nump) ((r.cpu (P % r.nump)).patch (fun o =>
          (if o = i % r.szp then some (val.getD vi default) else none).orElse
            (fun _ => w o))).markAsEdited := by
      rw [set_va]
      have e1 : (r.setSlot (P % r.nump) ((r.cpu (P % r.nump)).patch w).markAsEdited).szp =
          r.szp := rfl
      have e2 : (r.setSlot (P % r.nump) ((r.cpu (P % r.nump)).patch w).markAsEdited).nump =
          r.nump := rfl
      rw [e1, subU64_mulU64_div i r.szp (by omega), h0, afterWrite_hit]
      · rw [e2, setSlot_setSlot]
        simp only [setSlot, Function.update_same]
        rw [patch_markAsEdited_patch]
      · rw [e2]
        simp only [setSlot, Function.update_same, Page.patch, Page.markAsEdited]
        exact ht
    show ((r.setSlot (P % r.nump) ((r.cpu (P % r.nump)).patch w).markAsEdited).set f i
        (val.getD vi default)).va.setEach (i + 1) val (vi + 1) fs = _
    rw [hx, ih r P (i + 1) (vi + 1) _ ht
      (fun k hk' => by rw [Nat.add_assoc, Nat.add_comm 1 k]; exact hk (k + 1) (by omega))
      (by omega)]
    congr 3
    funext o
    simp only [List.length_cons]
    rw [← written_setN_step val i vi fs.length (P * r.szp + o) (val.getD vi default) rfl]
    have hiff : (P * r.szp + o = i) ↔ (o = i % r.szp) := by omega
    by_cases ho : o = i % r.szp
    · rw [if_pos ho, if_pos (hiff.mpr ho)]
      cases (Op.setN (i + 1) val (vi + 1) fs.length).written (P * r.szp + o) <;> rfl
    · rw [if_neg ho, if_neg (fun hc => ho (hiff.mp hc))]
      cases (Op.setN (i + 1) val (vi + 1) fs.length).written (P * r.szp + o) <;> rfl

theorem setN_eq_setEach [Inhabited T] [ElemLayout T] (f : ClFaults) (fs : List ClFaults)
    (va : VirtualArray T) (i : Nat) (val : List T) (vi : Nat)
    (hpage : i % va.szp + (fs.length + 1) ≤ va.szp) (hin : i + (fs.length + 1) ≤ 2 ^ 64) :
    (va.setN f i val vi (fs.length + 1)).va = va.setEach i val vi (f :: fs) := by
  have hm := div_mul_add_mod i va.szp
  obtain ⟨r, hr1, hr2, hr3, hr4⟩ := afterWrite_form f va (i / va.szp)
  show _ = (va.set f i (val.getD vi default)).va.setEach (i + 1) val (vi + 1) fs
  rw [setN_va, set_va, hr4, hr4, subU64_mulU64_div i va.szp (by omega)]
  rw [setEach_resident val fs r (i / va.szp) (i + 1) (vi + 1) _ hr3
    (fun k hk => by
      rw [hr1, Nat.add_assoc]
      exact (same_page va.szp i (1 + k) (by omega)).1)
    (by omega)]
  congr 3
  funext o
  rw [patchOf_eq_written va.szp _ o (by simp only [Op.index]; omega), hr1]
  simp only [Op.index]
  rw [← written_setN_step val i vi fs.length (i / va.szp * va.szp + o) (val.getD vi default) rfl]
  have hiff : (i / va.szp * va.szp + o = i) ↔ (o = i % va.szp) := by omega
  by_cases ho : o = i % va.szp
  · rw [if_pos ho, if_pos (hiff.mpr ho)]
  · rw [if_neg ho, if_neg (fun hc => ho (hiff.mp hc))]

theorem copyFromBuffer_eq_setN [Inhabited T] [ElemLayout T] (f : ClFaults) (va : VirtualArray T)
    (i n : Nat) (src : List T) :
    (va.copyFromBuffer f i n src).va = (va.setN f i src 0 n).va := by
  rw [copyFromBuffer_va, setN_va]
  congr 1
  funext o
  simp only [Op.patchOf, Nat.zero_add]

theorem getN_eq_getEach [ElemLayout T] (f : ClFaults) (fs : List ClFaults) (va : VirtualArray T)
    (i : Nat)
    (hpage : i % va.szp + (fs.length + 1) ≤ va.szp) (hin : i + (fs.length + 1) ≤ 2 ^ 64) :
    ((va.getN f i (fs.length + 1)).val, (va.getN f i (fs.length + 1)).va) =
      va.getEach i (f :: fs) := by
  have hrec := getEach_resident fs (va.get f i).va (i / va.szp) (i + 1)
    (by rw [get_va, afterRead_nump]; exact afterRead_target _ _ _)
    (fun k hk => by
      rw [get_va, afterRead_szp, Nat.add_assoc]
      exact (same_page va.szp i (1 + k) (by omega)).1)
    (by omega)
  show _ = ((va.get f i).val :: ((va.get f i).va.getEach (i + 1) fs).1,
    ((va.get f i).va.getEach (i + 1) fs).2)
  rw [hrec, getN_val_slot, get_val_slot, getN_va, get_va, afterRead_szp, afterRead_nump,
    subU64_mulU64_div i va.szp (by omega)]
  simp only [List.range_succ_eq_map, List.map_cons, List.map_map, Nat.add_zero]
  congr 2
  apply List.map_congr_left
  intro k hk
  simp only [Function.comp, Nat.succ_eq_add_one]
  congr 1
  rw [Nat.add_assoc]
  exact ((same_page va.szp i (1 + k) (by have := List.mem_range.mp hk; omega)).2).symm ▸
    (by rw [Nat.add_comm 1 k])

theorem copyToBuffer_eq_getN [ElemLayout T] (f : ClFaults) (va : VirtualArray T) (i n : Nat) :
    (va.copyToBuffer f i n).val = (va.getN f i n).val ∧
      (va.copyToBuffer f i n).va = (va.getN f i n).va := by
  refine ⟨?_, by rw [copyToBuffer_va, getN_va]⟩
  rw [copyToBuffer_val_slot, getN_val_slot, copyToBuffer_va, getN_va]

/-! ### Transfers that the runtime rejects -/

theorem miss_read_rejected [ElemLayout T] (m : Msgs) (f : ClFaults) (va : VirtualArray T) (P : Nat)
    (h : transferAccepted f.read (ElemLayout.bytes T) va.sz
      (byteOffset (ElemLayout.bytes T) P va.szp) (byteCount (ElemLayout.bytes T) va.szp) =
        false) :
    ((va.miss m f P).1.cpu (P % va.nump)).arr = (va.cpu (P % va.nump)).arr ∧
      (va.miss m f P).2 ≠ [] := by
  unfold miss
  dsimp only
  split <;>
    simp [clEnqueueReadBuffer, h, Page.setTargetGpuPage, Page.ptr]

theorem miss_write_rejected [ElemLayout T] (m : Msgs) (f : ClFaults) (va : VirtualArray T)
    (P q : Nat)
    (hq : (va.cpu (P % va.nump)).targetGpuPage = some q)
    (h : transferAccepted f.write (ElemLayout.bytes T) va.sz
      (byteOffset (ElemLayout.bytes T) q va.szp) (byteCount (ElemLayout.bytes T) va.szp) =
        false) :
    (va.miss m f P).1.gpu = va.gpu := by
  unfold miss
  dsimp only
  split
  · simp [clEnqueueWriteBuffer, h, Page.getTargetGpuPage, hq]
  · rfl

theorem miss_read_accepted [ElemLayout T] (m : Msgs) (f : ClFaults) (va : VirtualArray T) (P : Nat)
    (hf : f.read = false) (hB : ElemLayout.bytes T * va.sz < 2 ^ 64)
    (h : P * va.szp + va.szp ≤ va.sz) (o : Nat) (ho : o < va.szp) :
    ((va.miss m f P).1.cpu (P % va.nump)).arr o = (va.miss m f P).1.gpu (P * va.szp + o) := by
  unfold miss
  dsimp only
  split <;>
    simp [hf, readBuffer_ok va.sz va.szp P _ _ hB h, ho, Page.setTargetGpuPage, Page.ptr]

/-- The transfers of a page that holds an in-range index and overruns the device buffer
are rejected. -/
theorem overrun_rejected (fl : Bool) (E sz szp i : Nat) (hE : 0 < E)
    (hB : E * sz < 2 ^ 64) (hcb : E * szp < 2 ^ 64) (hi : i < sz)
    (hover : ¬ (i / szp * szp + szp ≤ sz)) :
    transferAccepted fl E sz (byteOffset E (i / szp) szp) (byteCount E szp) = false := by
  cases hacc : transferAccepted fl E sz (byteOffset E (i / szp) szp) (byteCount E szp) with
  | false => rfl
  | true =>
    exfalso
    rw [transferAccepted_iff, bufferBytes_eq _ _ hB] at hacc
    obtain ⟨_, hle⟩ := hacc
    have h1 : i / szp * szp ≤ i := Nat.div_mul_le_self i szp
    have h2 : E * (i / szp * szp) ≤ E * sz := Nat.mul_le_mul_left E (by omega)
    have e1 : byteOffset E (i / szp) szp = E * (i / szp * szp) := by
      unfold byteOffset
      rw [mulU64_mulU64, Nat.mul_assoc]
      exact Nat.mod_eq_of_lt (by omega)
    have e2 : byteCount E szp = E * szp := by
      unfold byteCount mulU64
      exact Nat.mod_eq_of_lt hcb
    rw [e1, e2, ← Nat.mul_add] at hle
    exact hover (Nat.le_of_mul_le_mul_left hle hE)

theorem last_page_rejected (sz szp i : Nat) (hszp : 0 < szp)
    (hlast : i / szp = sz / szp) : ¬ (i / szp * szp + szp ≤ sz) := by
  have hm := div_mul_add_mod sz szp
  have hlt := Nat.mod_lt sz hszp
  rw [hlast]
  omega

theorem step_miss_gpu [Inhabited T] [ElemLayout T] (f : ClFaults) (va : VirtualArray T) (op : Op T)
    (h : (va.cpu (op.index / va.szp % va.nump)).targetGpuPage ≠ some (op.index / va.szp)) :
    (va.step f op).gpu = (va.miss getMsgs f (op.index / va.szp)).1.gpu := by
  have hh : ¬ va.hit (op.index / va.szp) = true := fun hc => h ((hit_iff va _).mp hc)
  cases hw : op.isWrite
  · rw [step_read f va op hw]
    unfold afterRead
    rw [if_neg hh]
    rfl
  · rw [step_write f va op hw]
    unfold afterWrite
    simp only [if_neg hh]
    rfl

theorem step_miss_read_arr [Inhabited T] [ElemLayout T] (f : ClFaults) (va : VirtualArray T)
    (op : Op T)
    (h : (va.cpu (op.index / va.szp % va.nump)).targetGpuPage ≠ some (op.index / va.szp))
    (hw : op.isWrite = false) :
    ((va.step f op).cpu (op.index / va.szp % va.nump)).arr =
      ((va.miss getMsgs f (op.index / va.szp)).1.cpu (op.index / va.szp % va.nump)).arr := by
  have hh : ¬ va.hit (op.index / va.szp) = true := fun hc => h ((hit_iff va _).mp hc)
  rw [step_read f va op hw]
  unfold afterRead
  rw [if_neg hh]
  simp only [setSlot, Function.update_same, Page.reset]

theorem get_miss [ElemLayout T] (f : ClFaults) (va : VirtualArray T) (i : Nat)
    (h : (va.cpu (i / va.szp % va.nump)).targetGpuPage ≠ some (i / va.szp)) :
    (va.get f i).val = ((va.miss getMsgs f (i / va.szp)).1.cpu (i / va.szp % va.nump)).arr
        (subU64 i (mulU64 (i / va.szp) va.szp)) ∧
      (va.get f i).log = (va.miss getMsgs f (i / va.szp)).2 := by
  simp only [VirtualArray.get, Page.getTargetGpuPage, h, if_false, Page.get, Page.reset,
    and_self]

end VirtualArray

/-! ### When the transfers succeed

For an array whose size is a multiple of the page size, calls with in-range indices
under a runtime without faults have successful transfers, in every state reached by
such calls. -/

namespace VirtualArray

variable {T : Type}

theorem in_range_fits (sz szp i : Nat) (hdvd : szp ∣ sz) (hi : i < sz) :
    i / szp * szp + szp ≤ sz := by
  obtain ⟨c, rfl⟩ := hdvd
  have h1 : i / szp < c := Nat.div_lt_of_lt_mul hi
  have h2 : (i / szp + 1) * szp ≤ c * szp := Nat.mul_le_mul_right szp h1
  rw [Nat.succ_mul] at h2
  rw [Nat.mul_comm szp c]
  exact h2

theorem transfersOk_of_fits [ElemLayout T] (va : VirtualArray T) (i : Nat) (hszp : 0 < va.szp)
    (hB : ElemLayout.bytes T * va.sz < 2 ^ 64)
    (hf : va.Fits) (he : va.EditedResident) (hi : i / va.szp * va.szp + va.szp ≤ va.sz) :
    va.transfersOk ClFaults.ok i = true := by
  unfold transfersOk missOk
  simp only [Bool.or_eq_true, Bool.and_eq_true, Bool.not_eq_true']
  right
  refine ⟨⟨⟨by simpa using hB, ?_⟩, ?_, ?_⟩, rfl⟩
  · by_cases hed : (va.cpu (i / va.szp % va.nump)).edited = true
    · right
      obtain ⟨q, hq⟩ := Option.ne_none_iff_exists'.mp (he _ hed)
      simp only [Page.getTargetGpuPage, hq, ClFaults.ok,
        writeBuffer_ok va.sz va.szp q va.gpu _ hszp hB (hf _ q hq), Option.all_some,
        pageInBuffer, decide_eq_true_eq, true_and]
      exact hf _ q hq
    · left
      simpa [Page.isEdited] using hed
  · simp only [ClFaults.ok, readBuffer_ok va.sz va.szp _ va.gpu _ hB hi]
  · simpa [pageInBuffer] using hi

theorem step_fits [Inhabited T] [ElemLayout T] (f : ClFaults) (va : VirtualArray T) (op : Op T)
    (hf : va.Fits) (hi : op.index / va.szp * va.szp + va.szp ≤ va.sz) :
    (va.step f op).Fits := by
  intro s q hq
  rw [step_szp, step_sz]
  by_cases hs : s = op.index / va.szp % va.nump
  · subst hs
    rw [step_target] at hq
    injection hq with hq
    rw [← hq]; exact hi
  · rw [step_cpu_other f va op s hs] at hq
    exact hf s q hq

theorem step_editedResident [Inhabited T] [ElemLayout T] (f : ClFaults) (va : VirtualArray T)
    (op : Op T)
    (he : va.EditedResident) : (va.step f op).EditedResident := by
  intro s hs
  by_cases hS : s = op.index / va.szp % va.nump
  · subst hS
    rw [step_target]
    exact Option.some_ne_none _
  · rw [step_cpu_other f va op s hS] at hs ⊢
    exact he s hs

theorem runOk_of_inRange [Inhabited T] [ElemLayout T] (cs : List (ClFaults × Op T)) :
    ∀ (va : VirtualArray T), 0 < va.szp → va.szp ∣ va.sz →
      ElemLayout.bytes T * va.sz < 2 ^ 64 → va.Fits → va.EditedResident →
      (∀ c ∈ cs, c.1 = ClFaults.ok ∧ c.2.WellFormed va.szp ∧ c.2.index < va.sz) →
      va.runOk cs := by
  induction cs with
  | nil => intro _ _ _ _ _ _ _; trivial
  | cons c cs ih =>
    intro va hszp hdvd hB hf he hall
    obtain ⟨hc1, hc2, hc3⟩ := hall c (List.mem_cons_self _ _)
    have hfit := in_range_fits va.sz va.szp c.2.index hdvd hc3
    refine ⟨hc2, ?_, ?_⟩
    · rw [hc1]; exact transfersOk_of_fits va c.2.index hszp hB hf he hfit
    · apply ih
      · rw [step_szp]; exact hszp
      · rw [step_szp, step_sz]; exact hdvd
      · rw [step_sz]; exact hB
      · exact step_fits c.1 va c.2 hf hfit
      · exact step_editedResident c.1 va c.2 he
      · intro d hd
        rw [step_szp, step_sz]
        exact hall d (List.mem_cons_of_mem _ hd)

theorem init_runOk_of_inRange [Inhabited T] [ElemLayout T] (sizeP sizePageP numActivePageP : Nat)
    (dev0 : Nat → T) (host0 : Nat → Nat → T) (cs : List (ClFaults × Op T))
    (hszp : 0 < sizePageP) (hdvd : sizePageP ∣ sizeP)
    (hB : ElemLayout.bytes T * sizeP < 2 ^ 64)
    (hall : ∀ c ∈ cs, c.1 = ClFaults.ok ∧ c.2.WellFormed sizePageP ∧ c.2.index < sizeP) :
    (init sizeP sizePageP numActivePageP dev0 host0).runOk cs := by
  apply runOk_of_inRange cs _ hszp hdvd hB
  · intro s q hq; simp [init, Page.fresh] at hq
  · intro s hs; simp [init, Page.fresh] at hs
  · exact hall

/-- A range read returns the logical contents of the range. -/
theorem getN_logical [Inhabited T] [ElemLayout T] {va : VirtualArray T} (h : va.ReachableOk)
    (f : ClFaults) (i n : Nat) (hwf : (Op.getN i n : Op T).WellFormed va.szp)
    (hok : va.transfersOk f i = true) :
    (va.getN f i n).val = (List.range n).map (fun k => va.logical (i + k)) := by
  obtain ⟨h1, h2, h3, h4⟩ := h.sound
  obtain ⟨hi, hr⟩ := hwf
  simp only [Op.index, Op.count] at hi hr
  rw [getN_val_slot, subU64_mulU64_div i va.szp hi]
  apply List.map_congr_left
  intro k hk
  have hk' := List.mem_range.mp hk
  obtain ⟨e1, e2⟩ := same_page va.szp i k (by omega)
  have hl := step_logical f va (Op.getN i n) (i + k) h1 h2 h3 (h4 (i + k)) ⟨hi, hr⟩ hok
  simp only [Op.written, Option.getD_none] at hl
  rw [← hl, logical_def]
  simp only [step, getN_va, afterRead_szp, afterRead_nump, e1, e2, afterRead_target, if_true]

end VirtualArray

/-! ## The claims -/

open VirtualArray

/-- C1 (round trip): whatever the state of the engine (the page of `i` resident, its slot
empty, or its slot holding another page, clean or edited) and whatever the transfers
do, `set(i, v)` immediately followed by `get(i)` returns `v`. -/
theorem C1_set_get_round_trip {T : Type} [ElemLayout T] (f f' : ClFaults) (va : VirtualArray T)
    (i : Nat) (v : T) : ((va.set f i v).va.get f' i).val = v := by
  have ht : (((va.set f i v).va).cpu (i / va.szp % va.nump)).targetGpuPage =
      some (i / va.szp) := by
    rw [set_va]; exact afterWrite_target _ _ _ _
  have hszp : (va.set f i v).va.szp = va.szp := by rw [set_va]; exact afterWrite_szp _ _ _ _
  have hnump : (va.set f i v).va.nump = va.nump := by
    rw [set_va]; exact afterWrite_nump _ _ _ _
  have hv : (((va.set f i v).va).cpu (i / va.szp % va.nump)).arr
      (subU64 i (mulU64 (i / va.szp) va.szp)) = v := by
    rw [set_va]
    unfold afterWrite
    simp only [setSlot, Function.update_same, Page.markAsEdited, Page.patch, if_true,
      Option.getD_some]
  unfold VirtualArray.get
  simp only [hszp, hnump, Page.getTargetGpuPage, ht, if_true, Page.get, hv]

/-- C5 (placement invariant): in every state reachable from construction by the six
access functions, a slot `s` that holds a page `p` has `p mod nump = s`; so two pages
that map to the same slot and are both resident are the same page. -/
theorem C5_placement_invariant {T : Type} [Inhabited T] [ElemLayout T] (va : VirtualArray T)
    (h : va.Reachable) :
    (∀ s p, s < va.nump → (va.cpu s).targetGpuPage = some p → p % va.nump = s) ∧
    (∀ s1 s2 p1 p2, s1 < va.nump → s2 < va.nump →
      (va.cpu s1).targetGpuPage = some p1 → (va.cpu s2).targetGpuPage = some p2 →
      p1 % va.nump = p2 % va.nump → p1 = p2) := by
  have hpl := h.placed
  refine ⟨hpl, ?_⟩
  intro s1 s2 p1 p2 hs1 hs2 h1 h2 hmod
  have e1 := hpl s1 p1 hs1 h1
  have e2 := hpl s2 p2 hs2 h2
  have hs : s1 = s2 := by rw [← e1, ← e2, hmod]
  subst hs
  rw [h1] at h2
  injection h2

/-- Witness of C5: the state of scenario A after `set(250, 7)` and `get(650)`. -/
theorem C5_placement_invariant_witness :
    ((scenarioA.step ClFaults.ok (Op.set 250 7)).step ClFaults.ok (Op.get 650)).Reachable ∧
    ((∀ s p, s < ((scenarioA.step ClFaults.ok (Op.set 250 7)).step ClFaults.ok
        (Op.get 650)).nump →
      (((scenarioA.step ClFaults.ok (Op.set 250 7)).step ClFaults.ok (Op.get 650)).cpu
        s).targetGpuPage = some p →
      p % ((scenarioA.step ClFaults.ok (Op.set 250 7)).step ClFaults.ok (Op.get 650)).nump
        = s) ∧
    (∀ s1 s2 p1 p2,
      s1 < ((scenarioA.step ClFaults.ok (Op.set 250 7)).step ClFaults.ok (Op.get 650)).nump →
      s2 < ((scenarioA.step ClFaults.ok (Op.set 250 7)).step ClFaults.ok (Op.get 650)).nump →
      (((scenarioA.step ClFaults.ok (Op.set 250 7)).step ClFaults.ok (Op.get 650)).cpu
        s1).targetGpuPage = some p1 →
      (((scenarioA.step ClFaults.ok (Op.set 250 7)).step ClFaults.ok (Op.get 650)).cpu
        s2).targetGpuPage = some p2 →
      p1 % ((scenarioA.step ClFaults.ok (Op.set 250 7)).step ClFaults.ok (Op.get 650)).nump =
        p2 % ((scenarioA.step ClFaults.ok (Op.set 250 7)).step ClFaults.ok (Op.get 650)).nump →
      p1 = p2)) :=
  ⟨Reachable.step _ _ _ (Reachable.step _ _ _
      (Reachable.init 10000 100 4 _ _ (by decide) (by decide))),
   C5_placement_invariant
    ((scenarioA.step ClFaults.ok (Op.set 250 7)).step ClFaults.ok (Op.get 650))
    (Reachable.step _ _ _ (Reachable.step _ _ _
      (Reachable.init 10000 100 4 _ _ (by decide) (by decide))))⟩

/-- C6 (residency postcondition): after any of the six access functions is called with
index `i`, hit or miss and whatever the transfers do, slot `(i / szp) mod nump` holds page
`i / szp`; every other page that maps to that slot is not resident. -/
theorem C6_residency_postcondition {T : Type} [Inhabited T] [ElemLayout T] (f : ClFaults)
    (va : VirtualArray T) (op : Op T) :
    ((va.step f op).cpu (op.index / va.szp % va.nump)).targetGpuPage =
      some (op.index / va.szp) ∧
    ∀ p1, p1 ≠ op.index / va.szp → p1 % va.nump = op.index / va.szp % va.nump →
      ((va.step f op).cpu (p1 % va.nump)).targetGpuPage ≠ some p1 := by
  refine ⟨step_target f va op, ?_⟩
  intro p1 hne hmod hc
  rw [hmod, step_target] at hc
  injection hc with hc
  exact hne hc.symm

/-- C7 (address translation): for a `size_t` index and positive `szp` and `nump`, the
triple `page = index / szp`, `slot = page mod nump`, `offset = index - page * szp`, the
last computed in unsigned 64-bit arithmetic, satisfies `slot < nump`, `offset < szp`,
`offset = index mod szp` and `page * szp + offset = index`; the product does not exceed
the index, so neither it nor the subtraction wraps.  Every one of the six access
functions works with this triple: it leaves all slots but `slot` alone, leaves `page`
resident in `slot`, and reads or writes the slot buffer from `offset` on. -/
theorem C7_address_translation {T : Type} [Inhabited T] [ElemLayout T] (f : ClFaults)
    (va : VirtualArray T) (index : Nat) (hi : index < 2 ^ 64) (hszp : 0 < va.szp)
    (hn : 0 < va.nump) :
    index / va.szp % va.nump < va.nump ∧
    subU64 index (mulU64 (index / va.szp) va.szp) < va.szp ∧
    subU64 index (mulU64 (index / va.szp) va.szp) = index % va.szp ∧
    index / va.szp * va.szp + subU64 index (mulU64 (index / va.szp) va.szp) = index ∧
    index / va.szp * va.szp ≤ index ∧
    mulU64 (index / va.szp) va.szp = index / va.szp * va.szp ∧
    subU64 index (mulU64 (index / va.szp) va.szp) = index - index / va.szp * va.szp ∧
    (∀ op : Op T, op.index = index →
      (∀ s, s ≠ index / va.szp % va.nump → (va.step f op).cpu s = va.cpu s) ∧
      ((va.step f op).cpu (index / va.szp % va.nump)).targetGpuPage =
        some (index / va.szp)) ∧
    (va.get f index).val =
      ((va.get f index).va.cpu (index / va.szp % va.nump)).arr (index % va.szp) ∧
    (∀ n, (va.getN f index n).val = (List.range n).map (fun k =>
      ((va.getN f index n).va.cpu (index / va.szp % va.nump)).arr (index % va.szp + k))) ∧
    (∀ r, (va.copyToBuffer f index r).val = (List.range r).map (fun k =>
      ((va.copyToBuffer f index r).va.cpu (index / va.szp % va.nump)).arr
        (index % va.szp + k))) ∧
    (∀ v, ((va.set f index v).va.cpu (index / va.szp % va.nump)).arr (index % va.szp) = v) ∧
    (∀ val valIndex n k, k < n →
      ((va.setN f index val valIndex n).va.cpu (index / va.szp % va.nump)).arr
        (index % va.szp + k) = val.getD (valIndex + k) default) ∧
    (∀ r src k, k < r →
      ((va.copyFromBuffer f index r src).va.cpu (index / va.szp % va.nump)).arr
        (index % va.szp + k) = src.getD k default) := by
  have hoff := subU64_mulU64_div index va.szp hi
  have hle : index / va.szp * va.szp ≤ index := Nat.div_mul_le_self index va.szp
  have hm := div_mul_add_mod index va.szp
  refine ⟨Nat.mod_lt _ hn, ?_, hoff, ?_, hle, ?_, ?_, ?_, ?_, ?_, ?_, ?_, ?_, ?_⟩
  · rw [hoff]; exact Nat.mod_lt _ hszp
  · rw [hoff]; exact hm
  · exact Nat.mod_eq_of_lt (by omega)
  · rw [hoff]; omega
  · intro op hop
    subst hop
    exact ⟨fun s hs => step_cpu_other f va op s hs, step_target f va op⟩
  · rw [← hoff]; exact get_val_slot f va index
  · intro n; rw [← hoff]; exact getN_val_slot f va index n
  · intro r; rw [← hoff]; exact copyToBuffer_val_slot f va index r
  · intro v
    rw [← hoff, set_va]
    exact afterWrite_arr f va _ _ _ v (if_pos rfl)
  · intro val valIndex n k hk
    rw [← hoff, setN_va]
    apply afterWrite_arr
    simp only [Op.patchOf]
    rw [if_pos ⟨Nat.le_add_right _ _, Nat.add_lt_add_left hk _⟩, Nat.add_sub_cancel_left]
  · intro r src k hk
    rw [← hoff, copyFromBuffer_va]
    apply afterWrite_arr
    simp only [Op.patchOf]
    rw [if_pos ⟨Nat.le_add_right _ _, Nat.add_lt_add_left hk _⟩, Nat.add_sub_cancel_left]

/-- Witness of C7: index 250 in scenario A lies on page 2, in slot 2, at offset 50. -/
theorem C7_address_translation_witness :
    (250 < 2 ^ 64 ∧ 0 < scenarioA.szp ∧ 0 < scenarioA.nump) ∧
    250 / scenarioA.szp % scenarioA.nump < scenarioA.nump ∧
    subU64 250 (mulU64 (250 / scenarioA.szp) scenarioA.szp) < scenarioA.szp ∧
    subU64 250 (mulU64 (250 / scenarioA.szp) scenarioA.szp) = 250 % scenarioA.szp :=
  ⟨⟨by decide, by decide, by decide⟩,
   (C7_address_translation ClFaults.ok scenarioA 250 (by decide) (by decide) (by decide)).1,
   (C7_address_translation ClFaults.ok scenarioA 250 (by decide) (by decide) (by decide)).2.1,
   (C7_address_translation ClFaults.ok scenarioA 250 (by decide) (by decide)
    (by decide)).2.2.1⟩

/-- C2 (eviction correctness): in a state reached with successful transfers, after a
call `w` has written to page `p`, any sequence of calls to other pages (among them pages
of the same slot, which evict `p`) whose transfers succeed, followed by a read of an
index `j` of page `p`, returns the content page `p` had right after `w`, in particular
the value `w` wrote at `j`; the same holds for a range read (`getN`, `copyToBuffer`)
inside page `p`. -/
theorem C2_eviction_correctness {T : Type} [Inhabited T] [ElemLayout T] (va : VirtualArray T)
    (hreach : va.ReachableOk) (f : ClFaults) (w : Op T) (hwf : w.WellFormed va.szp)
    (hok : va.transfersOk f w.index = true) (others : List (ClFaults × Op T))
    (hothers : ∀ c ∈ others, c.2.index / va.szp ≠ w.index / va.szp)
    (hrun : (va.step f w).runOk others) (f' : ClFaults) (j : Nat)
    (hj : j / va.szp = w.index / va.szp) (hj64 : j < 2 ^ 64)
    (hok' : ((va.step f w).run others).transfersOk f' j = true) :
    (((va.step f w).run others).get f' j).val = (va.step f w).logical j ∧
    (∀ v, w.written j = some v → (((va.step f w).run others).get f' j).val = v) ∧
    (∀ n, j % va.szp + n ≤ va.szp →
      (((va.step f w).run others).getN f' j n).val =
        (List.range n).map (fun k => (va.step f w).logical (j + k)) ∧
      (((va.step f w).run others).copyToBuffer f' j n).val =
        (List.range n).map (fun k => (va.step f w).logical (j + k))) := by
  obtain ⟨h1, h2, h3, h4⟩ := hreach.sound
  have hstep := ReachableOk.step f va w hreach hwf hok
  have hfinal := hstep.run others hrun
  have hval := get_logical hfinal f' j hj64 hok'
  have hwfs : ∀ (x : VirtualArray T) (cs : List (ClFaults × Op T)), x.runOk cs →
      ∀ c ∈ cs, c.2.WellFormed x.szp := by
    intro x cs
    induction cs generalizing x with
    | nil => intro _ c hc; cases hc
    | cons d ds ih =>
      intro hx c hc
      rcases List.mem_cons.mp hc with rfl | hc
      · exact hx.1
      · have := ih (x.step d.1 d.2) hx.2.2 c hc
        rwa [step_szp] at this
  have hszpf : ∀ cs : List (ClFaults × Op T), ((va.step f w).run cs).szp = va.szp := by
    intro cs
    have : ∀ (x : VirtualArray T), (x.run cs).szp = x.szp := by
      induction cs with
      | nil => intro x; rfl
      | cons d ds ih => intro x; show ((x.step d.1 d.2).run ds).szp = _; rw [ih, step_szp]
    rw [this, step_szp]
  have hlog : ∀ j', j' / va.szp = w.index / va.szp →
      ((va.step f w).run others).logical j' = (va.step f w).logical j' := by
    intro j' hj'
    rw [run_logical hstep others hrun j']
    apply replay_of_not_written
    intro op hop
    obtain ⟨c, hc, rfl⟩ := List.mem_map.mp hop
    have hcwf : c.2.WellFormed va.szp := by
      have := hwfs (va.step f w) others hrun c hc
      rwa [step_szp] at this
    cases hv : c.2.written j' with
    | none => rfl
    | some v =>
      exact absurd (hj' ▸ (written_page va.szp c.2 j' v h1 hcwf hv).symm) (hothers c hc)
  refine ⟨by rw [hval, hlog j hj], ?_, ?_⟩
  · intro v hv
    rw [hval, hlog j hj, step_logical f va w j h1 h2 h3 (h4 j) hwf hok, hv]
    rfl
  · intro n hn
    have hgn := getN_logical hfinal f' j n
      ⟨hj64, by simp only [Op.index, Op.count]; rw [hszpf]; exact hn⟩ hok'
    have hmap : (List.range n).map (fun k => ((va.step f w).run others).logical (j + k)) =
        (List.range n).map (fun k => (va.step f w).logical (j + k)) := by
      apply List.map_congr_left
      intro k hk
      have hk' := List.mem_range.mp hk
      apply hlog
      rw [(same_page va.szp j k (by omega)).1, hj]
    refine ⟨by rw [hgn, hmap], ?_⟩
    rw [(copyToBuffer_eq_getN f' _ j n).1, hgn, hmap]

/-- Witness of C2, scenario A: `set(250, 7)`, then `get(650)` on page 6, which evicts page
2 from slot 2, then `get(250)` returns 7. -/
theorem C2_eviction_correctness_witness :
    (((scenarioA.step ClFaults.ok (Op.set 250 7)).run [(ClFaults.ok, Op.get 650)]).get
      ClFaults.ok 250).val = 7 :=
  (C2_eviction_correctness scenarioA (ReachableOk.init 10000 100 4 _ _ (by decide) (by decide))
    ClFaults.ok (Op.set 250 7) (by decide) (by decide) [(ClFaults.ok, Op.get 650)]
    (by intro c hc; rw [List.mem_singleton] at hc; subst hc; decide)
    ⟨by decide, by decide, trivial⟩ ClFaults.ok 250 (by decide) (by decide) (by decide)).2.1 7
    (by decide)

/-- C4 (single source of truth): in the state `va` reached from construction by a run of
calls within the caller contract whose transfers all succeed, every slot that holds a
page and is not edited has the device elements of that page in its buffer; hence the
most recent data of every index `j` (what the same calls leave at `j` in a plain array
that starts as the device contents) is in the slot buffer when the page of `j` is
resident and its slot is edited, and in the device buffer otherwise. -/
theorem C4_single_source_of_truth {T : Type} [Inhabited T] [ElemLayout T]
    (sizeP sizePageP numActivePageP : Nat) (dev0 : Nat → T) (host0 : Nat → Nat → T)
    (cs : List (ClFaults × Op T)) (va : VirtualArray T) (hszp : 0 < sizePageP)
    (hn : 0 < numActivePageP)
    (hok : (init sizeP sizePageP numActivePageP dev0 host0).runOk cs)
    (hva : va = (init sizeP sizePageP numActivePageP dev0 host0).run cs) :
    (∀ s p, s < va.nump → (va.cpu s).targetGpuPage = some p → (va.cpu s).edited = false →
      ∀ o, o < va.szp → (va.cpu s).arr o = va.gpu (p * va.szp + o)) ∧
    ∀ j, replay dev0 (cs.map Prod.snd) j =
      if (va.cpu (j / va.szp % va.nump)).targetGpuPage = some (j / va.szp) ∧
          (va.cpu (j / va.szp % va.nump)).edited = true then
        (va.cpu (j / va.szp % va.nump)).arr (j % va.szp)
      else va.gpu j := by
  have hinit := ReachableOk.init sizeP sizePageP numActivePageP dev0 host0 hszp hn
  have hreach : va.ReachableOk := by rw [hva]; exact hinit.run cs hok
  obtain ⟨_, _, h3, h4⟩ := hreach.sound
  refine ⟨coherent_of_coherentAt va h3 h4, ?_⟩
  intro j
  have hl := run_logical hinit cs hok j
  rw [← hva] at hl
  have hrep : replay dev0 (cs.map Prod.snd) j = va.logical j := by
    rw [hl]
    apply replay_congr
    exact (init_logical _ _ _ _ _ j).symm
  rw [hrep, logical_def]
  by_cases ht : (va.cpu (j / va.szp % va.nump)).targetGpuPage = some (j / va.szp)
  · by_cases he : (va.cpu (j / va.szp % va.nump)).edited = true
    · rw [if_pos ht, if_pos ⟨ht, he⟩]
    · rw [if_pos ht, if_neg (fun hc => he hc.2)]
      exact h4 j ht (by simpa using he)
  · rw [if_neg ht, if_neg (fun hc => ht hc.1)]

/-- Witness of C4: scenario A after `set(250, 7)` and `get(650)`; the 7 has reached the
device and slot 2 mirrors page 6. -/
theorem C4_single_source_of_truth_witness :
    (scenarioA.run [(ClFaults.ok, Op.set 250 7), (ClFaults.ok, Op.get 650)]).gpu 250 = 7 ∧
    ((scenarioA.run [(ClFaults.ok, Op.set 250 7), (ClFaults.ok, Op.get 650)]).cpu
      2).targetGpuPage = some 6 ∧
    ∀ o, o < (scenarioA.run [(ClFaults.ok, Op.set 250 7), (ClFaults.ok, Op.get 650)]).szp →
      ((scenarioA.run [(ClFaults.ok, Op.set 250 7), (ClFaults.ok, Op.get 650)]).cpu 2).arr o =
      (scenarioA.run [(ClFaults.ok, Op.set 250 7), (ClFaults.ok, Op.get 650)]).gpu
        (6 * (scenarioA.run [(ClFaults.ok, Op.set 250 7), (ClFaults.ok, Op.get 650)]).szp
          + o) :=
  ⟨by decide, by decide,
   (C4_single_source_of_truth 10000 100 4 (fun _ => 0) (fun _ _ => 0)
      [(ClFaults.ok, Op.set 250 7), (ClFaults.ok, Op.get 650)] _ (by decide) (by decide)
      ⟨by decide, by decide, by decide, by decide, trivial⟩ rfl).1 2 6 (by decide) (by decide)
      (by decide)⟩

/-- C9 (idempotent re-read): in a state reached with successful transfers, two calls
`get(i)` separated only by read calls (`get`, `getN`, `copyToBuffer`, also ones that
evict the page of `i`) whose transfers succeed return the same value; and reads never
change the value any index reads as. -/
theorem C9_idempotent_re_read {T : Type} [Inhabited T] [ElemLayout T] (va : VirtualArray T)
    (hreach : va.ReachableOk) (i : Nat) (hi : i < 2 ^ 64) (f1 f2 : ClFaults)
    (reads : List (ClFaults × Op T)) (hreads : ∀ c ∈ reads, c.2.isWrite = false)
    (h1 : va.transfersOk f1 i = true) (hrun : (va.get f1 i).va.runOk reads)
    (h2 : ((va.get f1 i).va.run reads).transfersOk f2 i = true) :
    (((va.get f1 i).va.run reads).get f2 i).val = (va.get f1 i).val ∧
    ∀ j, j < 2 ^ 64 → ∀ fa fb, va.transfersOk fa j = true →
      ((va.get f1 i).va.run reads).transfersOk fb j = true →
      (((va.get f1 i).va.run reads).get fb j).val = (va.get fa j).val := by
  obtain ⟨hszp, hn, hpl, hco⟩ := hreach.sound
  have hwf : (Op.get i : Op T).WellFormed va.szp := by
    refine ⟨hi, ?_⟩
    have := Nat.mod_lt i hszp
    simp only [Op.index, Op.count]
    omega
  have hstep : (va.get f1 i).va.ReachableOk := ReachableOk.step f1 va (Op.get i) hreach hwf h1
  have hfinal := hstep.run reads hrun
  have hlog : ∀ j, ((va.get f1 i).va.run reads).logical j = va.logical j := by
    intro j
    rw [runOk_reads_logical hstep reads hreads hrun j]
    have := step_logical f1 va (Op.get i) j hszp hn hpl (hco j) hwf h1
    simpa [step, Op.written] using this
  refine ⟨?_, ?_⟩
  · rw [get_logical hfinal f2 i hi h2, hlog, get_logical hreach f1 i hi h1]
  · intro j hj fa fb ha hb
    rw [get_logical hfinal fb j hj hb, hlog, get_logical hreach fa j hj ha]

/-- Witness of C9, scenario A after `set(250, 7)`: `get(250)`, then the reads `get(650)`
and `getN(1050, 3)`, which evict page 2 and then page 6 from slot 2, then `get(250)`
again. -/
theorem C9_idempotent_re_read_witness :
    ((((scenarioA.step ClFaults.ok (Op.set 250 7)).get ClFaults.ok 250).va.run
      [(ClFaults.ok, Op.get 650), (ClFaults.ok, Op.getN 1050 3)]).get ClFaults.ok 250).val =
    ((scenarioA.step ClFaults.ok (Op.set 250 7)).get ClFaults.ok 250).val :=
  (C9_idempotent_re_read (scenarioA.step ClFaults.ok (Op.set 250 7))
    (ReachableOk.step _ _ _ (ReachableOk.init 10000 100 4 _ _ (by decide) (by decide))
      (by decide) (by decide))
    250 (by decide) ClFaults.ok ClFaults.ok
    [(ClFaults.ok, Op.get 650), (ClFaults.ok, Op.getN 1050 3)]
    (by intro c hc; simp only [List.mem_cons, List.mem_singleton, List.not_mem_nil,
          or_false] at hc; rcases hc with rfl | rfl <;> rfl)
    (by decide) ⟨by decide, by decide, by decide, by decide, trivial⟩ (by decide)).1

/-- C3 (write-back before read-in): when any of the six access functions misses on an
edited slot that holds page `q` and the transfers succeed, then after the call the
device elements of page `q` are the slot buffer as it was before the call, the device
elements of the requested page are as before, and the slot buffer is the device data of
the requested page (with the values the call itself writes on top). -/
theorem C3_write_back_before_read_in {T : Type} [Inhabited T] [ElemLayout T] (f : ClFaults)
    (va : VirtualArray T) (op : Op T) (q : Nat) (hszp : 0 < va.szp)
    (hi : op.index < 2 ^ 64)
    (hq : (va.cpu (op.index / va.szp % va.nump)).targetGpuPage = some q)
    (hne : q ≠ op.index / va.szp)
    (hed : (va.cpu (op.index / va.szp % va.nump)).edited = true)
    (hok : va.transfersOk f op.index = true) :
    (∀ o, o < va.szp →
      (va.step f op).gpu (q * va.szp + o) = (va.cpu (op.index / va.szp % va.nump)).arr o) ∧
    (∀ o, o < va.szp →
      (va.step f op).gpu (op.index / va.szp * va.szp + o) =
        va.gpu (op.index / va.szp * va.szp + o)) ∧
    (∀ o, o < va.szp →
      ((va.step f op).cpu (op.index / va.szp % va.nump)).arr o =
        (op.written (op.index / va.szp * va.szp + o)).getD
          ((va.step f op).gpu (op.index / va.szp * va.szp + o))) := by
  unfold transfersOk at hok
  have hmiss : (va.cpu (op.index / va.szp % va.nump)).targetGpuPage ≠
      some (op.index / va.szp) := by
    rw [hq]; intro hc; injection hc with hc; exact hne hc
  have hh : ¬ va.hit (op.index / va.szp) = true := fun hc => hmiss ((hit_iff va _).mp hc)
  have hgq : ∀ o, o < va.szp → va.flushed (op.index / va.szp % va.nump) (q * va.szp + o) =
      (va.cpu (op.index / va.szp % va.nump)).arr o := by
    intro o ho
    rw [flushed_of_edited _ _ _ hed (by rw [page_add_div va.szp q o ho]; exact hq),
      page_add_mod va.szp q o ho]
  have hgp : ∀ o, o < va.szp →
      va.flushed (op.index / va.szp % va.nump) (op.index / va.szp * va.szp + o) =
        va.gpu (op.index / va.szp * va.szp + o) := by
    intro o ho
    rw [flushed_of_ne _ _ _ (by rw [page_add_div va.szp _ o ho]; exact hmiss)]
  cases hw : op.isWrite
  · rw [step_read f va op hw, afterRead_eq f va _ hszp hok, if_neg hh]
    simp only [setSlot, loaded_gpu, Function.update_same, loaded_cpu_same]
    refine ⟨hgq, hgp, ?_⟩
    intro o ho
    rw [if_pos ho, written_isWrite op _ hw]
    rfl
  · rw [step_write f va op hw, afterWrite_eq f va _ _ hszp hok]
    simp only [if_neg hh, setSlot, loaded_gpu, Function.update_same, loaded_cpu_same,
      Page.markAsEdited, Page.patch]
    refine ⟨hgq, hgp, ?_⟩
    intro o ho
    rw [if_pos ho, patchOf_eq_written va.szp op o hi]

/-- Witness of C3, scenario A after `set(250, 7)`: `get(650)` misses on slot 2, which is
edited and holds page 2. -/
theorem C3_write_back_before_read_in_witness :
    ((scenarioA.step ClFaults.ok (Op.set 250 7)).step ClFaults.ok (Op.get 650)).gpu
      (2 * (scenarioA.step ClFaults.ok (Op.set 250 7)).szp + 50) =
    ((scenarioA.step ClFaults.ok (Op.set 250 7)).cpu
      (650 / (scenarioA.step ClFaults.ok (Op.set 250 7)).szp %
        (scenarioA.step ClFaults.ok (Op.set 250 7)).nump)).arr 50 :=
  (C3_write_back_before_read_in ClFaults.ok (scenarioA.step ClFaults.ok (Op.set 250 7))
    (Op.get 650) 2 (by decide) (by decide) (by decide) (by decide) (by decide)
    (by decide)).1 50 (by decide)

/-- C8 (bulk/raw equivalence): for a range `[i, i + n)` with `n >= 1` that lies inside
one page (and inside a `size_t`-indexed array), `getN(i, n)` and `copyToBuffer(i, n, out)`
produce the sequence of `get(i)`, ..., `get(i+n-1)` and leave the engine in the same
state; `setN(i, val, k, n)` and `copyFromBuffer(i, n, src)` leave the engine in the state
of `set(i, val[k])`, ..., `set(i+n-1, val[k+n-1])` (with `src[0..n-1]` for the latter).
This holds in every state; `f` is the behaviour of the runtime during the bulk call and
during the first element call, `fs` during the `n - 1` later element calls. -/
theorem C8_bulk_raw_equivalence {T : Type} [Inhabited T] [ElemLayout T] (va : VirtualArray T)
    (i : Nat)
    (f : ClFaults) (fs : List ClFaults)
    (hpage : i % va.szp + (fs.length + 1) ≤ va.szp) (hin : i + (fs.length + 1) ≤ 2 ^ 64) :
    (va.getN f i (fs.length + 1)).val = (va.getEach i (f :: fs)).1 ∧
    (va.getN f i (fs.length + 1)).va = (va.getEach i (f :: fs)).2 ∧
    (va.copyToBuffer f i (fs.length + 1)).val = (va.getEach i (f :: fs)).1 ∧
    (va.copyToBuffer f i (fs.length + 1)).va = (va.getEach i (f :: fs)).2 ∧
    (∀ val k, (va.setN f i val k (fs.length + 1)).va = va.setEach i val k (f :: fs)) ∧
    (∀ src, (va.copyFromBuffer f i (fs.length + 1) src).va = va.setEach i src 0 (f :: fs)) := by
  have hg := getN_eq_getEach f fs va i hpage hin
  have hc := copyToBuffer_eq_getN f va i (fs.length + 1)
  have h1 : (va.getN f i (fs.length + 1)).val = (va.getEach i (f :: fs)).1 :=
    congrArg Prod.fst hg
  have h2 : (va.getN f i (fs.length + 1)).va = (va.getEach i (f :: fs)).2 :=
    congrArg Prod.snd hg
  refine ⟨h1, h2, hc.1.trans h1, hc.2.trans h2, ?_, ?_⟩
  · intro val k
    exact setN_eq_setEach f fs va i val k hpage hin
  · intro src
    rw [copyFromBuffer_eq_setN]
    exact setN_eq_setEach f fs va i src 0 hpage hin

/-- Witness of C8, scenario A: three elements from index 250 on. -/
theorem C8_bulk_raw_equivalence_witness :
    (scenarioA.getN ClFaults.ok 250 3).val =
      (scenarioA.getEach 250 [ClFaults.ok, ClFaults.ok, ClFaults.ok]).1 ∧
    (scenarioA.setN ClFaults.ok 250 [4, 5, 6, 7] 1 3).va =
      scenarioA.setEach 250 [4, 5, 6, 7] 1 [ClFaults.ok, ClFaults.ok, ClFaults.ok] :=
  ⟨(C8_bulk_raw_equivalence scenarioA 250 ClFaults.ok [ClFaults.ok, ClFaults.ok]
      (by decide) (by decide)).1,
   (C8_bulk_raw_equivalence scenarioA 250 ClFaults.ok [ClFaults.ok, ClFaults.ok]
      (by decide) (by decide)).2.2.2.2.1 [4, 5, 6, 7] 1⟩

/-- Counterexample to C10: with `size = 250` and pages of 100 elements, `set(210, 7)` on
the partial last page, then `get(10)` on page 0 of the same slot, then `get(210)` returns
0, not 7. -/
theorem C10_counterexample :
    250 % 100 ≠ 0 ∧ 210 < 250 ∧ 210 / 100 = 250 / 100 ∧ 10 < 250 ∧ 10 / 100 ≠ 210 / 100 ∧
    10 / 100 % 2 = 210 / 100 % 2 ∧
    (((partialLast.set ClFaults.ok 210 7).va.get ClFaults.ok 10).va.get ClFaults.ok 210).val
      = 0 ∧
    (((partialLast.set ClFaults.ok 210 7).va.get ClFaults.ok 10).va.get ClFaults.ok 210).val
      ≠ 7 := by
  decide

/-- C10 as amended: the last page of an array whose size is not a multiple of the page
size does not fit the device buffer, so its whole-page transfers are rejected (the byte
sizes of the array and of a page being `size_t` values).  For an in-range index `i` on
that page (`i < size`, `i / szp = size / szp`): after `set(i, v)` and an access to a
different page of the same slot, the device buffer is as it was before that access (the
write-back of `v` is rejected), and `get(i)` reports a failed read-in and returns the
element at the offset of `i` that the access left in the slot buffer.  When that access
is a read of a page inside the array whose read-in the runtime does not fail, this is
the device element of its page at that offset; when it is a read whose read-in fails,
this is `v`. -/
theorem C10_partial_last_page_drops_write {T : Type} [Inhabited T] [ElemLayout T]
    (va : VirtualArray T)
    (f1 f2 f3 : ClFaults) (i : Nat) (v : T) (op : Op T) (hszp : 0 < va.szp)
    (hB : ElemLayout.bytes T * va.sz < 2 ^ 64) (hpage : ElemLayout.bytes T * va.szp < 2 ^ 64)
    (hi : i < va.sz) (hlast : i / va.szp = va.sz / va.szp)
    (hne : op.index / va.szp ≠ i / va.szp)
    (hslot : op.index / va.szp % va.nump = i / va.szp % va.nump) :
    ((va.set f1 i v).va.step f2 op).gpu = (va.set f1 i v).va.gpu ∧
    (((va.set f1 i v).va.step f2 op).get f3 i).val =
      (((va.set f1 i v).va.step f2 op).cpu (i / va.szp % va.nump)).arr (i % va.szp) ∧
    (va.set f1 i v).va.writeBackOk f2 (op.index / va.szp) = false ∧
    ((va.set f1 i v).va.step f2 op).readInOk f3 (i / va.szp) = false ∧
    (((va.set f1 i v).va.step f2 op).get f3 i).log ≠ [] ∧
    (op.isWrite = false → f2.read = false →
      op.index / va.szp * va.szp + va.szp ≤ va.sz →
      (((va.set f1 i v).va.step f2 op).get f3 i).val =
        (va.set f1 i v).va.gpu (op.index / va.szp * va.szp + i % va.szp)) ∧
    (op.isWrite = false → (va.set f1 i v).va.readInOk f2 (op.index / va.szp) = false →
      (((va.set f1 i v).va.step f2 op).get f3 i).val = v) := by
  have hrej : ∀ fl, transferAccepted fl (ElemLayout.bytes T) va.sz
      (byteOffset (ElemLayout.bytes T) (i / va.szp) va.szp)
      (byteCount (ElemLayout.bytes T) va.szp) = false := fun fl =>
    overrun_rejected fl _ va.sz va.szp i ElemLayout.bytes_pos hB hpage hi
      (last_page_rejected va.sz va.szp i hszp hlast)
  have hsz : va.sz < 2 ^ 64 :=
    Nat.lt_of_le_of_lt (Nat.le_mul_of_pos_left va.sz ElemLayout.bytes_pos) hB
  have e1 : (va.set f1 i v).va.szp = va.szp := by rw [set_va]; exact afterWrite_szp _ _ _ _
  have e2 : (va.set f1 i v).va.nump = va.nump := by rw [set_va]; exact afterWrite_nump _ _ _ _
  have e3 : (va.set f1 i v).va.sz = va.sz := by rw [set_va]; exact afterWrite_sz _ _ _ _
  have ht1 : ((va.set f1 i v).va.cpu (i / va.szp % va.nump)).targetGpuPage =
      some (i / va.szp) := by rw [set_va]; exact afterWrite_target _ _ _ _
  have hmiss1 : ((va.set f1 i v).va.cpu (op.index / (va.set f1 i v).va.szp %
      (va.set f1 i v).va.nump)).targetGpuPage ≠ some (op.index / (va.set f1 i v).va.szp) := by
    rw [e1, e2, hslot, ht1]
    intro hc; injection hc with hc; exact hne hc.symm
  have hgpu : ((va.set f1 i v).va.step f2 op).gpu = (va.set f1 i v).va.gpu := by
    rw [step_miss_gpu f2 _ op hmiss1]
    apply miss_write_rejected _ _ _ _ (i / va.szp)
    · rw [e1, e2, hslot]; exact ht1
    · rw [e1, e3]; exact hrej _
  have f1' : ((va.set f1 i v).va.step f2 op).szp = va.szp := by rw [step_szp, e1]
  have f2' : ((va.set f1 i v).va.step f2 op).nump = va.nump := by rw [step_nump, e2]
  have f3' : ((va.set f1 i v).va.step f2 op).sz = va.sz := by rw [step_sz, e3]
  have ht2 : (((va.set f1 i v).va.step f2 op).cpu (i / va.szp % va.nump)).targetGpuPage =
      some (op.index / va.szp) := by
    have := step_target f2 (va.set f1 i v).va op
    rwa [e1, e2, hslot] at this
  have hmiss2 : (((va.set f1 i v).va.step f2 op).cpu
      (i / ((va.set f1 i v).va.step f2 op).szp %
        ((va.set f1 i v).va.step f2 op).nump)).targetGpuPage ≠
      some (i / ((va.set f1 i v).va.step f2 op).szp) := by
    rw [f1', f2', ht2]
    intro hc; injection hc with hc; exact hne hc
  obtain ⟨hval, hlog⟩ := get_miss f3 _ i hmiss2
  have hrd := miss_read_rejected getMsgs f3 ((va.set f1 i v).va.step f2 op)
    (i / ((va.set f1 i v).va.step f2 op).szp) (by rw [f1', f3']; exact hrej _)
  have hval2 : (((va.set f1 i v).va.step f2 op).get f3 i).val =
      (((va.set f1 i v).va.step f2 op).cpu (i / va.szp % va.nump)).arr (i % va.szp) := by
    rw [hval, hrd.1, f1', f2', subU64_mulU64_div i va.szp (by omega)]
  refine ⟨hgpu, hval2, ?_, ?_, ?_, ?_, ?_⟩
  · unfold writeBackOk
    rw [e2, hslot, Page.getTargetGpuPage, ht1, writeBuffer_fst, e1, e3]
    exact hrej _
  · unfold readInOk
    rw [readBuffer_fst, f1', f3']
    exact hrej _
  · rw [hlog]; exact hrd.2
  · intro hw hf hfit
    rw [hval2]
    have harr := step_miss_read_arr f2 _ op hmiss1 hw
    rw [e1, e2, hslot] at harr
    rw [harr]
    have hacc := miss_read_accepted getMsgs f2 (va.set f1 i v).va (op.index / va.szp) hf
      (by rw [e3]; exact hB) (by rw [e1, e3]; exact hfit) (i % va.szp)
      (by rw [e1]; exact Nat.mod_lt _ hszp)
    rw [e1, e2, hslot] at hacc
    rw [hacc, ← hgpu, step_miss_gpu f2 _ op hmiss1, e1]
  · intro hw hr
    rw [hval2]
    have harr := step_miss_read_arr f2 _ op hmiss1 hw
    rw [e1, e2, hslot] at harr
    rw [harr]
    unfold readInOk at hr
    rw [readBuffer_fst] at hr
    have hkeep := (miss_read_rejected getMsgs f2 (va.set f1 i v).va (op.index / va.szp) hr).1
    rw [e2, hslot] at hkeep
    rw [hkeep, set_va]
    apply afterWrite_arr
    rw [subU64_mulU64_div i va.szp (by omega)]
    exact if_pos rfl

/-- Witness of C10 as amended, on the engine of the counterexample: after `set(210, 7)`
and `get(10)`, `get(210)` returns the device element 10; when the read-in of `get(10)`
fails, `get(210)` returns 7. -/
theorem C10_partial_last_page_drops_write_witness :
    (((partialLast.set ClFaults.ok 210 7).va.step ClFaults.ok (Op.get 10)).get
      ClFaults.ok 210).val =
      (partialLast.set ClFaults.ok 210 7).va.gpu
        ((Op.get 10 : Op Nat).index / partialLast.szp * partialLast.szp +
          210 % partialLast.szp) ∧
    (((partialLast.set ClFaults.ok 210 7).va.step
      { write := false, read := true, finish := false } (Op.get 10)).get
        ClFaults.ok 210).val = 7 :=
  ⟨(C10_partial_last_page_drops_write partialLast ClFaults.ok ClFaults.ok ClFaults.ok 210 7
      (Op.get 10) (by decide) (by decide) (by decide) (by decide) (by decide) (by decide)
      (by decide)).2.2.2.2.2.1 rfl rfl (by decide),
   (C10_partial_last_page_drops_write partialLast ClFaults.ok
      { write := false, read := true, finish := false } ClFaults.ok 210 7
      (Op.get 10) (by decide) (by decide) (by decide) (by decide) (by decide) (by decide)
      (by decide)).2.2.2.2.2.2 rfl (by decide)⟩

/-! ## Bookkeeping and frame of a call -/

namespace VirtualArray

variable {T : Type}

theorem miss_gpu_clean [ElemLayout T] (m : Msgs) (f : ClFaults) (va : VirtualArray T) (P : Nat)
    (h : (va.cpu (P % va.nump)).edited = false) : (va.miss m f P).1.gpu = va.gpu := by
  unfold miss
  dsimp only
  rw [if_neg (by simp [Page.isEdited, h])]

/-- The write-back of a page that lies among the elements of an array whose byte size is
a `size_t` changes the device buffer inside the region of that page only. -/
theorem miss_gpu_frame [ElemLayout T] (m : Msgs) (f : ClFaults) (va : VirtualArray T) (P q a : Nat)
    (hq : (va.cpu (P % va.nump)).targetGpuPage = some q)
    (hB : ElemLayout.bytes T * va.sz < 2 ^ 64) (hfit : q * va.szp + va.szp ≤ va.sz)
    (ha : ¬ (q * va.szp ≤ a ∧ a < q * va.szp + va.szp)) :
    (va.miss m f P).1.gpu a = va.gpu a := by
  obtain ⟨e1, e2, _⟩ := page_bytes (ElemLayout.bytes T) va.sz va.szp q hB hfit
  unfold miss
  dsimp only
  split
  · simp only [Page.getTargetGpuPage, hq, clEnqueueWriteBuffer]
    split
    · rw [e1, e2, writeBytes_aligned]
      simp only [ha, if_false]
    · rfl
  · rfl

/-- The device buffer after a miss on an edited slot that holds page `q` is the one the
write-back of the slot buffer for page `q` leaves. -/
theorem miss_gpu_edited [ElemLayout T] (m : Msgs) (f : ClFaults) (va : VirtualArray T) (P q : Nat)
    (hq : (va.cpu (P % va.nump)).targetGpuPage = some q)
    (he : (va.cpu (P % va.nump)).edited = true) :
    (va.miss m f P).1.gpu =
      (clEnqueueWriteBuffer f.write va.sz va.szp va.gpu (some q)
        (va.cpu (P % va.nump)).ptr).2 := by
  unfold miss
  dsimp only
  rw [if_pos (by simpa [Page.isEdited] using he)]
  simp only [Page.getTargetGpuPage, hq]

theorem miss_gpu_none [ElemLayout T] (m : Msgs) (f : ClFaults) (va : VirtualArray T) (P : Nat)
    (hq : (va.cpu (P % va.nump)).targetGpuPage = none) :
    (va.miss m f P).1.gpu = va.gpu := by
  unfold miss
  dsimp only
  split
  · simp only [Page.getTargetGpuPage, hq, clEnqueueWriteBuffer]
  · rfl

theorem step_hit_gpu [Inhabited T] [ElemLayout T] (f : ClFaults) (va : VirtualArray T) (op : Op T)
    (h : (va.cpu (op.index / va.szp % va.nump)).targetGpuPage = some (op.index / va.szp)) :
    (va.step f op).gpu = va.gpu := by
  have hh : va.hit (op.index / va.szp) = true := (hit_iff va _).mpr h
  cases hw : op.isWrite
  · rw [step_read f va op hw]
    unfold afterRead
    rw [if_pos hh]
  · rw [step_write f va op hw]
    unfold afterWrite
    simp only [if_pos hh]
    rfl

theorem step_edited [Inhabited T] [ElemLayout T] (f : ClFaults) (va : VirtualArray T) (op : Op T) :
    ((va.step f op).cpu (op.index / va.szp % va.nump)).edited =
      (op.isWrite || (va.hit (op.index / va.szp) &&
        (va.cpu (op.index / va.szp % va.nump)).edited)) := by
  cases hw : op.isWrite
  · rw [step_read f va op hw]
    unfold afterRead
    by_cases hh : va.hit (op.index / va.szp) = true
    · rw [if_pos hh, hh]; simp
    · rw [if_neg hh]
      simp only [setSlot, Function.update_same, Page.reset]
      simp [hh]
  · rw [step_write f va op hw, afterWrite_edited]
    rfl

end VirtualArray

/-- Counterexample to C18: in the engine `wrapDemo`, after `set(2 ^ 61, 9)` slot 0 is
edited and holds page `2 ^ 54`; `set(1, 3)` then misses on that slot, and its write-back,
issued at the byte offset `8 * 2 ^ 54 * 128` that wraps to 0, changes the device element
0, which lies outside `[2 ^ 54 * 128, 2 ^ 54 * 128 + 128)`. -/
theorem C18_counterexample :
    ((wrapDemo.step ClFaults.ok (Op.set (2 ^ 61) 9)).cpu
      ((Op.set 1 3 : Op Nat).index / 128 % 4)).targetGpuPage ≠
        some ((Op.set 1 3 : Op Nat).index / 128) ∧
    ((wrapDemo.step ClFaults.ok (Op.set (2 ^ 61) 9)).cpu
      ((Op.set 1 3 : Op Nat).index / 128 % 4)).edited = true ∧
    ((wrapDemo.step ClFaults.ok (Op.set (2 ^ 61) 9)).cpu
      ((Op.set 1 3 : Op Nat).index / 128 % 4)).targetGpuPage = some (2 ^ 54) ∧
    ¬ (2 ^ 54 * 128 ≤ 0 ∧ 0 < 2 ^ 54 * 128 + 128) ∧
    (wrapDemo.step ClFaults.ok (Op.set (2 ^ 61) 9)).gpu 0 = 0 ∧
    ((wrapDemo.step ClFaults.ok (Op.set (2 ^ 61) 9)).step ClFaults.ok (Op.set 1 3)).gpu 0
      = 9 := by
  decide

/-- C18 as amended (frame): a call of any of the six access functions with index `i`
leaves the sizes and every slot other than `(i / szp) mod nump` as they are (resident
page, edited flag and buffer).  It leaves the device buffer as it is on a hit and on a
miss on a slot that is not edited.  A miss on an edited slot that holds page `q` leaves
the device buffer as the write-back of the slot buffer for page `q` leaves it, at the
byte offset `sizeof(T) * q * szp` modulo `2 ^ 64`; when the byte size of the array is a
`size_t` and page `q` lies among the `sz` elements, it changes the device buffer at most
inside `[q * szp, q * szp + szp)`. -/
theorem C18_frame_within_array {T : Type} [Inhabited T] [ElemLayout T] (f : ClFaults)
    (va : VirtualArray T) (op : Op T) :
    ((va.step f op).sz = va.sz ∧ (va.step f op).szp = va.szp ∧
      (va.step f op).nump = va.nump) ∧
    (∀ s, s ≠ op.index / va.szp % va.nump → (va.step f op).cpu s = va.cpu s) ∧
    ((va.cpu (op.index / va.szp % va.nump)).targetGpuPage = some (op.index / va.szp) →
      (va.step f op).gpu = va.gpu) ∧
    ((va.cpu (op.index / va.szp % va.nump)).targetGpuPage ≠ some (op.index / va.szp) →
      (va.cpu (op.index / va.szp % va.nump)).edited = false →
      (va.step f op).gpu = va.gpu) ∧
    (∀ q, (va.cpu (op.index / va.szp % va.nump)).targetGpuPage ≠ some (op.index / va.szp) →
      (va.cpu (op.index / va.szp % va.nump)).edited = true →
      (va.cpu (op.index / va.szp % va.nump)).targetGpuPage = some q →
      (va.step f op).gpu =
        (clEnqueueWriteBuffer f.write va.sz va.szp va.gpu (some q)
          (va.cpu (op.index / va.szp % va.nump)).ptr).2 ∧
      (ElemLayout.bytes T * va.sz < 2 ^ 64 → q * va.szp + va.szp ≤ va.sz →
        ∀ a, ¬ (q * va.szp ≤ a ∧ a < q * va.szp + va.szp) →
          (va.step f op).gpu a = va.gpu a)) := by
  refine ⟨⟨step_sz f va op, step_szp f va op, step_nump f va op⟩,
    fun s hs => step_cpu_other f va op s hs, fun h => step_hit_gpu f va op h, ?_, ?_⟩
  · intro hm he
    rw [step_miss_gpu f va op hm]
    exact miss_gpu_clean _ _ _ _ he
  · intro q hm he hq
    refine ⟨?_, ?_⟩
    · rw [step_miss_gpu f va op hm]
      exact miss_gpu_edited _ _ _ _ q hq he
    · intro hB hfit a ha
      rw [step_miss_gpu f va op hm]
      exact miss_gpu_frame _ _ _ _ q a hq hB hfit ha

/-- Witness of C18 as amended: scenario A after `set(250, 7)`; `get(650)` misses on the
edited slot 2, which holds page 2, and leaves the device element 100 as it is. -/
theorem C18_frame_within_array_witness :
    ((scenarioA.step ClFaults.ok (Op.set 250 7)).step ClFaults.ok (Op.get 650)).gpu 100 =
      (scenarioA.step ClFaults.ok (Op.set 250 7)).gpu 100 :=
  ((C18_frame_within_array ClFaults.ok (scenarioA.step ClFaults.ok (Op.set 250 7))
    (Op.get 650)).2.2.2.2 2 (by decide) (by decide) (by decide)).2 (by decide) (by decide)
    100 (by decide)

/-! ## Histories -/

namespace VirtualArray

variable {T : Type}

theorem History.reachable [Inhabited T] [ElemLayout T] {va : VirtualArray T} {evs : List Event}
    (h : va.History evs) : va.Reachable := by
  induction h with
  | init sizeP sizePageP numActivePageP dev0 host0 h1 h2 =>
    exact Reachable.init _ _ _ _ _ h1 h2
  | step f va op evs _ ih => exact Reachable.step f va op ih

theorem Reachable.history [Inhabited T] [ElemLayout T] {va : VirtualArray T} (h : va.Reachable) :
    ∃ evs, va.History evs := by
  induction h with
  | init sizeP sizePageP numActivePageP dev0 host0 h1 h2 =>
    exact ⟨[], History.init _ _ _ _ _ h1 h2⟩
  | step f va op _ ih =>
    obtain ⟨evs, he⟩ := ih
    exact ⟨_, History.step f va op evs he⟩

theorem History.editedResident [Inhabited T] [ElemLayout T] {va : VirtualArray T} {evs : List Event}
    (h : va.History evs) : va.EditedResident := by
  induction h with
  | init sizeP sizePageP numActivePageP dev0 host0 _ _ =>
    intro s hs; simp [VirtualArray.init, Page.fresh] at hs
  | step f va op evs _ ih => exact step_editedResident f va op ih

theorem History.requested [Inhabited T] [ElemLayout T] {va : VirtualArray T} {evs : List Event}
    (h : va.History evs) :
    ∀ s q, (va.cpu s).targetGpuPage = some q → ∃ e ∈ evs, e.page = q := by
  induction h with
  | init sizeP sizePageP numActivePageP dev0 host0 _ _ =>
    intro s q hq; simp [VirtualArray.init, Page.fresh] at hq
  | step f va op evs _ ih =>
    intro s q hq
    by_cases hs : s = op.index / va.szp % va.nump
    · subst hs
      rw [step_target] at hq
      injection hq with hq
      exact ⟨va.eventOf op, List.mem_cons_self _ _, hq⟩
    · rw [step_cpu_other f va op s hs] at hq
      obtain ⟨e, he, hp⟩ := ih s q hq
      exact ⟨e, List.mem_cons_of_mem _ he, hp⟩

theorem writtenSinceLoad_nil : ¬ WrittenSinceLoad [] := by
  rintro ⟨newer, w, older, h, _, _⟩
  cases newer <;> simp at h

theorem writtenSinceLoad_cons (e : Event) (evs : List Event) :
    WrittenSinceLoad (e :: evs) ↔
      e.isWrite = true ∨ (e.miss = false ∧ WrittenSinceLoad evs) := by
  constructor
  · rintro ⟨newer, w, older, h, hw, hn⟩
    cases newer with
    | nil =>
      simp only [List.nil_append, List.cons.injEq] at h
      left; rw [h.1]; exact hw
    | cons d ds =>
      simp only [List.cons_append, List.cons.injEq] at h
      right
      refine ⟨?_, ds, w, older, h.2, hw, fun x hx => hn x (List.mem_cons_of_mem _ hx)⟩
      rw [h.1]; exact hn d (List.mem_cons_self _ _)
  · rintro (hw | ⟨hm, newer, w, older, h, hw, hn⟩)
    · exact ⟨[], e, evs, rfl, hw, fun x hx => by cases hx⟩
    · refine ⟨e :: newer, w, older, by rw [h]; rfl, hw, ?_⟩
      intro x hx
      rcases List.mem_cons.mp hx with rfl | hx
      · exact hm
      · exact hn x hx

theorem History.edited_iff [Inhabited T] [ElemLayout T] {va : VirtualArray T} {evs : List Event}
    (h : va.History evs) (s : Nat) :
    (va.cpu s).edited = true ↔
      WrittenSinceLoad (evs.filter (fun e => decide (e.page % va.nump = s))) := by
  induction h with
  | init sizeP sizePageP numActivePageP dev0 host0 _ _ =>
    simp only [List.filter_nil]
    constructor
    · intro hs; simp [VirtualArray.init, Page.fresh] at hs
    · intro hc; exact absurd hc writtenSinceLoad_nil
  | step f va op evs _ ih =>
    rw [step_nump]
    by_cases hs : s = op.index / va.szp % va.nump
    · subst hs
      have hf : (va.eventOf op :: evs).filter
          (fun e => decide (e.page % va.nump = op.index / va.szp % va.nump)) =
          va.eventOf op :: evs.filter
            (fun e => decide (e.page % va.nump = op.index / va.szp % va.nump)) := by
        rw [List.filter_cons_of_pos]
        simp [eventOf]
      rw [hf, writtenSinceLoad_cons, ← ih, step_edited]
      simp only [eventOf, Bool.or_eq_true, Bool.and_eq_true, Bool.not_eq_false']
    · have hf : (va.eventOf op :: evs).filter (fun e => decide (e.page % va.nump = s)) =
          evs.filter (fun e => decide (e.page % va.nump = s)) := by
        rw [List.filter_cons_of_neg]
        simp only [eventOf, decide_eq_true_eq]
        exact fun hc => hs hc.symm
      rw [hf, step_cpu_other f va op s hs]
      exact ih

end VirtualArray

/-- Counterexample to C17: the engine `wrapDemo` after `set(2 ^ 61, 9)` is reachable from
construction; slot 0 is edited and holds page `2 ^ 54`, and `get(0)` misses on it.  The
write-back of that miss does not go to the device region of page `2 ^ 54`: its byte
offset `8 * 2 ^ 54 * 128` wraps to 0 and the device element 0, outside
`[2 ^ 54 * 128, 2 ^ 54 * 128 + 128)`, changes from 0 to 9. -/
theorem C17_counterexample :
    (wrapDemo.step ClFaults.ok (Op.set (2 ^ 61) 9)).History
      [wrapDemo.eventOf (Op.set (2 ^ 61) 9)] ∧
    ((wrapDemo.step ClFaults.ok (Op.set (2 ^ 61) 9)).cpu 0).edited = true ∧
    ((wrapDemo.step ClFaults.ok (Op.set (2 ^ 61) 9)).cpu 0).getTargetGpuPage =
      some (2 ^ 54) ∧
    (Op.get 0 : Op Nat).index / (wrapDemo.step ClFaults.ok (Op.set (2 ^ 61) 9)).szp %
      (wrapDemo.step ClFaults.ok (Op.set (2 ^ 61) 9)).nump = 0 ∧
    byteOffset 8 (2 ^ 54) 128 = 0 ∧
    ¬ (2 ^ 54 * 128 ≤ 0 ∧ 0 < 2 ^ 54 * 128 + 128) ∧
    (wrapDemo.step ClFaults.ok (Op.set (2 ^ 61) 9)).gpu 0 = 0 ∧
    ((wrapDemo.step ClFaults.ok (Op.set (2 ^ 61) 9)).step ClFaults.ok (Op.get 0)).gpu 0
      = 9 :=
  ⟨VirtualArray.History.step _ _ _ _
      (VirtualArray.History.init 12800 128 4 _ _ (by decide) (by decide)),
    by decide, by decide, by decide, by decide, by decide, by decide, by decide⟩

/-- C17 as amended (no write-back from an empty slot): in every state reachable from
construction, with the record `evs` of the calls made, an edited slot `s` holds a page
`q`, never the "none yet" value; `q` was requested by an earlier call and
`q mod nump = s`.  The write-back of a miss on that slot is issued for page `q`, at the
byte offset `sizeof(T) * q * szp` modulo `2 ^ 64`: the device buffer after the call is
the one this write-back leaves.  When the byte size of the array is a `size_t` and page
`q` lies among the `sz` elements, the call leaves the device buffer outside
`[q * szp, q * szp + szp)` as it is. -/
theorem C17_write_back_of_resident_page {T : Type} [Inhabited T] [ElemLayout T]
    (va : VirtualArray T) (evs : List Event) (h : va.History evs) (s : Nat)
    (hs : s < va.nump) (he : (va.cpu s).edited = true) :
    (va.cpu s).targetGpuPage ≠ none ∧
    ∃ q, (va.cpu s).getTargetGpuPage = some q ∧ q % va.nump = s ∧
      (∃ e ∈ evs, e.page = q) ∧
      ∀ (f : ClFaults) (op : Op T), op.index / va.szp % va.nump = s →
        (va.hit (op.index / va.szp) = false →
          (va.step f op).gpu =
            (clEnqueueWriteBuffer f.write va.sz va.szp va.gpu (some q) (va.cpu s).ptr).2) ∧
        (ElemLayout.bytes T * va.sz < 2 ^ 64 → q * va.szp + va.szp ≤ va.sz →
          ∀ a, ¬ (q * va.szp ≤ a ∧ a < q * va.szp + va.szp) →
            (va.step f op).gpu a = va.gpu a) := by
  have hne := h.editedResident s he
  obtain ⟨q, hq⟩ := Option.ne_none_iff_exists'.mp hne
  refine ⟨hne, q, hq, h.reachable.placed s q hs hq, h.requested s q hq, ?_⟩
  intro f op hop
  subst hop
  refine ⟨?_, ?_⟩
  · intro hmiss
    have hh : (va.cpu (op.index / va.szp % va.nump)).targetGpuPage ≠
        some (op.index / va.szp) := by
      intro hc
      rw [(hit_iff va _).mpr hc] at hmiss
      exact Bool.noConfusion hmiss
    rw [step_miss_gpu f va op hh]
    exact miss_gpu_edited _ _ _ _ q hq he
  · intro hB hfit a ha
    by_cases hh : (va.cpu (op.index / va.szp % va.nump)).targetGpuPage =
        some (op.index / va.szp)
    · rw [step_hit_gpu f va op hh]
    · rw [step_miss_gpu f va op hh]
      exact miss_gpu_frame _ _ _ _ q a hq hB hfit ha

/-- Witness of C17 as amended: scenario A after `set(250, 7)`; slot 2 is edited and holds
page 2. -/
theorem C17_write_back_of_resident_page_witness :
    ((scenarioA.step ClFaults.ok (Op.set 250 7)).cpu 2).edited = true ∧
    ((scenarioA.step ClFaults.ok (Op.set 250 7)).cpu 2).targetGpuPage ≠ none :=
  ⟨by decide,
   (C17_write_back_of_resident_page (scenarioA.step ClFaults.ok (Op.set 250 7))
      [scenarioA.eventOf (Op.set 250 7)]
      (History.step _ _ _ _ (History.init 10000 100 4 _ _ (by decide) (by decide)))
      2 (by decide) (by decide)).1⟩

/-- C15 (dirty-bit lifecycle): after `set`, `setN` or `copyFromBuffer` the addressed slot
is edited, hit or miss; after `get`, `getN` or `copyToBuffer` that misses it is not
edited; `get`, `getN` or `copyToBuffer` that hits leaves the flag as it is.  Hence in
every reachable state, with the record `evs` of the calls made, a slot is edited if and
only if, among the calls that addressed it, a write operation occurs at or after the
most recent page load. -/
theorem C15_dirty_bit_lifecycle {T : Type} [Inhabited T] [ElemLayout T] (va : VirtualArray T)
    (evs : List Event) (h : va.History evs) :
    (∀ (f : ClFaults) (op : Op T),
      (op.isWrite = true →
        ((va.step f op).cpu (op.index / va.szp % va.nump)).edited = true) ∧
      (op.isWrite = false → va.hit (op.index / va.szp) = false →
        ((va.step f op).cpu (op.index / va.szp % va.nump)).edited = false) ∧
      (op.isWrite = false → va.hit (op.index / va.szp) = true →
        ((va.step f op).cpu (op.index / va.szp % va.nump)).edited =
          (va.cpu (op.index / va.szp % va.nump)).edited)) ∧
    ∀ s, s < va.nump →
      ((va.cpu s).edited = true ↔
        WrittenSinceLoad (evs.filter (fun e => decide (e.page % va.nump = s)))) := by
  refine ⟨fun f op => ⟨?_, ?_, ?_⟩, fun s _ => h.edited_iff s⟩
  · intro hw; rw [step_edited, hw]; rfl
  · intro hw hh; rw [step_edited, hw, hh]; rfl
  · intro hw hh; rw [step_edited, hw, hh]; simp

/-- Witness of C15: scenario A after `set(250, 7)` and `get(650)`; the read missed on
slot 2 after the write, so the slot is not edited, and no write follows the load. -/
theorem C15_dirty_bit_lifecycle_witness :
    (((scenarioA.step ClFaults.ok (Op.set 250 7)).step ClFaults.ok (Op.get 650)).cpu
      2).edited = false ∧
    ((((scenarioA.step ClFaults.ok (Op.set 250 7)).step ClFaults.ok (Op.get 650)).cpu
      2).edited = true ↔
      WrittenSinceLoad
        (([(scenarioA.step ClFaults.ok (Op.set 250 7)).eventOf (Op.get 650),
          scenarioA.eventOf (Op.set 250 7)] : List Event).filter
          (fun e => decide (e.page %
            ((scenarioA.step ClFaults.ok (Op.set 250 7)).step ClFaults.ok
              (Op.get 650)).nump = 2)))) :=
  ⟨by decide, (C15_dirty_bit_lifecycle
    ((scenarioA.step ClFaults.ok (Op.set 250 7)).step ClFaults.ok (Op.get 650)) _
    (History.step _ _ _ _ (History.step _ _ _ _
      (History.init 10000 100 4 _ _ (by decide) (by decide))))).2 2 (by decide)⟩

/-! ## Failed transfers -/

namespace VirtualArray

variable {T : Type}

theorem writeBuffer_snd_failed [ElemLayout T] (fl : Bool) (sz szp : Nat) (g h : Nat → T)
    (t : Option Nat)
    (hf : (clEnqueueWriteBuffer fl sz szp g t h).1 = false) :
    (clEnqueueWriteBuffer fl sz szp g t h).2 = g := by
  unfold clEnqueueWriteBuffer at hf ⊢
  cases t with
  | none => rfl
  | some q =>
    dsimp only at hf ⊢
    split
    · rename_i hc; rw [if_pos hc] at hf; exact absurd hf (by simp)
    · rfl

/-- The reports of the miss block: one for a failed write-back, then one for a failed
read-in. -/
theorem miss_log [ElemLayout T] (m : Msgs) (f : ClFaults) (va : VirtualArray T) (P : Nat) :
    (va.miss m f P).2 =
      (if (va.cpu (P % va.nump)).edited = true ∧ va.writeBackOk f P = false then
          [m.editedWrite P] else []) ++
      (if va.readInOk f P = true then []
        else [if (va.cpu (P % va.nump)).edited = true then m.editedRead P
              else m.cleanRead P]) := by
  unfold miss
  dsimp only
  by_cases he : (va.cpu (P % va.nump)).edited = true
  · rw [if_pos (by simpa [Page.isEdited] using he)]
    simp only [he, true_and, if_true, readInOk, writeBackOk, readBuffer_fst]
    cases (clEnqueueWriteBuffer f.write va.sz va.szp va.gpu
      (va.cpu (P % va.nump)).getTargetGpuPage (va.cpu (P % va.nump)).ptr).1 <;>
    cases transferAccepted f.read (ElemLayout.bytes T) va.sz
      (byteOffset (ElemLayout.bytes T) P va.szp) (byteCount (ElemLayout.bytes T) va.szp) <;>
    simp
  · rw [if_neg (by simpa [Page.isEdited] using he)]
    simp only [he, false_and, if_false, readInOk, List.nil_append, Bool.false_eq_true,
      readBuffer_fst]

theorem miss_arr_read_failed [ElemLayout T] (m : Msgs) (f : ClFaults) (va : VirtualArray T)
    (P : Nat)
    (h : va.readInOk f P = false) :
    ((va.miss m f P).1.cpu (P % va.nump)).arr = (va.cpu (P % va.nump)).arr := by
  unfold readInOk at h
  rw [readBuffer_fst] at h
  exact (miss_read_rejected m f va P h).1

theorem miss_gpu_write_failed [ElemLayout T] (m : Msgs) (f : ClFaults) (va : VirtualArray T)
    (P : Nat)
    (h : va.writeBackOk f P = false) : (va.miss m f P).1.gpu = va.gpu := by
  unfold miss
  dsimp only
  split
  · exact writeBuffer_snd_failed _ _ _ _ _ _ h
  · rfl

/-- The reports of a call are those of its miss block, and none on a hit. -/
theorem report_eq [Inhabited T] [ElemLayout T] (f : ClFaults) (va : VirtualArray T) (op : Op T) :
    ∃ m : Msgs, va.report f op =
      if va.hit (op.index / va.szp) = true then []
      else (va.miss m f (op.index / va.szp)).2 := by
  cases op with
  | get i =>
    refine ⟨getMsgs, ?_⟩
    simp only [report, VirtualArray.get, hit, Op.index, decide_eq_true_eq]
    split <;> rfl
  | set i v =>
    refine ⟨setMsgs, ?_⟩
    simp only [report, VirtualArray.set, hit, Op.index, decide_eq_true_eq]
    split <;> rfl
  | getN i n =>
    refine ⟨getNMsgs, ?_⟩
    simp only [report, VirtualArray.getN, hit, Op.index, decide_eq_true_eq]
    split <;> rfl
  | setN i val k n =>
    refine ⟨setNMsgs, ?_⟩
    simp only [report, VirtualArray.setN, hit, Op.index, decide_eq_true_eq]
    split <;> rfl
  | copyToBuffer i r =>
    refine ⟨copyMsgs, ?_⟩
    simp only [report, VirtualArray.copyToBuffer, hit, Op.index, decide_eq_true_eq]
    split <;> rfl
  | copyFromBuffer i r src =>
    refine ⟨copyMsgs, ?_⟩
    simp only [report, VirtualArray.copyFromBuffer, hit, Op.index, decide_eq_true_eq]
    split <;> rfl

theorem report_length [Inhabited T] [ElemLayout T] (f : ClFaults) (va : VirtualArray T) (op : Op T)
    (hmiss : va.hit (op.index / va.szp) = false) :
    (va.report f op).length =
      (if (va.cpu (op.index / va.szp % va.nump)).edited = true ∧
          va.writeBackOk f (op.index / va.szp) = false then 1 else 0) +
      (if va.readInOk f (op.index / va.szp) = true then 0 else 1) := by
  obtain ⟨m, hm⟩ := report_eq f va op
  rw [hm, if_neg (by rw [hmiss]; exact Bool.false_ne_true), miss_log, List.length_append]
  congr 1
  · split <;> rfl
  · split <;> rfl

/-- The values a call hands back are read from the slot buffer at the computed offset. -/
theorem returned_eq [Inhabited T] [ElemLayout T] (f : ClFaults) (va : VirtualArray T) (op : Op T) :
    va.returned f op =
      if op.isWrite = true then []
      else (List.range op.count).map (fun k =>
        ((va.step f op).cpu (op.index / va.szp % va.nump)).arr
          (subU64 op.index (mulU64 (op.index / va.szp) va.szp) + k)) := by
  cases op with
  | get i =>
    simp only [returned, Op.isWrite, Op.count, Op.index, step, Bool.false_eq_true, if_false]
    show _ = [((va.get f i).va.cpu (i / va.szp % va.nump)).arr
      (subU64 i (mulU64 (i / va.szp) va.szp) + 0)]
    rw [Nat.add_zero, ← get_val_slot]
  | getN i n =>
    simp only [returned, Op.isWrite, Op.count, Op.index, step, Bool.false_eq_true, if_false]
    exact getN_val_slot f va i n
  | copyToBuffer i r =>
    simp only [returned, Op.isWrite, Op.count, Op.index, step, Bool.false_eq_true, if_false]
    exact copyToBuffer_val_slot f va i r
  | set i v => rfl
  | setN i val k n => rfl
  | copyFromBuffer i r src => rfl

theorem step_bookkeeping [Inhabited T] [ElemLayout T] (f f' : ClFaults) (va : VirtualArray T)
    (op : Op T)
    (s : Nat) :
    ((va.step f op).cpu s).targetGpuPage = ((va.step f' op).cpu s).targetGpuPage ∧
      ((va.step f op).cpu s).edited = ((va.step f' op).cpu s).edited := by
  by_cases hs : s = op.index / va.szp % va.nump
  · subst hs
    rw [step_target, step_target, step_edited, step_edited]
    exact ⟨rfl, rfl⟩
  · rw [step_cpu_other f va op s hs, step_cpu_other f' va op s hs]
    exact ⟨rfl, rfl⟩

end VirtualArray

/-- C11 (failure semantics): a call of any of the six access functions that misses
completes whatever the enqueues do, with the bookkeeping of the successful case: the
slot holds the requested page, it is edited exactly after a write operation, and
resident page and edited flag of every slot are those of the same call under a runtime
without faults.  There is no retry: each failed enqueue is reported once, a failed
read-in of a read operation leaves the slot buffer as it was and a failed write-back
leaves the device buffer as it was.  A read operation hands back what the slot buffer
holds at the computed offset. -/
theorem C11_failure_semantics {T : Type} [Inhabited T] [ElemLayout T] (f : ClFaults)
    (va : VirtualArray T) (op : Op T) (hmiss : va.hit (op.index / va.szp) = false) :
    ((va.step f op).cpu (op.index / va.szp % va.nump)).targetGpuPage =
      some (op.index / va.szp) ∧
    ((va.step f op).cpu (op.index / va.szp % va.nump)).edited = op.isWrite ∧
    (∀ s, ((va.step f op).cpu s).targetGpuPage =
        ((va.step ClFaults.ok op).cpu s).targetGpuPage ∧
      ((va.step f op).cpu s).edited = ((va.step ClFaults.ok op).cpu s).edited) ∧
    (va.report f op).length =
      (if (va.cpu (op.index / va.szp % va.nump)).edited = true ∧
          va.writeBackOk f (op.index / va.szp) = false then 1 else 0) +
      (if va.readInOk f (op.index / va.szp) = true then 0 else 1) ∧
    (va.readInOk f (op.index / va.szp) = false → op.isWrite = false →
      ((va.step f op).cpu (op.index / va.szp % va.nump)).arr =
        (va.cpu (op.index / va.szp % va.nump)).arr) ∧
    (va.writeBackOk f (op.index / va.szp) = false → (va.step f op).gpu = va.gpu) ∧
    va.returned f op =
      if op.isWrite = true then []
      else (List.range op.count).map (fun k =>
        ((va.step f op).cpu (op.index / va.szp % va.nump)).arr
          (subU64 op.index (mulU64 (op.index / va.szp) va.szp) + k)) := by
  have hm : (va.cpu (op.index / va.szp % va.nump)).targetGpuPage ≠
      some (op.index / va.szp) := by
    intro hc
    rw [(hit_iff va _).mpr hc] at hmiss
    exact Bool.noConfusion hmiss
  refine ⟨step_target f va op, ?_, fun s => step_bookkeeping f ClFaults.ok va op s,
    report_length f va op hmiss, ?_, ?_, returned_eq f va op⟩
  · rw [step_edited, hmiss]; simp
  · intro hr hw
    rw [step_miss_read_arr f va op hm hw]
    exact miss_arr_read_failed _ _ _ _ hr
  · intro hw
    rw [step_miss_gpu f va op hm]
    exact miss_gpu_write_failed _ _ _ _ hw

/-- Witness of C11: `get(250)` in scenario A when the read-in fails; one report, page 2
resident in slot 2, the value of the untouched slot buffer handed back. -/
theorem C11_failure_semantics_witness :
    scenarioA.readInOk { write := false, read := true, finish := false } (250 / 100) = false ∧
    ((scenarioA.step { write := false, read := true, finish := false } (Op.get 250)).cpu
      ((Op.get 250 : Op Nat).index / scenarioA.szp % scenarioA.nump)).targetGpuPage =
      some ((Op.get 250 : Op Nat).index / scenarioA.szp) ∧
    (scenarioA.report { write := false, read := true, finish := false }
      (Op.get 250)).length = 1 :=
  ⟨by decide,
   (C11_failure_semantics { write := false, read := true, finish := false } scenarioA
      (Op.get 250) (by decide)).1,
   by
    rw [(C11_failure_semantics { write := false, read := true, finish := false } scenarioA
      (Op.get 250) (by decide)).2.2.2.1]
    decide⟩

/-- Counterexample to C12: `get(250)` in scenario A misses; when the two enqueues succeed
and `clFinish` fails, the call reports nothing. -/
theorem C12_counterexample :
    scenarioA.hit (250 / scenarioA.szp) = false ∧
    ({ write := false, read := false, finish := true } : ClFaults).finish = true ∧
    scenarioA.report { write := false, read := false, finish := true } (Op.get 250) = [] := by
  decide

/-- C12 as amended: on a miss of any of the six access functions, a failed write-back
enqueue and a failed read-in enqueue are each reported, so a call with a failed enqueue
reports at least once; when both enqueues succeed the call reports nothing, whatever
`clFinish` returns. -/
theorem C12_enqueue_failures_reported {T : Type} [Inhabited T] [ElemLayout T] (f : ClFaults)
    (va : VirtualArray T) (op : Op T) (hmiss : va.hit (op.index / va.szp) = false) :
    ((va.cpu (op.index / va.szp % va.nump)).edited = true →
      va.writeBackOk f (op.index / va.szp) = false → va.report f op ≠ []) ∧
    (va.readInOk f (op.index / va.szp) = false → va.report f op ≠ []) ∧
    (((va.cpu (op.index / va.szp % va.nump)).edited = false ∨
        va.writeBackOk f (op.index / va.szp) = true) →
      va.readInOk f (op.index / va.szp) = true → va.report f op = []) := by
  have hl := report_length f va op hmiss
  refine ⟨?_, ?_, ?_⟩
  · intro he hw hc
    rw [hc, if_pos ⟨he, hw⟩] at hl
    simp only [List.length_nil] at hl
    omega
  · intro hr hc
    have hne : ¬ (va.readInOk f (op.index / va.szp) = true) := by
      rw [hr]; exact Bool.false_ne_true
    rw [hc] at hl
    simp only [List.length_nil, if_neg hne] at hl
    omega
  · intro hw hr
    rw [if_pos hr, if_neg] at hl
    · exact List.length_eq_zero.mp hl
    · rintro ⟨he, hwf⟩
      rcases hw with hw | hw
      · rw [he] at hw; exact Bool.noConfusion hw
      · rw [hwf] at hw; exact Bool.noConfusion hw

/-- Witness of C12 as amended: `get(250)` in scenario A with a failing read-in enqueue
reports. -/
theorem C12_enqueue_failures_reported_witness :
    scenarioA.report { write := false, read := true, finish := false } (Op.get 250) ≠ [] :=
  (C12_enqueue_failures_reported { write := false, read := true, finish := false } scenarioA
    (Op.get 250) (by decide)).2.1 (by decide)

/-! ## The engine as a plain array -/

namespace VirtualArray

variable {T : Type}

theorem returned_logical [Inhabited T] [ElemLayout T] {va : VirtualArray T} (h : va.ReachableOk)
    (f : ClFaults) (op : Op T) (hwf : op.WellFormed va.szp)
    (hok : va.transfersOk f op.index = true) :
    va.returned f op = plainReturned va.logical op := by
  cases op with
  | get i =>
    simp only [returned, plainReturned]
    rw [get_logical h f i hwf.1 hok]
  | getN i n => exact getN_logical h f i n hwf hok
  | copyToBuffer i r =>
    simp only [returned, plainReturned]
    rw [(copyToBuffer_eq_getN f va i r).1]
    exact getN_logical h f i r hwf hok
  | set i v => rfl
  | setN i val k n => rfl
  | copyFromBuffer i r src => rfl

theorem step_logical_fun [Inhabited T] [ElemLayout T] {va : VirtualArray T} (h : va.ReachableOk)
    (f : ClFaults) (op : Op T) (hwf : op.WellFormed va.szp)
    (hok : va.transfersOk f op.index = true) :
    (va.step f op).logical = fun j => (op.written j).getD (va.logical j) := by
  obtain ⟨h1, h2, h3, h4⟩ := h.sound
  funext j
  exact step_logical f va op j h1 h2 h3 (h4 j) hwf hok

theorem runReturned_plain [Inhabited T] [ElemLayout T] (cs : List (ClFaults × Op T)) :
    ∀ {va : VirtualArray T}, va.ReachableOk → va.runOk cs →
      va.runReturned cs = plainRunReturned va.logical (cs.map Prod.snd) := by
  induction cs with
  | nil => intro _ _ _; rfl
  | cons c cs ih =>
    intro va h hok
    obtain ⟨hwf, ht, hrest⟩ := hok
    show va.returned c.1 c.2 :: (va.step c.1 c.2).runReturned cs =
      plainReturned va.logical c.2 ::
        plainRunReturned (fun j => (c.2.written j).getD (va.logical j)) (cs.map Prod.snd)
    rw [returned_logical h c.1 c.2 hwf ht, ih (ReachableOk.step c.1 va c.2 h hwf ht) hrest,
      step_logical_fun h c.1 c.2 hwf ht]

end VirtualArray

/-- C16 (refinement of a plain array): with `logical va j` the slot buffer element at the
offset of `j` when the page of `j` is resident and the device element `j` otherwise, in
every state reached with successful transfers `get(i)` returns `logical va i` and leaves
`logical` as it is at every index, and `set(i, v)` gives a state whose `logical` is the
old one updated at `i` to `v`.  So a run of calls hands back what the same calls hand
back on a plain array that starts as `logical va`, which at construction is the initial
device contents. -/
theorem C16_refines_plain_array {T : Type} [Inhabited T] [ElemLayout T] (va : VirtualArray T)
    (hreach : va.ReachableOk) :
    (∀ f i, i < 2 ^ 64 → va.transfersOk f i = true →
      (va.get f i).val = va.logical i ∧ ∀ j, (va.get f i).va.logical j = va.logical j) ∧
    (∀ f i v, i < 2 ^ 64 → va.transfersOk f i = true →
      ∀ j, (va.set f i v).va.logical j = if j = i then v else va.logical j) ∧
    (∀ cs, va.runOk cs →
      va.runReturned cs = plainRunReturned va.logical (cs.map Prod.snd)) ∧
    (∀ sizeP sizePageP numActivePageP (dev0 : Nat → T) host0,
      (VirtualArray.init sizeP sizePageP numActivePageP dev0 host0).logical = dev0) := by
  obtain ⟨h1, h2, h3, h4⟩ := hreach.sound
  have hwf : ∀ i, i < 2 ^ 64 → ∀ op : Op T, op.index = i → op.count = 1 →
      op.WellFormed va.szp := by
    intro i hi op ho hc
    refine ⟨by rw [ho]; exact hi, ?_⟩
    have := Nat.mod_lt op.index h1
    rw [hc]; omega
  refine ⟨?_, ?_, fun cs hok => runReturned_plain cs hreach hok, ?_⟩
  · intro f i hi hok
    refine ⟨get_logical hreach f i hi hok, fun j => ?_⟩
    have := step_logical f va (Op.get i) j h1 h2 h3 (h4 j) (hwf i hi _ rfl rfl) hok
    simpa [step, Op.written] using this
  · intro f i v hi hok j
    have := step_logical f va (Op.set i v) j h1 h2 h3 (h4 j) (hwf i hi _ rfl rfl) hok
    simp only [step, Op.written] at this
    rw [this]
    split <;> rfl
  · intro sizeP sizePageP numActivePageP dev0 host0
    funext j
    exact init_logical _ _ _ _ _ j

/-- Witness of C16, scenario A: `set(250, 7)`, `get(650)`, `get(250)` hand back nothing,
0 and 7, as on a plain array of zeros. -/
theorem C16_refines_plain_array_witness :
    scenarioA.runReturned
        [(ClFaults.ok, Op.set 250 7), (ClFaults.ok, Op.get 650), (ClFaults.ok, Op.get 250)] =
      plainRunReturned scenarioA.logical
        ([(ClFaults.ok, Op.set 250 7), (ClFaults.ok, Op.get 650),
          (ClFaults.ok, Op.get 250)].map Prod.snd) ∧
    scenarioA.runReturned
        [(ClFaults.ok, Op.set 250 7), (ClFaults.ok, Op.get 650), (ClFaults.ok, Op.get 250)] =
      [[], [0], [7]] :=
  ⟨(C16_refines_plain_array scenarioA
      (ReachableOk.init 10000 100 4 _ _ (by decide) (by decide))).2.2.1 _
      ⟨by decide, by decide, by decide, by decide, by decide, by decide, trivial⟩,
   by decide⟩

/-! ## The host buffer: reports and release -/

/-- In pinned mode a failed device allocation and a failed map are each reported. -/
theorem AlignedCpuArray.init_pinned_reports (env : HostEnv) (ctxP cqP sizeP alignment : Nat)
    (h : env.createBuffer = none ∨ env.mapBuffer = none) :
    (AlignedCpuArray.init env ctxP cqP sizeP alignment true).log ≠ [] := by
  simp only [AlignedCpuArray.init, if_true]
  rcases h with h | h
  · rw [h]; simp
  · rw [h]; simp

/-- C13, the code at the failing input: an `AlignedCpuArray` constructed in unpinned mode
while `aligned_alloc` returns the null pointer holds a null `arr` and has reported
nothing; the same failure of the allocation in pinned mode is reported. -/
theorem C13_unpinned_null_not_reported :
    (AlignedCpuArray.init
      { createBuffer := none, mapBuffer := none, alignedAlloc := none, uninit := none }
      0 0 1024 4096 false).obj.arr = none ∧
    (AlignedCpuArray.init
      { createBuffer := none, mapBuffer := none, alignedAlloc := none, uninit := none }
      0 0 1024 4096 false).log = [] ∧
    (AlignedCpuArray.init
      { createBuffer := none, mapBuffer := none, alignedAlloc := none, uninit := none }
      0 0 1024 4096 true).log = ["error: mem alloc host ptr", "error: map"] := by
  decide

/-- C14 (host-buffer release order): destroying an `AlignedCpuArray` that is pinned makes
exactly the calls unmap, then release of the device allocation, also when the unmap
reports failure, and no `free`; destroying one that is not pinned makes no unmap and no
release, and exactly one `free` when the pointer is not null, none when it is null.  An
object is pinned exactly when it was built in pinned mode. -/
theorem C14_release_order (env : HostEnv) (ctxP cqP sizeP alignment : Nat)
    (unmapFails releaseFails : Bool) (a : AlignedCpuArray) :
    (a.pinned = true → (a.destroy unmapFails releaseFails).calls =
      [HostCall.clEnqueueUnmapMemObject, HostCall.clReleaseMemObject]) ∧
    (a.pinned = false → a.arr ≠ none →
      (a.destroy unmapFails releaseFails).calls = [HostCall.free]) ∧
    (a.pinned = false → a.arr = none → (a.destroy unmapFails releaseFails).calls = []) ∧
    (∀ pinArray, (AlignedCpuArray.init env ctxP cqP sizeP alignment pinArray).obj.pinned =
      pinArray) ∧
    ((AlignedCpuArray.init env ctxP cqP sizeP alignment true).obj.destroy unmapFails
        releaseFails).calls =
      [HostCall.clEnqueueUnmapMemObject, HostCall.clReleaseMemObject] ∧
    ((AlignedCpuArray.init env ctxP cqP sizeP alignment false).obj.destroy unmapFails
        releaseFails).calls =
      (if env.alignedAlloc ≠ none then [HostCall.free] else []) := by
  refine ⟨?_, ?_, ?_, ?_, ?_, ?_⟩
  · intro h; simp only [AlignedCpuArray.destroy, h, if_true]
  · intro h ha
    simp only [AlignedCpuArray.destroy, h, Bool.false_eq_true, if_false, ne_eq, ha,
      not_false_eq_true, if_true]
  · intro h ha
    simp only [AlignedCpuArray.destroy, h, Bool.false_eq_true, if_false, ne_eq, ha,
      not_true_eq_false]
  · intro pinArray
    cases pinArray <;> rfl
  · simp only [AlignedCpuArray.init, AlignedCpuArray.destroy, if_true]
  · simp only [AlignedCpuArray.init, AlignedCpuArray.destroy, Bool.false_eq_true, if_false]
    split <;> rfl

end VirtualMultiArray
